import Mathlib

/-!
# Course Engine — verification of the conversion core

A shallow embedding, in Lean 4, of the conversion core of the
`course-engine` repository (spreadsheet ⇄ OLX archive converter):

* `src/utils.js` — `escapeXml`, `textToHtml`, `formatEdxDate`;
* `src/tar.js`, `src/untar.js`, `src/archive.js` — the ustar/gzip codec;
* `src/parser.js` — the workbook decoder;
* `src/model.js` — the course model and `buildHierarchy`;
* the OLX generators under `src/generators/` and the OLX reverse
  parser (`parseOlx`).

Text is modelled as `List Char`; bytes as `Nat` (reduced mod 256 at the
points where the JavaScript writes into a `Uint8Array`).  External
platform facilities (the `fflate` gzip pair, `TextEncoder`/`TextDecoder`)
are not code of the repository; they enter only as parameters or as the
ASCII fragment of UTF-8, as noted at each definition.
-/

namespace CourseEngine

/-- Text, modelled as a list of characters. -/
abbrev Str := List Char

/-! ## `escapeXml` (src/utils.js)

The JavaScript source applies five chained global single-character
replacements, in the order `&`, `<`, `>`, `"`, `'`.  `replChar c rep`
models one such global replacement: every occurrence of the single
character `c` is replaced by the string `rep`. -/

/-- One global single-character replacement, `str.replace(/c/g, rep)`. -/
def replChar (c : Char) (rep : Str) : Str → Str
  | [] => []
  | x :: xs => (if x = c then rep else [x]) ++ replChar c rep xs

/-- `escapeXml` from src/utils.js.  `none` models a `null`/`undefined`
argument (the source returns `''` for those); otherwise the five
replacements are applied in source order. -/
def escapeXml (s : Option Str) : Str :=
  match s with
  | none => []
  | some str =>
    replChar '\'' "&apos;".data
      (replChar '"' "&quot;".data
        (replChar '>' "&gt;".data
          (replChar '<' "&lt;".data
            (replChar '&' "&amp;".data str))))

/-- `escapeXml` applied to an actual string (the generators only ever
pass strings). -/
def escX (s : Str) : Str := escapeXml (some s)

/-- The five entities `escapeXml` may emit. -/
def xmlEntities : List Str :=
  ["&amp;".data, "&lt;".data, "&gt;".data, "&quot;".data, "&apos;".data]

/-- Per-character expansion equivalent of the five chained replacements. -/
def encChar (c : Char) : Str :=
  if c = '&' then "&amp;".data
  else if c = '<' then "&lt;".data
  else if c = '>' then "&gt;".data
  else if c = '"' then "&quot;".data
  else if c = '\'' then "&apos;".data
  else [c]

theorem replChar_append (c : Char) (rep : Str) (l₁ l₂ : Str) :
    replChar c rep (l₁ ++ l₂) = replChar c rep l₁ ++ replChar c rep l₂ := by
  induction l₁ with
  | nil => rfl
  | cons x xs ih => simp [replChar, ih]

/-- The chained replacements act on a single character as `encChar`. -/
theorem escX_single (x : Char) : escX [x] = encChar x := by
  by_cases h1 : x = '&'
  · subst h1; rfl
  · by_cases h2 : x = '<'
    · subst h2; rfl
    · by_cases h3 : x = '>'
      · subst h3; rfl
      · by_cases h4 : x = '"'
        · subst h4; rfl
        · by_cases h5 : x = '\''
          · subst h5; rfl
          · simp [escX, escapeXml, replChar, encChar, h1, h2, h3, h4, h5]

/-- `escapeXml` is the per-character expansion `encChar`, concatenated. -/
theorem escX_eq_flatMap (s : Str) : escX s = s.flatMap encChar := by
  induction s with
  | nil => rfl
  | cons x xs ih =>
    have hsplit : escX (x :: xs) = escX [x] ++ escX xs := by
      simp [escX, escapeXml, replChar_append, replChar]
    rw [hsplit, escX_single, ih, List.flatMap_cons]

/-- Escaped output, as a grammar: the empty string, a safe character
followed by escaped output, or one of the five entities followed by
escaped output. -/
inductive EscapedForm : Str → Prop
  | nil : EscapedForm []
  | safe (c : Char) (rest : Str)
      (hc : c ≠ '&' ∧ c ≠ '<' ∧ c ≠ '>' ∧ c ≠ '"' ∧ c ≠ '\'')
      (h : EscapedForm rest) : EscapedForm (c :: rest)
  | ent (e : Str) (rest : Str) (he : e ∈ xmlEntities)
      (h : EscapedForm rest) : EscapedForm (e ++ rest)

theorem escapedForm_flatMap (s : Str) : EscapedForm (s.flatMap encChar) := by
  induction s with
  | nil => exact EscapedForm.nil
  | cons x xs ih =>
    rw [List.flatMap_cons]
    by_cases h1 : x = '&'
    · exact EscapedForm.ent _ _ (by subst h1; simp [encChar, xmlEntities]) ih
    · by_cases h2 : x = '<'
      · exact EscapedForm.ent _ _ (by subst h2; simp [encChar, xmlEntities]) ih
      · by_cases h3 : x = '>'
        · exact EscapedForm.ent _ _ (by subst h3; simp [encChar, xmlEntities]) ih
        · by_cases h4 : x = '"'
          · exact EscapedForm.ent _ _ (by subst h4; simp [encChar, xmlEntities]) ih
          · by_cases h5 : x = '\''
            · exact EscapedForm.ent _ _ (by subst h5; simp [encChar, xmlEntities]) ih
            · have : encChar x = [x] := by simp [encChar, h1, h2, h3, h4, h5]
              rw [this]
              exact EscapedForm.safe x _ ⟨h1, h2, h3, h4, h5⟩ ih

theorem escapedForm_no_specials {r : Str} (h : EscapedForm r) :
    '<' ∉ r ∧ '>' ∉ r ∧ '"' ∉ r ∧ '\'' ∉ r := by
  induction h with
  | nil => simp
  | safe c rest hc _ ih =>
    obtain ⟨_, h2, h3, h4, h5⟩ := hc
    obtain ⟨i1, i2, i3, i4⟩ := ih
    refine ⟨?_, ?_, ?_, ?_⟩ <;> simp only [List.mem_cons, not_or]
    · exact ⟨fun hh => h2 hh.symm, i1⟩
    · exact ⟨fun hh => h3 hh.symm, i2⟩
    · exact ⟨fun hh => h4 hh.symm, i3⟩
    · exact ⟨fun hh => h5 hh.symm, i4⟩
  | ent e rest he _ ih =>
    have he' : '<' ∉ e ∧ '>' ∉ e ∧ '"' ∉ e ∧ '\'' ∉ e := by
      simp only [xmlEntities, List.mem_cons, List.not_mem_nil, or_false] at he
      rcases he with h | h | h | h | h <;> subst h <;>
        exact ⟨by decide, by decide, by decide, by decide⟩
    obtain ⟨i1, i2, i3, i4⟩ := ih
    refine ⟨?_, ?_, ?_, ?_⟩ <;> simp only [List.mem_append, not_or]
    · exact ⟨he'.1, i1⟩
    · exact ⟨he'.2.1, i2⟩
    · exact ⟨he'.2.2.1, i3⟩
    · exact ⟨he'.2.2.2, i4⟩

/-- A suffix that starts with `&` cannot start inside an `&`-free chunk. -/
theorem suffix_no_amp (l rest suf : Str) (hne : '&' ∉ l)
    (hsuf : suf <:+ l ++ rest) (hhead : suf.head? = some '&') :
    suf <:+ rest := by
  induction l with
  | nil => simpa using hsuf
  | cons c ct ih =>
    rcases List.suffix_cons_iff.mp (by simpa using hsuf) with h1 | h1
    · exfalso
      subst h1
      simp only [List.head?_cons, Option.some.injEq] at hhead
      exact hne (by simp [hhead])
    · exact ih (fun hm => hne (List.mem_cons_of_mem _ hm)) h1

/-- A suffix of `('&' :: etail) ++ rest` that starts with `&`, where
`etail` is `&`-free, is the whole list or a suffix of `rest`. -/
theorem suffix_amp_split (etail rest suf : Str) (hne : '&' ∉ etail)
    (hsuf : suf <:+ ('&' :: etail) ++ rest) (hhead : suf.head? = some '&') :
    suf = ('&' :: etail) ++ rest ∨ suf <:+ rest := by
  rcases List.suffix_cons_iff.mp (by simpa using hsuf) with h1 | h1
  · left; simpa using h1
  · right; exact suffix_no_amp etail rest suf hne h1 hhead

/-- Every suffix of escaped output that starts with `&` starts with one
of the five entities. -/
theorem escapedForm_amp_entity {r : Str} (h : EscapedForm r) :
    ∀ suf : Str, suf <:+ r → suf.head? = some '&' →
      ∃ e ∈ xmlEntities, e <+: suf := by
  induction h with
  | nil =>
    intro suf hsuf hhead
    rw [List.suffix_nil] at hsuf
    subst hsuf; simp at hhead
  | safe c rest hc _ ih =>
    intro suf hsuf hhead
    rcases List.suffix_cons_iff.mp hsuf with h1 | h1
    · subst h1
      simp only [List.head?_cons, Option.some.injEq] at hhead
      exact absurd hhead hc.1
    · exact ih suf h1 hhead
  | ent e rest he _ ih =>
    intro suf hsuf hhead
    obtain ⟨etail, hetl, hne⟩ : ∃ t, e = '&' :: t ∧ '&' ∉ t := by
      simp only [xmlEntities, List.mem_cons, List.not_mem_nil, or_false] at he
      rcases he with h | h | h | h | h <;> subst h <;> exact ⟨_, rfl, by decide⟩
    subst hetl
    rcases suffix_amp_split etail rest suf hne hsuf hhead with h1 | h1
    · subst h1
      exact ⟨'&' :: etail, he, ('&' :: etail).prefix_append rest⟩
    · exact ih suf h1 hhead

/-- Claim helper: the characterization of escaped output. -/
theorem escX_escapedForm (s : Str) : EscapedForm (escX s) := by
  rw [escX_eq_flatMap]; exact escapedForm_flatMap s

/-- C10: for every input, `escapeXml` returns a string (the empty string
when the input is null/undefined) containing no raw `<`, `>`, `"` or `'`,
and in which every `&` begins one of the five entities `&amp;`, `&lt;`,
`&gt;`, `&quot;`, `&apos;` (stated as: every suffix of the output that
starts with `&` has one of the five entities as a prefix). -/
theorem c10_escapeXml_output_safe :
    escapeXml none = [] ∧
    ∀ s : Str,
      ('<' ∉ escX s ∧ '>' ∉ escX s ∧ '"' ∉ escX s ∧ '\'' ∉ escX s) ∧
      (∀ suf : Str, suf <:+ escX s → suf.head? = some '&' →
        ∃ e ∈ xmlEntities, e <+: suf) := by
  refine ⟨rfl, fun s => ⟨escapedForm_no_specials (escX_escapedForm s),
    escapedForm_amp_entity (escX_escapedForm s)⟩⟩

/-- Evaluation of C10 at the concrete input `"a&b<c"`. -/
theorem c10_escapeXml_output_safe_witness :
    '<' ∉ escX "a&b<c".data ∧
    ∃ e ∈ xmlEntities, e <+: "&amp;b&lt;c".data :=
  ⟨(c10_escapeXml_output_safe.2 "a&b<c".data).1.1,
   (c10_escapeXml_output_safe.2 "a&b<c".data).2 "&amp;b&lt;c".data
     ⟨['a'], by decide⟩ (by decide)⟩

/-! ## Archive codec (src/tar.js, src/untar.js, src/archive.js)

Bytes are `Nat`, reduced mod 256 exactly where the JavaScript writes
into a `Uint8Array`.  `Date.now()` is a parameter `mtime` (the source
reads the clock once per header; no claim depends on its value).
`charByte` models `charCodeAt` followed by the `Uint8Array` truncation;
it agrees with JavaScript for all characters of the Basic Multilingual
Plane, which covers every ASCII-restricted theorem below. -/

/-- Byte strings. -/
abbrev Bytes := List Nat

/-- `str.charCodeAt(i)` stored into a `Uint8Array` (truncates mod 256). -/
def charByte (c : Char) : Nat := c.toNat % 256

/-- Overwrite `vals` into `buf` starting at `off` (clipped to the
buffer, like writes into a fixed-size `Uint8Array`). -/
def overwrite (buf : Bytes) (off : Nat) (vals : Bytes) : Bytes :=
  buf.take off ++ vals.take (buf.length - off) ++ buf.drop (off + vals.length)

/-- `writeString(buf, offset, str, maxLen)` from src/tar.js. -/
def writeString (buf : Bytes) (off : Nat) (s : Str) (maxLen : Nat) : Bytes :=
  overwrite buf off ((s.map charByte).take maxLen)

/-- `String.prototype.padStart(n, c)`. -/
def padStart (s : Str) (n : Nat) (c : Char) : Str :=
  List.replicate (n - s.length) c ++ s

/-- `n.toString(8)` for a non-negative integer: octal digits, most
significant first, `"0"` for zero. -/
def octalStr (n : Nat) : Str :=
  if n = 0 then ['0'] else octalRec n
where
  /-- Digits of a positive number (empty for zero). -/
  octalRec : Nat → Str
    | 0 => []
    | n + 1 => octalRec ((n + 1) / 8) ++ [Char.ofNat (48 + (n + 1) % 8)]
  decreasing_by exact Nat.div_lt_self (Nat.succ_pos n) (by omega)

/-- `createTarHeader(name, size, isDir)` from src/tar.js (the source
reads `Date.now()` for `mtime`; here it is a parameter). -/
def createTarHeader (name : Str) (size : Nat) (isDir : Bool) (mtime : Nat) : Bytes :=
  let h0 : Bytes := List.replicate 512 0
  let h1 := writeString h0 0 name 100
  let h2 := writeString h1 100 (if isDir then "0000755".data else "0000644".data) 8
  let h3 := writeString h2 108 "0001000".data 8
  let h4 := writeString h3 116 "0001000".data 8
  let h5 := writeString h4 124 (padStart (octalStr size) 11 '0') 12
  let h6 := writeString h5 136 (padStart (octalStr mtime) 11 '0') 12
  let h7 := overwrite h6 148 (List.replicate 8 32)
  let h8 := overwrite h7 156 [if isDir then 0x35 else 0x30]
  let h9 := writeString h8 257 "ustar".data 6
  let h10 := overwrite (overwrite h9 263 [32]) 264 [32]
  let checksum := h10.sum
  writeString h10 148 (padStart (octalStr checksum) 6 '0' ++ [Char.ofNat 0, ' ']) 8

/-- File data zero-padded to a 512-byte boundary. -/
def padTo512 (data : Bytes) : Bytes :=
  data ++ List.replicate ((data.length + 511) / 512 * 512 - data.length) 0

/-- `str.split(sep)` for a single-character separator. -/
def splitChar (sep : Char) : Str → List Str
  | [] => [[]]
  | x :: xs =>
    if x = sep then [] :: splitChar sep xs
    else
      match splitChar sep xs with
      | [] => [[x]]
      | h :: t => (x :: h) :: t

/-- `parts.join(sep)` for a single-character separator. -/
def joinChar (sep : Char) : List Str → Str
  | [] => []
  | [p] => p
  | p :: ps => p ++ sep :: joinChar sep ps

/-- The directory paths synthesized for one entry name: for
`i = 1 .. parts.length - 1`, `parts.slice(0, i).join('/') + '/'`. -/
def dirPieces (name : Str) : List Str :=
  let parts := splitChar '/' name
  (List.range (parts.length - 1)).map
    (fun i => joinChar '/' (parts.take (i + 1)) ++ ['/'])

/-- First-occurrence deduplication (a JavaScript `Set` keeps insertion
order). -/
def dedupKeep (l : List Str) : List Str :=
  l.foldl (fun acc d => if d ∈ acc then acc else acc ++ [d]) []

/-- Lexicographic comparison by character code, the default
`Array.prototype.sort()` string order. -/
def ltStr : Str → Str → Bool
  | [], [] => false
  | [], _ :: _ => true
  | _ :: _, [] => false
  | a :: as, b :: bs =>
    if a.toNat < b.toNat then true
    else if b.toNat < a.toNat then false
    else ltStr as bs

/-- `createTar(entries)` from src/tar.js: sorted directory headers,
then per-file header plus padded data, then two zero blocks. -/
def createTar (entries : List (Str × Bytes)) (mtime : Nat) : Bytes :=
  let dirs := (dedupKeep (entries.flatMap (fun e => dirPieces e.1))).insertionSort
    (fun a b => ltStr a b = true)
  let dirBlocks := dirs.flatMap (fun d => createTarHeader d 0 true mtime)
  let fileBlocks := entries.flatMap
    (fun e => createTarHeader e.1 e.2.length false mtime ++ padTo512 e.2)
  dirBlocks ++ fileBlocks ++ List.replicate 1024 0

/-- `readString(buf, offset, maxLen)` from src/untar.js: bytes until the
first NUL (or the limit), decoded by character code. -/
def readString (buf : Bytes) (off maxLen : Nat) : Str :=
  (((buf.drop off).take maxLen).takeWhile (· ≠ 0)).map Char.ofNat

/-- `isZeroBlock` from src/untar.js. -/
def isZeroBlock (block : Bytes) : Bool := block.all (· = 0)

/-- JavaScript `String.prototype.trim` on the ASCII range. -/
def jsTrim (s : Str) : Str :=
  (s.dropWhile Char.isWhitespace).reverse.dropWhile Char.isWhitespace |>.reverse

/-- `parseInt(s, 8) || 0`: value of the maximal leading run of octal
digits, `0` when there is none. -/
def parseOctal (s : Str) : Nat :=
  (s.takeWhile (fun c => 48 ≤ c.toNat ∧ c.toNat ≤ 55)).foldl
    (fun a c => a * 8 + (c.toNat - 48)) 0

/-- Strip the leading path component: `substring(indexOf('/') + 1)` when
the first `/` occurs at a positive index, the string otherwise. -/
def stripFirstComponent (s : Str) : Str :=
  match s.findIdx? (· = '/') with
  | some i => if 0 < i then s.drop (i + 1) else s
  | none => s

/-- `Map.prototype.set`: overwrite in place when the key exists,
append otherwise. -/
def mapSet (m : List (Str × α)) (k : Str) (v : α) : List (Str × α) :=
  if m.any (·.1 = k) then m.map (fun p => if p.1 = k then (k, v) else p)
  else m ++ [(k, v)]

/-- `Map.prototype.get`. -/
def mapGet (m : List (Str × α)) (k : Str) : Option α :=
  (m.find? (·.1 = k)).map (·.2)

/-- `TextDecoder('utf-8', {fatal:false})`, modelled on the ASCII
fragment: an ASCII byte decodes to its character, any other byte to
U+FFFD.  (The platform decoder additionally assembles valid multi-byte
sequences; every theorem below restricts file content to ASCII, where
the two agree.) -/
def asciiLossyDecode (bs : Bytes) : Str :=
  bs.map (fun b => if b < 128 then Char.ofNat b else Char.ofNat 0xFFFD)

/-- `TextEncoder().encode`: standard UTF-8. -/
def utf8Char (c : Char) : Bytes :=
  let n := c.toNat
  if n < 0x80 then [n]
  else if n < 0x800 then [0xC0 + n / 64, 0x80 + n % 64]
  else if n < 0x10000 then [0xE0 + n / 4096, 0x80 + n / 64 % 64, 0x80 + n % 64]
  else [0xF0 + n / 262144, 0x80 + n / 4096 % 64, 0x80 + n / 64 % 64, 0x80 + n % 64]

/-- `TextEncoder().encode` over a string. -/
def utf8Encode (s : Str) : Bytes := s.flatMap utf8Char

/-- The body of `extractTar`'s `while` loop from src/untar.js. -/
def extractTarLoop (data : Bytes) (offset : Nat) (acc : List (Str × Str)) :
    List (Str × Str) :=
  if h : offset + 512 ≤ data.length then
    let header := (data.drop offset).take 512
    if isZeroBlock header then acc
    else
      let name := readString header 0 100
      if name = [] then acc
      else
        let pfx := readString header 345 155
        let fullName := if pfx ≠ [] then pfx ++ '/' :: name else name
        let size := parseOctal (jsTrim (readString header 124 12))
        let typeFlag := header.getD 156 0
        let isFile := typeFlag = 0x30 ∨ typeFlag = 0
        let offset' := offset + 512
        let acc' :=
          if isFile ∧ 0 < size then
            let fileData := (data.drop offset').take size
            let text := asciiLossyDecode fileData
            let cleanPath := stripFirstComponent fullName
            if cleanPath ≠ [] then mapSet acc cleanPath text else acc
          else acc
        extractTarLoop data (offset' + (size + 511) / 512 * 512) acc'
  else acc
termination_by data.length - offset
decreasing_by omega

/-- `extractTar` from src/untar.js. -/
def extractTar (data : Bytes) : List (Str × Str) := extractTarLoop data 0 []

/-- `tarGzip` from src/tar.js; the `fflate` gzip compressor is an
external library and enters as the parameter `gz`. -/
def tarGzip (gz : Bytes → Bytes) (entries : List (Str × Bytes)) (mtime : Nat) : Bytes :=
  gz (createTar entries mtime)

/-- `extractTarGz` from src/untar.js; the `fflate` gunzip is the
parameter `gunz`. -/
def extractTarGz (gunz : Bytes → Bytes) (buffer : Bytes) : List (Str × Str) :=
  extractTar (gunz buffer)

/-- `generateTarGz` from src/archive.js: prefix every path with
`course/`, UTF-8 encode the content, pack. -/
def generateTarGz (gz : Bytes → Bytes) (files : List (Str × Str)) (mtime : Nat) : Bytes :=
  tarGzip gz (files.map (fun pc => ("course/".data ++ pc.1, utf8Encode pc.2))) mtime

/-! ### Overwrite algebra -/

theorem overwrite_length (buf : Bytes) (off : Nat) (vals : Bytes) :
    (overwrite buf off vals).length = buf.length := by
  unfold overwrite
  simp only [List.length_append, List.length_take, List.length_drop]
  omega

theorem overwrite_padded (X vals : Bytes) (off r : Nat)
    (hX : X.length ≤ off) (hfit : off + vals.length ≤ X.length + r) :
    overwrite (X ++ List.replicate r 0) off vals
    = (X ++ List.replicate (off - X.length) 0 ++ vals)
      ++ List.replicate (X.length + r - off - vals.length) 0 := by
  unfold overwrite
  rw [List.take_append_eq_append_take, List.drop_append_eq_append_drop,
    List.take_replicate, List.drop_replicate]
  rw [List.take_of_length_le hX, List.drop_eq_nil_of_le (by omega),
    List.take_of_length_le (l := vals) (by simp; omega)]
  have hmin : min (off - X.length) r = off - X.length := by omega
  rw [hmin]
  simp only [List.nil_append, List.append_assoc, List.append_cancel_left_eq]
  congr 1
  omega

theorem overwrite_middle (A mid B vals : Bytes) (hlen : vals.length = mid.length) :
    overwrite (A ++ (mid ++ B)) A.length vals = A ++ (vals ++ B) := by
  unfold overwrite
  rw [List.take_append_eq_append_take, List.drop_append_eq_append_drop,
    List.take_of_length_le (Nat.le_refl _), Nat.sub_self, List.take_zero,
    List.drop_eq_nil_of_le (by omega)]
  rw [List.take_of_length_le (l := vals) (by simp; omega)]
  have : A.length + vals.length - A.length = mid.length := by omega
  rw [this, List.drop_append_eq_append_drop, List.drop_eq_nil_of_le (Nat.le_refl _),
    Nat.sub_self, List.drop_zero]
  simp

/-! ### The tar header, as an explicit byte layout -/

/-- The 512-byte header as it stands just before the checksum is
written back: each ustar field at its byte offset, the checksum field
holding eight ASCII spaces. -/
def headerPre (name : Str) (size : Nat) (isDir : Bool) (mtime : Nat) : Bytes :=
  let nb := (name.map charByte).take 100
  let mb := (if isDir then "0000755".data else "0000644".data).map charByte
  let ub := "0001000".data.map charByte
  let szb := ((padStart (octalStr size) 11 '0').map charByte).take 12
  let mtb := ((padStart (octalStr mtime) 11 '0').map charByte).take 12
  nb ++ List.replicate (100 - nb.length) 0
    ++ mb ++ List.replicate 1 0
    ++ ub ++ List.replicate 1 0
    ++ ub ++ List.replicate 1 0
    ++ szb ++ List.replicate (12 - szb.length) 0
    ++ mtb ++ List.replicate (12 - mtb.length) 0
    ++ List.replicate 8 32
    ++ [if isDir then 0x35 else 0x30]
    ++ List.replicate 100 0
    ++ "ustar".data.map charByte ++ List.replicate 1 0
    ++ [32] ++ [32]
    ++ List.replicate 247 0

theorem headerPre_length (name : Str) (size : Nat) (isDir : Bool) (mtime : Nat) :
    (headerPre name size isDir mtime).length = 512 := by
  unfold headerPre
  have h1 : ((name.map charByte).take 100).length ≤ 100 := by
    simp [List.length_take]
  have h2 : (((padStart (octalStr size) 11 '0').map charByte).take 12).length ≤ 12 := by
    simp [List.length_take]
  have h3 : (((padStart (octalStr mtime) 11 '0').map charByte).take 12).length ≤ 12 := by
    simp [List.length_take]
  cases isDir <;>
    simp only [List.length_append, List.length_replicate, List.length_map,
      List.length_cons, List.length_nil, String.length_data] <;>
    simp_all <;> omega

/-- A sequence of field writes into a buffer. -/
def writeFields (buf : Bytes) : List (Nat × Bytes) → Bytes
  | [] => buf
  | (off, vals) :: rest => writeFields (overwrite buf off vals) rest

/-- Offsets are monotone and every field fits below `total`. -/
def goodFields (cur total : Nat) : List (Nat × Bytes) → Prop
  | [] => True
  | (off, vals) :: rest =>
    cur ≤ off ∧ off + vals.length ≤ total ∧ goodFields (off + vals.length) total rest

/-- End position after all fields are written. -/
def endOf (cur : Nat) : List (Nat × Bytes) → Nat
  | [] => cur
  | (off, vals) :: rest => endOf (off + vals.length) rest

/-- Canonical byte layout of a monotone field sequence: a zero gap up
to each offset, then the field bytes. -/
def canonFields (cur : Nat) : List (Nat × Bytes) → Bytes
  | [] => []
  | (off, vals) :: rest =>
    List.replicate (off - cur) 0 ++ vals ++ canonFields (off + vals.length) rest

theorem writeFields_canonical (fields : List (Nat × Bytes)) :
    ∀ (X : Bytes) (r : Nat), goodFields X.length (X.length + r) fields →
    writeFields (X ++ List.replicate r 0) fields
    = X ++ (canonFields X.length fields
        ++ List.replicate (X.length + r - endOf X.length fields) 0) := by
  induction fields with
  | nil =>
    intro X r _
    simp [writeFields, canonFields, endOf]
  | cons f rest ih =>
    intro X r h
    obtain ⟨off, vals⟩ := f
    simp only [goodFields] at h
    obtain ⟨hoff, hfit, hrest⟩ := h
    have hXlen : (X ++ List.replicate (off - X.length) 0 ++ vals).length
        = off + vals.length := by
      simp only [List.length_append, List.length_replicate]
      omega
    have hsum : off + vals.length + (X.length + r - off - vals.length)
        = X.length + r := by omega
    have ihh := ih (X ++ List.replicate (off - X.length) 0 ++ vals)
      (X.length + r - off - vals.length)
      (by rw [hXlen, hsum]; exact hrest)
    rw [writeFields, overwrite_padded X vals off r hoff hfit, ihh, hXlen, hsum]
    simp only [canonFields, endOf, List.append_assoc]

/-- The eleven field writes performed by `createTarHeader` before the
checksum is written back. -/
def tarHeaderFields (name : Str) (size : Nat) (isDir : Bool) (mtime : Nat) :
    List (Nat × Bytes) :=
  [(0, (name.map charByte).take 100),
   (100, ((if isDir then "0000755".data else "0000644".data).map charByte).take 8),
   (108, ("0001000".data.map charByte).take 8),
   (116, ("0001000".data.map charByte).take 8),
   (124, ((padStart (octalStr size) 11 '0').map charByte).take 12),
   (136, ((padStart (octalStr mtime) 11 '0').map charByte).take 12),
   (148, List.replicate 8 32),
   (156, [if isDir then 0x35 else 0x30]),
   (257, ("ustar".data.map charByte).take 6),
   (263, [32]),
   (264, [32])]

theorem writeFields_tarHeader (name : Str) (size : Nat) (isDir : Bool) (mtime : Nat) :
    writeFields (List.replicate 512 0) (tarHeaderFields name size isDir mtime)
    = headerPre name size isDir mtime := by
  have lmt : ((if isDir then "0000755".data else "0000644".data).map charByte).take 8
      = (if isDir then "0000755".data else "0000644".data).map charByte := by
    cases isDir <;> rfl
  have lm7 : ((if isDir then "0000755".data else "0000644".data).map charByte).length
      = 7 := by cases isDir <;> rfl
  have lut : ("0001000".data.map charByte).take 8 = "0001000".data.map charByte := rfl
  have lu7 : ("0001000".data.map charByte).length = 7 := rfl
  have lust : ("ustar".data.map charByte).take 6 = "ustar".data.map charByte := rfl
  have lus5 : ("ustar".data.map charByte).length = 5 := rfl
  have hgood : goodFields 0 512 (tarHeaderFields name size isDir mtime) := by
    simp only [tarHeaderFields, goodFields, lmt, lut, lust, lm7, lu7, lus5,
      List.length_take, List.length_replicate, List.length_cons, List.length_nil,
      and_true]
    omega
  have hc := writeFields_canonical (tarHeaderFields name size isDir mtime) [] 512 hgood
  simp only [List.nil_append, List.length_nil] at hc
  rw [hc]
  have g1 : ∀ n : Nat, 136 - (124 + n) = 12 - n := fun n => by omega
  have g2 : ∀ n : Nat, 148 - (136 + n) = 12 - n := fun n => by omega
  simp only [tarHeaderFields, canonFields, endOf, headerPre, lmt, lut, lust,
    lm7, lu7, lus5, List.length_take, List.length_replicate, List.length_cons,
    List.length_nil, g1, g2, Nat.zero_add, Nat.add_zero, Nat.sub_zero,
    Nat.sub_self, List.replicate_zero, List.nil_append, List.append_assoc,
    List.append_nil]

/-- `createTarHeader` writes the byte-sum of `headerPre` (the header
with eight spaces in the checksum field) back into bytes 148–155 of
`headerPre`. -/
theorem createTarHeader_eq (name : Str) (size : Nat) (isDir : Bool) (mtime : Nat) :
    createTarHeader name size isDir mtime
    = writeString (headerPre name size isDir mtime) 148
        (padStart (octalStr (headerPre name size isDir mtime).sum) 6 '0'
          ++ [Char.ofNat 0, ' ']) 8 := by
  have base : createTarHeader name size isDir mtime
      = writeString
          (writeFields (List.replicate 512 0) (tarHeaderFields name size isDir mtime))
          148
          (padStart
            (octalStr
              (writeFields (List.replicate 512 0)
                (tarHeaderFields name size isDir mtime)).sum) 6 '0'
            ++ [Char.ofNat 0, ' ']) 8 := rfl
  rw [base, writeFields_tarHeader]

theorem charByte_lt (c : Char) : charByte c < 256 :=
  Nat.mod_lt _ (by norm_num)

theorem headerPre_bytes_lt (name : Str) (size : Nat) (isDir : Bool) (mtime : Nat) :
    ∀ b ∈ headerPre name size isDir mtime, b < 256 := by
  intro b hb
  simp only [headerPre, List.append_assoc, List.mem_append] at hb
  have hmap : ∀ (s : Str) (n : Nat), b ∈ (s.map charByte).take n → b < 256 := by
    intro s n h
    obtain ⟨c, _, rfl⟩ := List.mem_map.mp (List.mem_of_mem_take h)
    exact charByte_lt c
  have hmap' : ∀ s : Str, b ∈ s.map charByte → b < 256 := by
    intro s h
    obtain ⟨c, _, rfl⟩ := List.mem_map.mp h
    exact charByte_lt c
  rcases hb with h | h | h | h | h | h | h | h | h | h | h | h | h | h | h | h | h | h | h | h
  · exact hmap _ _ h
  · rw [List.eq_of_mem_replicate h]; norm_num
  · exact hmap' _ h
  · rw [List.eq_of_mem_replicate h]; norm_num
  · exact hmap' _ h
  · rw [List.eq_of_mem_replicate h]; norm_num
  · exact hmap' _ h
  · rw [List.eq_of_mem_replicate h]; norm_num
  · exact hmap _ _ h
  · rw [List.eq_of_mem_replicate h]; norm_num
  · exact hmap _ _ h
  · rw [List.eq_of_mem_replicate h]; norm_num
  · rw [List.eq_of_mem_replicate h]; norm_num
  · rw [List.mem_singleton.mp h]; cases isDir <;> norm_num
  · rw [List.eq_of_mem_replicate h]; norm_num
  · exact hmap' _ h
  · rw [List.eq_of_mem_replicate h]; norm_num
  · rw [List.mem_singleton.mp h]; norm_num
  · rw [List.mem_singleton.mp h]; norm_num
  · rw [List.eq_of_mem_replicate h]; norm_num

/-! ### Octal strings -/

theorem charOfNat_toNat {m : Nat} (h : m < 55296) : (Char.ofNat m).toNat = m := by
  have hv : m.isValidChar := Or.inl h
  simp [Char.ofNat, hv, Char.toNat, Char.ofNatAux, UInt32.toNat, BitVec.toNat_ofNatLt]

theorem octalRec_digits (n : Nat) :
    ∀ c ∈ octalStr.octalRec n, 48 ≤ c.toNat ∧ c.toNat ≤ 55 := by
  induction n using Nat.strong_induction_on with
  | _ n ih =>
    match n with
    | 0 => intro c hc; simp [octalStr.octalRec] at hc
    | m + 1 =>
      intro c hc
      rw [octalStr.octalRec] at hc
      rcases List.mem_append.mp hc with h | h
      · exact ih _ (Nat.div_lt_self (Nat.succ_pos m) (by omega)) c h
      · rw [List.mem_singleton.mp h]
        have h8 : (m + 1) % 8 < 8 := Nat.mod_lt _ (by omega)
        rw [charOfNat_toNat (by omega)]
        omega

theorem octalStr_digits (n : Nat) :
    ∀ c ∈ octalStr n, 48 ≤ c.toNat ∧ c.toNat ≤ 55 := by
  unfold octalStr
  split
  · intro c hc
    rw [List.mem_singleton.mp hc]
    decide
  · exact octalRec_digits n

theorem octalRec_length_le (k : Nat) :
    ∀ n, n < 8 ^ k → (octalStr.octalRec n).length ≤ k := by
  induction k with
  | zero =>
    intro n h
    have : n = 0 := by simpa using h
    subst this
    simp [octalStr.octalRec]
  | succ k ih =>
    intro n h
    match n with
    | 0 => simp [octalStr.octalRec]
    | m + 1 =>
      rw [octalStr.octalRec]
      have hdiv : (m + 1) / 8 < 8 ^ k := by
        rw [Nat.div_lt_iff_lt_mul (by omega)]
        calc m + 1 < 8 ^ (k + 1) := h
          _ = 8 ^ k * 8 := by rw [pow_succ]
      have := ih ((m + 1) / 8) hdiv
      simp only [List.length_append, List.length_singleton]
      omega

theorem octalStr_length_le {n k : Nat} (hk : 1 ≤ k) (h : n < 8 ^ k) :
    (octalStr n).length ≤ k := by
  unfold octalStr
  split
  · simpa using hk
  · exact octalRec_length_le k n h

theorem foldl_octalRec (n : Nat) : ∀ a : Nat,
    (octalStr.octalRec n).foldl (fun a c => a * 8 + (c.toNat - 48)) a
    = a * 8 ^ (octalStr.octalRec n).length + n := by
  induction n using Nat.strong_induction_on with
  | _ n ih =>
    match n with
    | 0 => intro a; simp [octalStr.octalRec]
    | m + 1 =>
      intro a
      rw [octalStr.octalRec, List.foldl_append,
        ih ((m + 1) / 8) (Nat.div_lt_self (Nat.succ_pos m) (by omega)) a]
      have h8 : (m + 1) % 8 < 8 := Nat.mod_lt _ (by omega)
      simp only [List.foldl_cons, List.foldl_nil, List.length_append,
        List.length_singleton]
      rw [charOfNat_toNat (by omega)]
      have hd : 48 + (m + 1) % 8 - 48 = (m + 1) % 8 := by omega
      rw [hd]
      have hq : (m + 1) / 8 * 8 + (m + 1) % 8 = m + 1 := by omega
      calc (a * 8 ^ (octalStr.octalRec ((m + 1) / 8)).length + (m + 1) / 8) * 8
            + (m + 1) % 8
          = a * (8 ^ (octalStr.octalRec ((m + 1) / 8)).length * 8)
            + ((m + 1) / 8 * 8 + (m + 1) % 8) := by ring
        _ = a * 8 ^ ((octalStr.octalRec ((m + 1) / 8)).length + 1) + (m + 1) := by
            rw [← pow_succ, hq]

theorem takeWhile_eq_self_of_all {p : Char → Bool} :
    ∀ {l : Str}, (∀ c ∈ l, p c = true) → l.takeWhile p = l := by
  intro l
  induction l with
  | nil => intro _; rfl
  | cons x xs ih =>
    intro h
    rw [List.takeWhile_cons, h x (List.mem_cons_self x xs)]
    simp [ih fun c hc => h c (List.mem_cons_of_mem x hc)]

theorem foldl_step_zeros (m : Nat) :
    (List.replicate m '0').foldl (fun a c => a * 8 + (c.toNat - 48)) 0 = 0 := by
  induction m with
  | zero => rfl
  | succ m ih => simpa [List.replicate_succ]

theorem parseOctal_padStart_octalStr (n k : Nat) :
    parseOctal (padStart (octalStr n) k '0') = n := by
  unfold parseOctal padStart
  have hall : ∀ c ∈ List.replicate (k - (octalStr n).length) '0' ++ octalStr n,
      decide (48 ≤ c.toNat ∧ c.toNat ≤ 55) = true := by
    intro c hc
    rcases List.mem_append.mp hc with h | h
    · rw [List.eq_of_mem_replicate h]; decide
    · simpa using octalStr_digits n c h
  rw [takeWhile_eq_self_of_all hall, List.foldl_append, foldl_step_zeros]
  unfold octalStr
  split
  next h => simp [h]
  next => rw [foldl_octalRec]; simp

/-! ### Header decomposition around the checksum field -/

/-- Bytes 0–147 of the header: name, mode, uid, gid, size, mtime. -/
def headerA (name : Str) (size : Nat) (isDir : Bool) (mtime : Nat) : Bytes :=
  (name.map charByte).take 100
    ++ List.replicate (100 - ((name.map charByte).take 100).length) 0
    ++ (if isDir then "0000755".data else "0000644".data).map charByte
    ++ List.replicate 1 0
    ++ "0001000".data.map charByte ++ List.replicate 1 0
    ++ "0001000".data.map charByte ++ List.replicate 1 0
    ++ ((padStart (octalStr size) 11 '0').map charByte).take 12
    ++ List.replicate
        (12 - (((padStart (octalStr size) 11 '0').map charByte).take 12).length) 0
    ++ ((padStart (octalStr mtime) 11 '0').map charByte).take 12
    ++ List.replicate
        (12 - (((padStart (octalStr mtime) 11 '0').map charByte).take 12).length) 0

/-- Bytes 156–511 of the header: typeflag, linkname area, magic. -/
def headerB (isDir : Bool) : Bytes :=
  [if isDir then 0x35 else 0x30] ++ List.replicate 100 0
    ++ "ustar".data.map charByte ++ List.replicate 1 0 ++ [32] ++ [32]
    ++ List.replicate 247 0

theorem headerPre_decomp (name : Str) (size : Nat) (isDir : Bool) (mtime : Nat) :
    headerPre name size isDir mtime
    = headerA name size isDir mtime ++ (List.replicate 8 32 ++ headerB isDir) := by
  simp [headerPre, headerA, headerB, List.append_assoc]

theorem headerA_length (name : Str) (size : Nat) (isDir : Bool) (mtime : Nat) :
    (headerA name size isDir mtime).length = 148 := by
  have h1 : ((name.map charByte).take 100).length ≤ 100 := by simp
  have h2 : (((padStart (octalStr size) 11 '0').map charByte).take 12).length ≤ 12 := by
    simp
  have h3 : (((padStart (octalStr mtime) 11 '0').map charByte).take 12).length ≤ 12 := by
    simp
  cases isDir <;>
    (simp only [headerA, List.length_append, List.length_replicate, List.length_map,
      List.length_take, Bool.false_eq_true, if_false, if_true, List.length_cons,
      List.length_nil, String.data]
     omega)

theorem headerPre_sum_lt (name : Str) (size : Nat) (isDir : Bool) (mtime : Nat) :
    (headerPre name size isDir mtime).sum < 8 ^ 6 := by
  have hb : ∀ b ∈ headerPre name size isDir mtime, b ≤ 255 := fun b hb =>
    Nat.lt_succ_iff.mp (headerPre_bytes_lt name size isDir mtime b hb)
  have := List.sum_le_card_nsmul (headerPre name size isDir mtime) 255 hb
  rw [headerPre_length, smul_eq_mul] at this
  omega

theorem headerPre_ds_length (name : Str) (size : Nat) (isDir : Bool) (mtime : Nat) :
    (padStart (octalStr (headerPre name size isDir mtime).sum) 6 '0').length = 6 := by
  have hlen : (octalStr (headerPre name size isDir mtime).sum).length ≤ 6 :=
    octalStr_length_le (by norm_num) (headerPre_sum_lt name size isDir mtime)
  simp only [padStart, List.length_append, List.length_replicate]
  omega

theorem createTarHeader_decomp (name : Str) (size : Nat) (isDir : Bool) (mtime : Nat) :
    createTarHeader name size isDir mtime
    = headerA name size isDir mtime
      ++ (((padStart (octalStr (headerPre name size isDir mtime).sum) 6 '0').map charByte
            ++ [0, 32]) ++ headerB isDir) := by
  have hdsl := headerPre_ds_length name size isDir mtime
  have hv : ((padStart (octalStr (headerPre name size isDir mtime).sum) 6 '0'
        ++ [Char.ofNat 0, ' ']).map charByte).take 8
      = (padStart (octalStr (headerPre name size isDir mtime).sum) 6 '0').map charByte
        ++ [0, 32] := by
    rw [List.map_append, List.take_of_length_le (by simp [hdsl])]
    congr 1
  rw [createTarHeader_eq, writeString, hv]
  have hlen6 : ((padStart (octalStr (headerPre name size isDir mtime).sum) 6 '0').map
      charByte).length = 6 := by simp [hdsl]
  generalize (padStart (octalStr (headerPre name size isDir mtime).sum) 6 '0').map
      charByte = dsb at hlen6 ⊢
  rw [headerPre_decomp]
  rw [show (148 : Nat) = (headerA name size isDir mtime).length from
    (headerA_length name size isDir mtime).symm]
  exact overwrite_middle _ _ _ _ (by simp [hlen6])

theorem createTarHeader_length (name : Str) (size : Nat) (isDir : Bool) (mtime : Nat) :
    (createTarHeader name size isDir mtime).length = 512 := by
  rw [createTarHeader_eq, writeString, overwrite_length, headerPre_length]

/-- C3: for every header the tar encoder produces (any name, size,
file-or-directory flag, any mtime), the embedded checksum field at
bytes 148–155 is exactly six octal digits whose value is the unsigned
byte-sum of the 512-byte header with the checksum field replaced by
eight ASCII spaces, followed by a NUL byte and an ASCII space. -/
theorem c3_header_checksum_valid (name : Str) (size : Nat) (isDir : Bool) (mtime : Nat) :
    ∃ ds : Str,
      ds.length = 6 ∧
      (∀ c ∈ ds, 48 ≤ c.toNat ∧ c.toNat ≤ 55) ∧
      parseOctal ds
        = (overwrite (createTarHeader name size isDir mtime) 148
            (List.replicate 8 32)).sum ∧
      ((createTarHeader name size isDir mtime).drop 148).take 8
        = ds.map charByte ++ [0, 32] := by
  have hdsl := headerPre_ds_length name size isDir mtime
  refine ⟨padStart (octalStr (headerPre name size isDir mtime).sum) 6 '0',
    hdsl, ?_, ?_, ?_⟩
  · intro c hc
    rcases List.mem_append.mp ((by simpa [padStart] using hc :
        c ∈ List.replicate (6 - (octalStr (headerPre name size isDir mtime).sum).length)
          '0' ++ octalStr (headerPre name size isDir mtime).sum)) with h | h
    · rw [List.eq_of_mem_replicate h]; decide
    · exact octalStr_digits _ c h
  · have hblank :
        overwrite (createTarHeader name size isDir mtime) 148 (List.replicate 8 32)
        = headerPre name size isDir mtime := by
      rw [createTarHeader_decomp]
      rw [show (148 : Nat) = (headerA name size isDir mtime).length from
        (headerA_length name size isDir mtime).symm]
      rw [overwrite_middle _ _ _ _ (by simp [hdsl]), ← headerPre_decomp]
    rw [hblank, parseOctal_padStart_octalStr]
  · rw [createTarHeader_decomp]
    rw [show (148 : Nat) = (headerA name size isDir mtime).length from
      (headerA_length name size isDir mtime).symm]
    rw [List.drop_left]
    rw [show (8 : Nat)
        = ((padStart (octalStr (headerPre name size isDir mtime).sum) 6 '0').map charByte
            ++ [0, 32]).length from (by simp [hdsl])]
    rw [List.take_left]

/-! ### Reading fields back out of a generated header -/

theorem char_toNat_inj {a b : Char} (h : a.toNat = b.toNat) : a = b := by
  cases a; cases b
  simp only [Char.toNat] at h
  congr 1
  exact UInt32.ext h

theorem charOfNat_char {c : Char} (h : c.toNat < 55296) : Char.ofNat c.toNat = c :=
  char_toNat_inj (charOfNat_toNat h)

theorem charByte_ascii {c : Char} (h : c.toNat < 128) : charByte c = c.toNat :=
  Nat.mod_eq_of_lt (by omega)

theorem takeWhile_append_all {p : Nat → Bool} {l₁ l₂ : Bytes}
    (h : ∀ x ∈ l₁, p x = true) :
    (l₁ ++ l₂).takeWhile p = l₁ ++ l₂.takeWhile p := by
  induction l₁ with
  | nil => simp
  | cons x xs ih =>
    rw [List.cons_append, List.takeWhile_cons, h x (List.mem_cons_self x xs),
      ih fun c hc => h c (List.mem_cons_of_mem x hc)]
    simp

theorem takeWhile_replicate_false {p : Nat → Bool} {a : Nat} (h : p a = false)
    (n : Nat) : (List.replicate n a).takeWhile p = [] := by
  cases n with
  | zero => rfl
  | succ n => rw [List.replicate_succ, List.takeWhile_cons, h]; simp

theorem drop_append_exact {C D : Bytes} {n : Nat} (h : C.length = n) :
    (C ++ D).drop n = D := by
  subst h; exact List.drop_left C D

theorem take_append_exact {C D : Bytes} {n : Nat} (h : C.length = n) :
    (C ++ D).take n = C := by
  subst h; exact List.take_left C D

theorem getD_append_exact {C D : Bytes} {n : Nat} (h : C.length = n) (d : Nat) :
    (C ++ D).getD n d = D.getD 0 d := by
  subst h
  induction C with
  | nil => rfl
  | cons c C ih => simpa [List.getD] using ih

theorem dropWhile_eq_self_of_all {p : Char → Bool} {l : Str}
    (h : ∀ c ∈ l, p c = false) : l.dropWhile p = l := by
  cases l with
  | nil => rfl
  | cons x xs => rw [List.dropWhile_cons, h x (List.mem_cons_self x xs)]; simp

theorem jsTrim_eq_self {s : Str} (h : ∀ c ∈ s, c.isWhitespace = false) :
    jsTrim s = s := by
  unfold jsTrim
  rw [dropWhile_eq_self_of_all h,
    dropWhile_eq_self_of_all (fun c hc => h c (List.mem_reverse.mp hc)),
    List.reverse_reverse]

theorem octal_digit_not_whitespace {c : Char} (h48 : 48 ≤ c.toNat) :
    c.isWhitespace = false := by
  have hs : c ≠ ' ' := fun he => by subst he; exact absurd h48 (by decide)
  have ht : c ≠ '\t' := fun he => by subst he; exact absurd h48 (by decide)
  have hr : c ≠ '\x0d' := fun he => by subst he; exact absurd h48 (by decide)
  have hn : c ≠ '\n' := fun he => by subst he; exact absurd h48 (by decide)
  simp [Char.isWhitespace, hs, ht, hr, hn]

theorem padStart_octalStr_digits (n k : Nat) :
    ∀ c ∈ padStart (octalStr n) k '0', 48 ≤ c.toNat ∧ c.toNat ≤ 55 := by
  intro c hc
  rcases List.mem_append.mp (by simpa [padStart] using hc :
      c ∈ List.replicate (k - (octalStr n).length) '0' ++ octalStr n) with h | h
  · rw [List.eq_of_mem_replicate h]; decide
  · exact octalStr_digits n c h

theorem padStart_octalStr_length {n k : Nat} (h : (octalStr n).length ≤ k) :
    (padStart (octalStr n) k '0').length = k := by
  simp only [padStart, List.length_append, List.length_replicate]
  omega

theorem header_take100 (name : Str) (size : Nat) (isDir : Bool) (mtime : Nat)
    (hn2 : name.length ≤ 100) :
    (createTarHeader name size isDir mtime).take 100
    = name.map charByte ++ List.replicate (100 - name.length) 0 := by
  have hnb : (name.map charByte).take 100 = name.map charByte :=
    List.take_of_length_le (by simpa using hn2)
  rw [createTarHeader_decomp, List.take_append_eq_append_take]
  rw [show 100 - (headerA name size isDir mtime).length = 0 by
    rw [headerA_length]]
  rw [List.take_zero, List.append_nil]
  simp only [headerA, hnb, List.append_assoc]
  rw [List.take_append_eq_append_take,
    List.take_of_length_le (show (name.map charByte).length ≤ 100 by simpa using hn2)]
  rw [List.take_append_eq_append_take, List.take_replicate]
  have h2 : 100 - (name.map charByte).length
      - (List.replicate (100 - (name.map charByte).length) (0 : Nat)).length = 0 := by
    simp
  rw [h2, List.take_zero, List.append_nil, Nat.min_self, List.length_map]

theorem header_read_name (name : Str) (size : Nat) (isDir : Bool) (mtime : Nat)
    (hn2 : name.length ≤ 100) (hn3 : ∀ c ∈ name, 0 < c.toNat ∧ c.toNat < 128) :
    readString (createTarHeader name size isDir mtime) 0 100 = name := by
  unfold readString
  rw [List.drop_zero, header_take100 name size isDir mtime hn2]
  rw [takeWhile_append_all (fun x hx => ?pf)]
  case pf =>
    obtain ⟨c, hc, rfl⟩ := List.mem_map.mp hx
    have h0 := (hn3 c hc).1
    have hlt := (hn3 c hc).2
    simp [charByte_ascii hlt]
    omega
  rw [takeWhile_replicate_false (by simp) _, List.append_nil, List.map_map]
  rw [List.map_congr_left (fun c hc => ?pf2), List.map_id]
  case pf2 =>
    have hlt := (hn3 c hc).2
    simp only [Function.comp_apply, charByte_ascii hlt]
    exact charOfNat_char (by omega)

/-- Bytes 0–123 of the header (name, mode, uid, gid fields). -/
def headerC124 (name : Str) (isDir : Bool) : Bytes :=
  (name.map charByte).take 100
    ++ List.replicate (100 - ((name.map charByte).take 100).length) 0
    ++ (if isDir then "0000755".data else "0000644".data).map charByte
    ++ List.replicate 1 0
    ++ "0001000".data.map charByte ++ List.replicate 1 0
    ++ "0001000".data.map charByte ++ List.replicate 1 0

theorem headerC124_length (name : Str) (isDir : Bool) :
    (headerC124 name isDir).length = 124 := by
  cases isDir <;>
    (simp only [headerC124, List.length_append, List.length_replicate, List.length_map,
      List.length_take, Bool.false_eq_true, if_false, if_true, List.length_cons,
      List.length_nil, String.data]
     omega)

theorem header_take_124 (name : Str) (size : Nat) (isDir : Bool) (mtime : Nat)
    (hs : size < 8 ^ 11) :
    ((createTarHeader name size isDir mtime).drop 124).take 12
    = (padStart (octalStr size) 11 '0').map charByte ++ [0] := by
  have hlsz : ((padStart (octalStr size) 11 '0').map charByte).length = 11 := by
    simp [padStart_octalStr_length (octalStr_length_le (by norm_num) hs)]
  have hsz : ((padStart (octalStr size) 11 '0').map charByte).take 12
      = (padStart (octalStr size) 11 '0').map charByte :=
    List.take_of_length_le (by rw [hlsz]; norm_num)
  rw [createTarHeader_decomp, List.drop_append_eq_append_drop]
  rw [show 124 - (headerA name size isDir mtime).length = 0 by rw [headerA_length]]
  rw [List.drop_zero]
  have hA : headerA name size isDir mtime
      = headerC124 name isDir
        ++ ((padStart (octalStr size) 11 '0').map charByte
          ++ (List.replicate 1 0
            ++ (((padStart (octalStr mtime) 11 '0').map charByte).take 12
              ++ List.replicate
                  (12 - (((padStart (octalStr mtime) 11 '0').map
                    charByte).take 12).length) 0))) := by
    simp only [headerA, headerC124, hsz, hlsz, List.append_assoc]
  rw [hA, drop_append_exact (headerC124_length name isDir)]
  rw [show ((padStart (octalStr size) 11 '0').map charByte
        ++ (List.replicate 1 0
          ++ (((padStart (octalStr mtime) 11 '0').map charByte).take 12
            ++ List.replicate
                (12 - (((padStart (octalStr mtime) 11 '0').map
                  charByte).take 12).length) 0)))
      ++ (((padStart (octalStr (headerPre name size isDir mtime).sum) 6 '0').map
            charByte ++ [0, 32]) ++ headerB isDir)
    = ((padStart (octalStr size) 11 '0').map charByte ++ List.replicate 1 0)
      ++ ((((padStart (octalStr mtime) 11 '0').map charByte).take 12
        ++ List.replicate
            (12 - (((padStart (octalStr mtime) 11 '0').map
              charByte).take 12).length) 0)
        ++ (((padStart (octalStr (headerPre name size isDir mtime).sum) 6 '0').map
              charByte ++ [0, 32]) ++ headerB isDir)) from by
    simp [List.append_assoc]]
  rw [take_append_exact (by simp [hlsz]), List.replicate_one]

theorem header_read_size (name : Str) (size : Nat) (isDir : Bool) (mtime : Nat)
    (hs : size < 8 ^ 11) :
    parseOctal (jsTrim (readString (createTarHeader name size isDir mtime) 124 12))
    = size := by
  unfold readString
  rw [header_take_124 name size isDir mtime hs]
  rw [takeWhile_append_all (fun x hx => ?pf)]
  case pf =>
    obtain ⟨c, hc, rfl⟩ := List.mem_map.mp hx
    have hd := padStart_octalStr_digits size 11 c hc
    have h128 : c.toNat < 128 := by omega
    rw [charByte_ascii h128]
    simp only [ne_eq, decide_eq_true_eq]
    omega
  rw [show (([0] : Bytes).takeWhile (fun x => decide (x ≠ 0))) = [] from rfl]
  rw [List.append_nil, List.map_map]
  rw [List.map_congr_left (fun c hc => ?pf2), List.map_id]
  case pf2 =>
    have hd := padStart_octalStr_digits size 11 c hc
    have h128 : c.toNat < 128 := by omega
    simp only [Function.comp_apply, charByte_ascii h128]
    exact charOfNat_char (by omega)
  rw [jsTrim_eq_self (fun c hc =>
    octal_digit_not_whitespace (padStart_octalStr_digits size 11 c hc).1)]
  exact parseOctal_padStart_octalStr size 11

theorem header_getD_156 (name : Str) (size : Nat) (isDir : Bool) (mtime : Nat) :
    (createTarHeader name size isDir mtime).getD 156 0
    = (if isDir then 0x35 else 0x30) := by
  have hdsl := headerPre_ds_length name size isDir mtime
  rw [createTarHeader_decomp]
  rw [show headerA name size isDir mtime
        ++ (((padStart (octalStr (headerPre name size isDir mtime).sum) 6 '0').map
              charByte ++ [0, 32]) ++ headerB isDir)
      = (headerA name size isDir mtime
          ++ ((padStart (octalStr (headerPre name size isDir mtime).sum) 6 '0').map
              charByte ++ [0, 32])) ++ headerB isDir from by
    simp [List.append_assoc]]
  rw [getD_append_exact (by simp [headerA_length, hdsl]) 0]
  rfl

theorem isZeroBlock_eq_false_of_mem {l : Bytes} {b : Nat} (hb : b ∈ l)
    (h0 : b ≠ 0) : isZeroBlock l = false := by
  by_contra hne
  have htrue : isZeroBlock l = true := by
    revert hne; cases isZeroBlock l <;> simp
  have := List.all_eq_true.mp htrue b hb
  simp only [decide_eq_true_eq] at this
  exact h0 this

theorem header_not_zeroBlock (name : Str) (size : Nat) (isDir : Bool) (mtime : Nat)
    (hn1 : name ≠ []) (hn2 : name.length ≤ 100)
    (hn3 : ∀ c ∈ name, 0 < c.toNat ∧ c.toNat < 128) :
    isZeroBlock (createTarHeader name size isDir mtime) = false := by
  obtain ⟨c0, name', rfl⟩ := List.exists_cons_of_ne_nil hn1
  have hc0 := hn3 c0 (List.mem_cons_self c0 name')
  have hmem : charByte c0 ∈ createTarHeader (c0 :: name') size isDir mtime := by
    apply List.mem_of_mem_take (n := 100)
    rw [header_take100 (c0 :: name') size isDir mtime hn2]
    exact List.mem_append_left _ (by simp)
  refine isZeroBlock_eq_false_of_mem hmem ?_
  rw [charByte_ascii hc0.2]
  omega

theorem header_read_345 (name : Str) (size : Nat) (isDir : Bool) (mtime : Nat) :
    readString (createTarHeader name size isDir mtime) 345 155 = [] := by
  have hdsl := headerPre_ds_length name size isDir mtime
  unfold readString
  rw [createTarHeader_decomp, List.drop_append_eq_append_drop,
    List.drop_eq_nil_of_le (by rw [headerA_length]; norm_num), headerA_length,
    List.nil_append, List.drop_append_eq_append_drop,
    List.drop_eq_nil_of_le (by simp [hdsl]), List.nil_append]
  have h189 : 345 - 148
      - (List.map charByte (padStart (octalStr
          (List.sum (headerPre name size isDir mtime))) 6 '0') ++ ([0, 32] : Bytes)).length
      = 189 := by simp [hdsl]
  rw [h189, headerB]
  rw [List.drop_append_eq_append_drop,
    List.drop_eq_nil_of_le (by simp [String.data]), List.nil_append]
  have h80 : 189 - (([if isDir then 0x35 else 0x30] ++ List.replicate 100 0
      ++ "ustar".data.map charByte ++ List.replicate 1 0 ++ [32]
      ++ [32] : Bytes)).length = 80 := by simp [String.data]
  rw [h80, List.drop_replicate]
  rw [List.take_replicate, takeWhile_replicate_false (by simp), List.map_nil]

/-! ### The extraction loop over generated archives -/

theorem padTo512_length (d : Bytes) :
    (padTo512 d).length = (d.length + 511) / 512 * 512 := by
  have h1 := Nat.div_add_mod (d.length + 511) 512
  have h2 : (d.length + 511) % 512 < 512 := Nat.mod_lt _ (by norm_num)
  simp only [padTo512, List.length_append, List.length_replicate]
  omega

/-- One iteration of `extractTarLoop` on a generated header followed by
the rest of the stream. -/
theorem extractTarLoop_step
    (data : Bytes) (offset : Nat) (acc : List (Str × Str))
    (name : Str) (size : Nat) (isDir : Bool) (mtime : Nat) (tail : Bytes)
    (hdrop : data.drop offset = createTarHeader name size isDir mtime ++ tail)
    (hn1 : name ≠ []) (hn2 : name.length ≤ 100)
    (hn3 : ∀ c ∈ name, 0 < c.toNat ∧ c.toNat < 128)
    (hs : size < 8 ^ 11) :
    extractTarLoop data offset acc
    = extractTarLoop data (offset + 512 + (size + 511) / 512 * 512)
        (if isDir = false ∧ 0 < size ∧ stripFirstComponent name ≠ [] then
          mapSet acc (stripFirstComponent name)
            (asciiLossyDecode ((data.drop (offset + 512)).take size))
        else acc) := by
  have hlen512 := createTarHeader_length name size isDir mtime
  have hdlen : data.length - offset = 512 + tail.length := by
    have h := congrArg List.length hdrop
    simpa [List.length_drop, hlen512] using h
  have hoff : offset + 512 ≤ data.length := by omega
  have hheader : (data.drop offset).take 512 = createTarHeader name size isDir mtime := by
    rw [hdrop]; exact take_append_exact hlen512
  rw [extractTarLoop, dif_pos hoff]
  simp only [hheader, header_not_zeroBlock name size isDir mtime hn1 hn2 hn3,
    header_read_name name size isDir mtime hn2 hn3,
    header_read_345 name size isDir mtime,
    header_read_size name size isDir mtime hs,
    header_getD_156 name size isDir mtime,
    Bool.false_eq_true, if_false, ne_eq, not_true_eq_false, ite_false,
    not_false_eq_true, ite_true]
  rw [if_neg hn1]
  refine congrArg _ ?_
  cases isDir with
  | true => simp
  | false =>
    by_cases hsz : 0 < size
    · by_cases hst : stripFirstComponent name ≠ []
      · simp [hsz, hst]
      · simp only [ne_eq, not_not] at hst
        simp [hsz, hst]
    · simp [hsz]

theorem drop_shift {data X Y : Bytes} {offset : Nat}
    (h : data.drop offset = X ++ Y) : data.drop (offset + X.length) = Y := by
  have h2 : (data.drop offset).drop X.length = Y := by rw [h, List.drop_left]
  rw [List.drop_drop] at h2
  exact h2

/-- Skipping a run of generated directory headers. -/
theorem extractTarLoop_dirs (mtime : Nat) (dirs : List Str) :
    ∀ (data : Bytes) (offset : Nat) (acc : List (Str × Str)) (tail : Bytes),
    data.drop offset
      = dirs.flatMap (fun d => createTarHeader d 0 true mtime) ++ tail →
    (∀ d ∈ dirs, d ≠ [] ∧ d.length ≤ 100 ∧ ∀ c ∈ d, 0 < c.toNat ∧ c.toNat < 128) →
    extractTarLoop data offset acc
    = extractTarLoop data (offset + 512 * dirs.length) acc := by
  induction dirs with
  | nil => intro data offset acc tail _ _; simp
  | cons d ds ih =>
    intro data offset acc tail h hd
    obtain ⟨h1, h2, h3⟩ := hd d (List.mem_cons_self d ds)
    have hdrop : data.drop offset
        = createTarHeader d 0 true mtime
          ++ (ds.flatMap (fun d => createTarHeader d 0 true mtime) ++ tail) := by
      simpa [List.flatMap_cons, List.append_assoc] using h
    rw [extractTarLoop_step data offset acc d 0 true mtime _ hdrop h1 h2 h3
      (by norm_num)]
    rw [if_neg (by simp)]
    have hadv : offset + 512 + (0 + 511) / 512 * 512 = offset + 512 := by norm_num
    rw [hadv]
    have hdrop2 : data.drop (offset + 512)
        = ds.flatMap (fun d => createTarHeader d 0 true mtime) ++ tail := by
      have := drop_shift hdrop
      rwa [createTarHeader_length] at this
    rw [ih data (offset + 512) acc tail hdrop2
      (fun d hdm => hd d (List.mem_cons_of_mem _ hdm))]
    have : offset + 512 + 512 * ds.length = offset + 512 * (d :: ds).length := by
      simp [List.length_cons]; ring
    rw [this]

/-- Processing a run of generated file entries (header plus padded
content each). -/
theorem extractTarLoop_files (mtime : Nat) (ents : List (Str × Bytes)) :
    ∀ (data : Bytes) (offset : Nat) (acc : List (Str × Str)) (tail : Bytes),
    data.drop offset
      = ents.flatMap
          (fun e => createTarHeader e.1 e.2.length false mtime ++ padTo512 e.2)
        ++ tail →
    (∀ e ∈ ents, e.1 ≠ [] ∧ e.1.length ≤ 100
      ∧ (∀ c ∈ e.1, 0 < c.toNat ∧ c.toNat < 128) ∧ e.2.length < 8 ^ 11) →
    extractTarLoop data offset acc
    = extractTarLoop data
        (offset + (ents.map (fun e => 512 + (e.2.length + 511) / 512 * 512)).sum)
        (ents.foldl (fun a e =>
          if 0 < e.2.length ∧ stripFirstComponent e.1 ≠ [] then
            mapSet a (stripFirstComponent e.1) (asciiLossyDecode e.2)
          else a) acc) := by
  induction ents with
  | nil => intro data offset acc tail _ _; simp
  | cons e es ih =>
    intro data offset acc tail h hd
    obtain ⟨h1, h2, h3, h4⟩ := hd e (List.mem_cons_self e es)
    have hdrop : data.drop offset
        = createTarHeader e.1 e.2.length false mtime
          ++ (padTo512 e.2
            ++ (es.flatMap
                (fun e => createTarHeader e.1 e.2.length false mtime ++ padTo512 e.2)
              ++ tail)) := by
      simpa [List.flatMap_cons, List.append_assoc] using h
    rw [extractTarLoop_step data offset acc e.1 e.2.length false mtime _ hdrop
      h1 h2 h3 h4]
    simp only [eq_self_iff_true, true_and]
    have hdrop512 : data.drop (offset + 512)
        = padTo512 e.2
          ++ (es.flatMap
              (fun e => createTarHeader e.1 e.2.length false mtime ++ padTo512 e.2)
            ++ tail) := by
      have := drop_shift hdrop
      rwa [createTarHeader_length] at this
    have hfile : (data.drop (offset + 512)).take e.2.length = e.2 := by
      rw [hdrop512, padTo512, List.append_assoc, take_append_exact rfl]
    have hdrop2 : data.drop (offset + 512 + (e.2.length + 511) / 512 * 512)
        = es.flatMap
            (fun e => createTarHeader e.1 e.2.length false mtime ++ padTo512 e.2)
          ++ tail := by
      have := drop_shift hdrop512
      rwa [padTo512_length] at this
    rw [hfile]
    rw [ih data (offset + 512 + (e.2.length + 511) / 512 * 512) _ tail hdrop2
      (fun x hx => hd x (List.mem_cons_of_mem _ hx))]
    rw [List.foldl_cons, List.map_cons, List.sum_cons]
    have : offset + 512 + (e.2.length + 511) / 512 * 512
        + (es.map (fun e => 512 + (e.2.length + 511) / 512 * 512)).sum
        = offset + (512 + (e.2.length + 511) / 512 * 512
          + (es.map (fun e => 512 + (e.2.length + 511) / 512 * 512)).sum) := by
      ring
    rw [this]

/-- The two trailing zero blocks stop the walk. -/
theorem extractTarLoop_zeros (data : Bytes) (offset : Nat) (acc : List (Str × Str))
    (hdrop : data.drop offset = List.replicate 1024 0) :
    extractTarLoop data offset acc = acc := by
  have hdlen : data.length - offset = 1024 := by
    have h := congrArg List.length hdrop
    rw [List.length_drop, List.length_replicate] at h
    exact h
  have hoff : offset + 512 ≤ data.length := by omega
  have hheader : (data.drop offset).take 512 = List.replicate 512 0 := by
    rw [hdrop, show (1024 : Nat) = 512 + 512 from rfl, List.replicate_add]
    exact take_append_exact (List.length_replicate 512 0)
  have hzero : isZeroBlock (List.replicate 512 (0 : Nat)) = true := by
    unfold isZeroBlock
    rw [List.all_eq_true]
    intro x hx
    rw [List.eq_of_mem_replicate hx]
    rfl
  rw [extractTarLoop, dif_pos hoff]
  simp only [hheader, hzero, if_true, ite_true]

/-! ### Directory pieces are prefixes of the entry name -/

theorem splitChar_ne_nil (sep : Char) (s : Str) : splitChar sep s ≠ [] := by
  cases s with
  | nil => simp [splitChar]
  | cons x xs =>
    unfold splitChar
    split
    · simp
    · split <;> simp

theorem joinChar_cons_of_ne_nil (sep : Char) (p : Str) {l : List Str} (h : l ≠ []) :
    joinChar sep (p :: l) = p ++ sep :: joinChar sep l := by
  cases l with
  | nil => exact absurd rfl h
  | cons q qs => rfl

theorem joinChar_splitChar (sep : Char) (s : Str) :
    joinChar sep (splitChar sep s) = s := by
  induction s with
  | nil => rfl
  | cons x xs ih =>
    unfold splitChar
    by_cases hx : x = sep
    · rw [if_pos hx, joinChar_cons_of_ne_nil sep [] (splitChar_ne_nil sep xs), ih, hx]
      rfl
    · rw [if_neg hx]
      obtain ⟨h, t, heq⟩ : ∃ h t, splitChar sep xs = h :: t := by
        cases hsp : splitChar sep xs with
        | nil => exact absurd hsp (splitChar_ne_nil sep xs)
        | cons h t => exact ⟨h, t, rfl⟩
      rw [heq]
      rw [heq] at ih
      cases t with
      | nil => simpa [joinChar] using congrArg (x :: ·) ih
      | cons u us =>
        rw [joinChar_cons_of_ne_nil sep h (by simp)] at ih
        rw [joinChar_cons_of_ne_nil sep (x :: h) (by simp), ← ih]
        rfl

theorem joinChar_append (sep : Char) (l₁ l₂ : List Str)
    (h₁ : l₁ ≠ []) (h₂ : l₂ ≠ []) :
    joinChar sep (l₁ ++ l₂) = joinChar sep l₁ ++ sep :: joinChar sep l₂ := by
  induction l₁ with
  | nil => exact absurd rfl h₁
  | cons p ps ih =>
    cases ps with
    | nil => rw [List.singleton_append, joinChar_cons_of_ne_nil sep p h₂]; rfl
    | cons q qs =>
      rw [List.cons_append, joinChar_cons_of_ne_nil sep p (by simp),
        joinChar_cons_of_ne_nil sep p (by simp), ih (by simp)]
      simp [List.append_assoc]

theorem dirPieces_are_prefixes (name : Str) :
    ∀ p ∈ dirPieces name, p ≠ [] ∧ p <+: name := by
  intro p hp
  simp only [dirPieces, List.mem_map, List.mem_range] at hp
  obtain ⟨i, hi, rfl⟩ := hp
  have hlen : 1 ≤ (splitChar '/' name).length :=
    List.length_pos.mpr (splitChar_ne_nil '/' name)
  have hlt : i + 1 < (splitChar '/' name).length := by omega
  have h1 : (splitChar '/' name).take (i + 1) ≠ [] := by
    apply List.ne_nil_of_length_pos
    rw [List.length_take]
    omega
  have h2 : (splitChar '/' name).drop (i + 1) ≠ [] := by
    apply List.ne_nil_of_length_pos
    rw [List.length_drop]
    omega
  have hsplit : name
      = (joinChar '/' ((splitChar '/' name).take (i + 1)) ++ ['/'])
        ++ joinChar '/' ((splitChar '/' name).drop (i + 1)) := by
    conv_lhs => rw [← joinChar_splitChar '/' name,
      ← List.take_append_drop (i + 1) (splitChar '/' name)]
    rw [joinChar_append '/' _ _ h1 h2]
    simp
  exact ⟨by simp, ⟨joinChar '/' ((splitChar '/' name).drop (i + 1)), hsplit.symm⟩⟩

theorem dedupKeep_subset (l : List Str) : ∀ x ∈ dedupKeep l, x ∈ l := by
  have haux : ∀ (l : List Str) (acc : List Str) (x : Str),
      x ∈ l.foldl (fun acc d => if d ∈ acc then acc else acc ++ [d]) acc →
      x ∈ acc ∨ x ∈ l := by
    intro l
    induction l with
    | nil => intro acc x hx; exact Or.inl hx
    | cons d ds ih =>
      intro acc x hx
      rcases ih _ x hx with h | h
      · simp only at h
        by_cases hd : d ∈ acc
        · rw [if_pos hd] at h; exact Or.inl h
        · rw [if_neg hd] at h
          rcases List.mem_append.mp h with h' | h'
          · exact Or.inl h'
          · exact Or.inr (by simp at h'; simp [h'])
      · exact Or.inr (List.mem_cons_of_mem d h)
  intro x hx
  rcases haux l [] x hx with h | h
  · exact absurd h (List.not_mem_nil x)
  · exact h

theorem flatMap_length_const {α : Type} (l : List α) (f : α → Bytes) (n : Nat)
    (h : ∀ x ∈ l, (f x).length = n) : (l.flatMap f).length = n * l.length := by
  induction l with
  | nil => simp
  | cons x xs ih =>
    rw [List.flatMap_cons, List.length_append, h x (List.mem_cons_self x xs),
      ih fun y hy => h y (List.mem_cons_of_mem x hy)]
    simp [List.length_cons]
    ring

theorem flatMap_length_sum {α : Type} (l : List α) (f : α → Bytes) (g : α → Nat)
    (h : ∀ x ∈ l, (f x).length = g x) : (l.flatMap f).length = (l.map g).sum := by
  induction l with
  | nil => simp
  | cons x xs ih =>
    rw [List.flatMap_cons, List.length_append, h x (List.mem_cons_self x xs),
      ih fun y hy => h y (List.mem_cons_of_mem x hy), List.map_cons, List.sum_cons]

/-- Full tar-level round trip: extracting a generated archive walks the
directory headers, then each file entry, then stops at the zero blocks. -/
theorem extractTar_createTar (entries : List (Str × Bytes)) (mtime : Nat)
    (hents : ∀ e ∈ entries, e.1 ≠ [] ∧ e.1.length ≤ 100
      ∧ (∀ c ∈ e.1, 0 < c.toNat ∧ c.toNat < 128) ∧ e.2.length < 8 ^ 11) :
    extractTar (createTar entries mtime)
    = entries.foldl (fun a e =>
        if 0 < e.2.length ∧ stripFirstComponent e.1 ≠ [] then
          mapSet a (stripFirstComponent e.1) (asciiLossyDecode e.2)
        else a) [] := by
  unfold extractTar createTar
  set dirs := (dedupKeep (entries.flatMap (fun e => dirPieces e.1))).insertionSort
    (fun a b => ltStr a b = true) with hdirs
  set dirBlocks := dirs.flatMap (fun d => createTarHeader d 0 true mtime) with hdb
  set fileBlocks := entries.flatMap
    (fun e => createTarHeader e.1 e.2.length false mtime ++ padTo512 e.2) with hfb
  set data := dirBlocks ++ fileBlocks ++ List.replicate 1024 0 with hdata
  have hdirsOK : ∀ d ∈ dirs, d ≠ [] ∧ d.length ≤ 100
      ∧ ∀ c ∈ d, 0 < c.toNat ∧ c.toNat < 128 := by
    intro d hd
    have hd' : d ∈ entries.flatMap (fun e => dirPieces e.1) :=
      dedupKeep_subset _ d ((List.perm_insertionSort _ _).mem_iff.mp (hdirs ▸ hd))
    obtain ⟨e, he, hp⟩ := List.mem_flatMap.mp hd'
    obtain ⟨hne, t, ht⟩ := dirPieces_are_prefixes e.1 d hp
    obtain ⟨he1, he2, he3, _⟩ := hents e he
    refine ⟨hne, ?_, ?_⟩
    · have := congrArg List.length ht
      simp only [List.length_append] at this
      omega
    · intro c hc
      exact he3 c (by rw [← ht]; exact List.mem_append_left _ hc)
  have hdrop0 : data.drop 0 = dirs.flatMap (fun d => createTarHeader d 0 true mtime)
      ++ (fileBlocks ++ List.replicate 1024 0) := by
    rw [List.drop_zero, hdata, hdb, List.append_assoc]
  have h1 := extractTarLoop_dirs mtime dirs data 0 [] (fileBlocks ++ List.replicate 1024 0)
    hdrop0 hdirsOK
  have hdblen : dirBlocks.length = 512 * dirs.length := by
    rw [hdb]
    exact flatMap_length_const dirs _ 512 (fun d _ => createTarHeader_length d 0 true mtime)
  have hdropD : data.drop (0 + 512 * dirs.length)
      = entries.flatMap
          (fun e => createTarHeader e.1 e.2.length false mtime ++ padTo512 e.2)
        ++ List.replicate 1024 0 := by
    rw [Nat.zero_add, ← hdblen, hdata, List.append_assoc, List.drop_left, hfb]
  have h2 := extractTarLoop_files mtime entries data (0 + 512 * dirs.length) []
    (List.replicate 1024 0) hdropD hents
  have hfblen : fileBlocks.length
      = (entries.map (fun e => 512 + (e.2.length + 511) / 512 * 512)).sum := by
    rw [hfb]
    refine flatMap_length_sum entries _ _ (fun e _ => ?_)
    rw [List.length_append, createTarHeader_length, padTo512_length]
  have hdropZ : data.drop (0 + 512 * dirs.length
      + (entries.map (fun e => 512 + (e.2.length + 511) / 512 * 512)).sum)
      = List.replicate 1024 0 := by
    have := drop_shift (X := fileBlocks) (Y := List.replicate 1024 0) hdropD
    rw [hfb] at this
    rw [← hfblen, hfb]
    exact this
  have h3 := extractTarLoop_zeros data (0 + 512 * dirs.length
    + (entries.map (fun e => 512 + (e.2.length + 511) / 512 * 512)).sum)
    (entries.foldl (fun a e =>
      if 0 < e.2.length ∧ stripFirstComponent e.1 ≠ [] then
        mapSet a (stripFirstComponent e.1) (asciiLossyDecode e.2)
      else a) []) hdropZ
  rw [h1, h2, h3]

/-! ### The path-prefix and UTF-8 layers -/

theorem stripFirstComponent_course (p : Str) :
    stripFirstComponent ("course/".data ++ p) = p := by
  show stripFirstComponent ('c' :: 'o' :: 'u' :: 'r' :: 's' :: 'e' :: '/' :: p) = p
  simp [stripFirstComponent, List.findIdx?_cons]

theorem utf8Encode_ascii {s : Str} (h : ∀ c ∈ s, c.toNat < 128) :
    utf8Encode s = s.map (·.toNat) := by
  unfold utf8Encode
  induction s with
  | nil => rfl
  | cons c cs ih =>
    rw [List.flatMap_cons, List.map_cons,
      ih fun x hx => h x (List.mem_cons_of_mem c hx)]
    have hc := h c (List.mem_cons_self c cs)
    unfold utf8Char
    rw [if_pos (by omega)]
    rfl

theorem asciiLossyDecode_map_toNat {s : Str} (h : ∀ c ∈ s, c.toNat < 128) :
    asciiLossyDecode (s.map (·.toNat)) = s := by
  unfold asciiLossyDecode
  rw [List.map_map]
  rw [List.map_congr_left (g := id) (fun c hc => ?_), List.map_id]
  have hc := h c hc
  simp only [Function.comp_apply, if_pos hc, id]
  exact charOfNat_char (by omega)

theorem foldl_mapSet_append :
    ∀ (l acc : List (Str × Str)),
    (∀ p ∈ l, ∀ q ∈ acc, p.1 ≠ q.1) → (l.map Prod.fst).Nodup →
    l.foldl (fun a e => mapSet a e.1 e.2) acc = acc ++ l := by
  intro l
  induction l with
  | nil => intro acc _ _; simp
  | cons e es ih =>
    intro acc hfresh hnd
    rw [List.foldl_cons]
    have hanyf : acc.any (·.1 = e.1) = false := by
      rw [List.any_eq_false]
      intro q hq
      simp only [decide_eq_true_eq]
      exact fun hq1 => (hfresh e (List.mem_cons_self e es) q hq) hq1.symm
    have hset : mapSet acc e.1 e.2 = acc ++ [e] := by
      unfold mapSet
      rw [hanyf]
      simp
    rw [hset]
    rw [List.map_cons, List.nodup_cons] at hnd
    rw [ih (acc ++ [e]) (fun p hp q hq => ?_) hnd.2]
    · simp
    · rcases List.mem_append.mp hq with h | h
      · exact hfresh p (List.mem_cons_of_mem e hp) q h
      · rw [List.mem_singleton.mp h]
        intro hpe
        exact hnd.1 (by rw [← hpe]; exact List.mem_map_of_mem Prod.fst hp)

/-- The archive round trip on a list of (path, content) entries whose
paths are nonempty distinct short ASCII strings and whose contents are
nonempty ASCII text below the size-field bound. -/
theorem tarGz_roundtrip (gz gunz : Bytes → Bytes)
    (hinv : ∀ x, gunz (gz x) = x)
    (files : List (Str × Str)) (mtime : Nat)
    (hkeys : (files.map Prod.fst).Nodup)
    (hf : ∀ pc ∈ files,
      pc.1 ≠ [] ∧ pc.1.length ≤ 93 ∧ (∀ c ∈ pc.1, 0 < c.toNat ∧ c.toNat < 128)
      ∧ pc.2 ≠ [] ∧ pc.2.length < 8 ^ 11 ∧ (∀ c ∈ pc.2, c.toNat < 128)) :
    extractTarGz gunz (generateTarGz gz files mtime) = files := by
  unfold extractTarGz generateTarGz tarGzip
  rw [hinv]
  rw [extractTar_createTar _ mtime (fun e he => ?hok)]
  case hok =>
    obtain ⟨pc, hpc, rfl⟩ := List.mem_map.mp he
    obtain ⟨h1, h2, h3, h4, h5, h6⟩ := hf pc hpc
    refine ⟨by simp, ?_, ?_, ?_⟩
    · simp only [List.length_append]
      show 7 + pc.1.length ≤ 100
      omega
    · intro c hc
      rcases List.mem_append.mp hc with h | h
      · have : c ∈ ['c', 'o', 'u', 'r', 's', 'e', '/'] := h
        fin_cases this <;> exact ⟨by decide, by decide⟩
      · exact h3 c h
    · rw [utf8Encode_ascii h6, List.length_map]
      exact h5
  rw [List.foldl_map]
  rw [List.foldl_ext _ _ (g := fun a (e : Str × Str) => mapSet a e.1 e.2)
    (fun a e hme => ?step)]
  case step =>
    obtain ⟨h1, h2, h3, h4, h5, h6⟩ := hf e hme
    rw [if_pos ?cond]
    · rw [stripFirstComponent_course, utf8Encode_ascii h6, asciiLossyDecode_map_toNat h6]
    case cond =>
      refine ⟨?_, ?_⟩
      · rw [utf8Encode_ascii h6, List.length_map]
        exact List.length_pos.mpr h4
      · rw [stripFirstComponent_course]
        exact h1
  rw [foldl_mapSet_append files [] (fun p _ q hq => absurd hq (List.not_mem_nil q))
    hkeys]
  exact List.nil_append files

/-- C2, amended: the tar/gzip round trip reproduces the entry map
exactly, provided every path is a nonempty ASCII string of at most 93
characters with no NUL, the paths are pairwise distinct, and every
content is nonempty ASCII text shorter than `8^11` bytes.  (The
counterexample `c2_entry_map_roundtrip_counterexample` shows the
unrestricted claim fails: an entry with empty content is dropped, since
the decoder only stores entries with size > 0.) -/
theorem c2_entry_map_roundtrip_amended (gz gunz : Bytes → Bytes)
    (hinv : ∀ x, gunz (gz x) = x)
    (files : List (Str × Str)) (mtime : Nat)
    (hkeys : (files.map Prod.fst).Nodup)
    (hf : ∀ pc ∈ files,
      pc.1 ≠ [] ∧ pc.1.length ≤ 93 ∧ (∀ c ∈ pc.1, 0 < c.toNat ∧ c.toNat < 128)
      ∧ pc.2 ≠ [] ∧ pc.2.length < 8 ^ 11 ∧ (∀ c ∈ pc.2, c.toNat < 128)) :
    extractTarGz gunz (generateTarGz gz files mtime) = files := by
  exact tarGz_roundtrip gz gunz hinv files mtime hkeys hf

/-- C2 counterexample: packing the entry map `{"a.xml" ↦ ""}` and
unpacking it does NOT reproduce the map — the decoder drops entries of
size 0, so the result is empty.  (The gzip pair is instantiated with the
identity, the external `fflate` functions being inverse by contract.) -/
theorem c2_entry_map_roundtrip_counterexample :
    extractTarGz id (generateTarGz id [("a.xml".data, [])] 0)
      ≠ [("a.xml".data, ([] : Str))] := by
  have h : extractTarGz id (generateTarGz id [("a.xml".data, [])] 0) = [] := by
    unfold extractTarGz generateTarGz tarGzip
    show extractTar (createTar _ 0) = _
    rw [extractTar_createTar _ 0 (by decide)]
    rfl
  rw [h]
  simp

/-- Evaluation of the amended C2 on the concrete map `{"a.xml" ↦ "hi"}`. -/
theorem c2_entry_map_roundtrip_amended_witness :
    extractTarGz id (generateTarGz id [("a.xml".data, "hi".data)] 0)
      = [("a.xml".data, "hi".data)] :=
  c2_entry_map_roundtrip_amended id id (fun _ => rfl) _ 0 (by decide) (by decide)

/-! ## Course model (src/model.js) -/

/-- `CourseInfo` from src/model.js. -/
structure CourseInfo where
  courseName : Str
  org : Str
  courseId : Str
  run : Str
  language : Str
  startDate : Str
  endDate : Str
  selfPaced : Bool
deriving Repr, DecidableEq

/-- `StructureRow`: one row of the Structure sheet. -/
structure StructureRow where
  chapter : Str
  sequential : Str
  vertical : Str
  blockType : Str
  blockId : Str
deriving Repr, DecidableEq

/-- One choice of a multiple-choice problem. -/
structure Choice where
  text : Str
  correct : Bool
  hint : Str
deriving Repr, DecidableEq

structure TextBlock where
  blockId : Str
  title : Str
  content : Str
deriving Repr, DecidableEq

structure VideoBlock where
  blockId : Str
  title : Str
  youtubeId : Str
  html5Url : Str
  startTime : Str
  endTime : Str
deriving Repr, DecidableEq

structure ProblemBlock where
  blockId : Str
  title : Str
  questionText : Str
  choices : List Choice
  explanation : Str
  showAnswer : Str
deriving Repr, DecidableEq

structure CriterionOption where
  label : Str
  points : Int
deriving Repr, DecidableEq

structure Criterion where
  name : Str
  options : List CriterionOption
deriving Repr, DecidableEq

structure OpenResponseBlock where
  blockId : Str
  title : Str
  prompt : Str
  criteria : List Criterion
  assessmentType : Str
deriving Repr, DecidableEq

/-- `CourseData` from src/model.js.  The JavaScript field `structure`
is a reserved word in Lean and is named `structureRows` here; the four
block `Map`s are association lists with `Map.set`/`Map.get` semantics
(`mapSet`/`mapGet`). -/
structure CourseData where
  info : CourseInfo
  structureRows : List StructureRow
  textBlocks : List (Str × TextBlock)
  videoBlocks : List (Str × VideoBlock)
  problemBlocks : List (Str × ProblemBlock)
  openResponseBlocks : List (Str × OpenResponseBlock)
deriving Repr, DecidableEq

/-- `createCourseData()` from src/model.js. -/
def createCourseData : CourseData :=
  { info :=
      { courseName := [], org := [], courseId := [], run := []
        language := "en".data, startDate := [], endDate := [], selfPaced := true }
    structureRows := []
    textBlocks := []
    videoBlocks := []
    problemBlocks := []
    openResponseBlocks := [] }

/-! ## Workbook decoder (src/parser.js)

ExcelJS, the spreadsheet binary codec, is an external collaborator (the
spec scopes it out as a given "read a grid of named sheets with typed
cells" capability).  A workbook is modelled as the grid it yields: a
list of named sheets, each a list of rows of cell strings, where a cell
carries the stringified value `String(v)` of `cellValue` before its
final `.trim()` (rich-text/date/formula conversion is the codec's
side); `cellValue`'s trim is applied here.  `eachRow`/`eachCell`
iteration is modelled over the dense grid with 1-based numbering. -/

/-- One worksheet: a name and a dense grid of rows of cells. -/
structure Worksheet where
  name : Str
  rows : List (List Str)
deriving Repr, DecidableEq

/-- `str.toLowerCase()` (ASCII point-wise, as used on sheet/header names). -/
def jsLower (s : Str) : Str := s.map Char.toLower

/-- `str.toUpperCase()` (ASCII point-wise). -/
def jsUpper (s : Str) : Str := s.map Char.toUpper

/-- `str.replace(/\s+/g, '_')`: each maximal whitespace run becomes one
underscore. -/
def wsUnderscoreAux : Bool → Str → Str
  | _, [] => []
  | prevWs, c :: cs =>
    if c.isWhitespace then
      (if prevWs then [] else ['_']) ++ wsUnderscoreAux true cs
    else c :: wsUnderscoreAux false cs

/-- Header-name normalization: `toLowerCase().replace(/\s+/g, '_')`. -/
def normKey (s : Str) : Str := wsUnderscoreAux false (jsLower s)

/-- `cellValue` (src/parser.js): the string value of a cell, trimmed. -/
def cellValue (c : Str) : Str := jsTrim c

/-- `row.getCell(colNumber)` on a dense row (1-based). -/
def getCell (row : List Str) (colNumber : Nat) : Str := row.getD (colNumber - 1) []

/-- `findSheet` (src/parser.js): first sheet whose lowercased, trimmed
name matches. -/
def findSheet (wb : List Worksheet) (name : Str) : Option Worksheet :=
  wb.find? (fun ws => jsTrim (jsLower ws.name) = jsTrim (jsLower name))

/-- `getHeaders` (src/parser.js): column number → normalized header
name, for the non-empty cells of row 1, in column order. -/
def getHeaders (sheet : Worksheet) : List (Nat × Str) :=
  let headerRow := sheet.rows.getD 0 []
  (List.range headerRow.length).filterMap fun i =>
    let v := cellValue (headerRow.getD i [])
    if v ≠ [] then some (i + 1, normKey v) else none

/-- `rowToObject` (src/parser.js): a plain object keyed by header
names; later assignments to the same key win. -/
def rowToObject (row : List Str) (headers : List (Nat × Str)) : List (Str × Str) :=
  headers.map fun h => (h.2, cellValue (getCell row h.1))

/-- Reading a JavaScript-object field: the last assignment wins. -/
def lookupLast (obj : List (Str × Str)) (k : Str) : Option Str :=
  (obj.reverse.find? (·.1 = k)).map (·.2)

/-- `objStr` (src/parser.js): normalized-key lookup, then exact-key
fallback, trimmed; `''` when absent. -/
def objStr (r : List (Str × Str)) (key : Str) : Str :=
  match lookupLast r (normKey key) with
  | some v => jsTrim v
  | none =>
    match lookupLast r key with
    | some v => jsTrim v
    | none => []

/-- The composite `str.split(/[,;\s]+/).filter(Boolean)`: the maximal
runs of non-separator characters. -/
def splitTokensAux (isSep : Char → Bool) : Str → Str → List Str
  | [], acc => if acc = [] then [] else [acc.reverse]
  | c :: cs, acc =>
    if isSep c then
      (if acc = [] then [] else [acc.reverse]) ++ splitTokensAux isSep cs []
    else splitTokensAux isSep cs (c :: acc)

/-- Split into the maximal runs of non-separator characters. -/
def splitTokens (isSep : Char → Bool) (s : Str) : List Str :=
  splitTokensAux isSep s []

/-- The separator class `[,;\s]` of the `correct`-column list. -/
def isCorrectSep (c : Char) : Bool := c = ',' ∨ c = ';' ∨ c.isWhitespace

/-- `parseInt(s) || 0`: optional sign and maximal leading decimal run
after leading whitespace; `NaN` (no digits) becomes `0`. -/
def jsParseIntD0 (s : Str) : Int :=
  let t := s.dropWhile Char.isWhitespace
  let digitsOf : Str → Option Nat := fun l =>
    let ds := l.takeWhile (fun c => 48 ≤ c.toNat ∧ c.toNat ≤ 57)
    if ds = [] then none else some (ds.foldl (fun a c => a * 10 + (c.toNat - 48)) 0)
  match t with
  | '-' :: rest => match digitsOf rest with
    | some n => -(n : Int)
    | none => 0
  | '+' :: rest => match digitsOf rest with
    | some n => (n : Int)
    | none => 0
  | _ => match digitsOf t with
    | some n => (n : Int)
    | none => 0

/-- Decoder state: the model built so far and the accumulated errors. -/
abbrev ParseState := CourseData × List Str

/-- The Course Info sheet: a two-column key/value map, then the eight
info fields and the four required-key errors. -/
def processInfoSheet (infoSheet : Worksheet) (st : ParseState) : ParseState :=
  let infoMap := infoSheet.rows.foldl
    (fun m row =>
      let key := cellValue (getCell row 1)
      let value := cellValue (getCell row 2)
      if key ≠ [] ∧ value ≠ [] then mapSet m (jsLower key) value else m)
    ([] : List (Str × Str))
  let info : CourseInfo :=
    { courseName := (mapGet infoMap "course name".data).getD []
      org := (mapGet infoMap "organization".data).getD []
      courseId := (mapGet infoMap "course id".data).getD []
      run := (mapGet infoMap "run".data).getD []
      language := (mapGet infoMap "language".data).getD "en".data
      startDate := (mapGet infoMap "start date".data).getD []
      endDate := (mapGet infoMap "end date".data).getD []
      selfPaced := jsLower ((mapGet infoMap "self-paced".data).getD "yes".data)
        = "yes".data }
  let errs :=
    (if info.courseName = [] then ["Course Info: \"Course Name\" is required.".data]
     else [])
    ++ (if info.org = [] then ["Course Info: \"Organization\" is required.".data]
     else [])
    ++ (if info.courseId = [] then ["Course Info: \"Course ID\" is required.".data]
     else [])
    ++ (if info.run = [] then ["Course Info: \"Run\" is required.".data] else [])
  ({ st.1 with info := info }, st.2 ++ errs)

/-- The valid block types, in source order. -/
def validTypes : List Str :=
  ["text".data, "video".data, "problem".data, "openresponse".data]

/-- One Structure-sheet data row (the `eachRow` callback body for
`rowNumber > 1`). -/
def processStructureRow (rowNumber : Nat) (r : List (Str × Str)) (st : ParseState) :
    ParseState :=
  let rn := (Nat.repr rowNumber).data
  let chapter := objStr r "chapter".data
  let sequential := objStr r "sequential".data
  let vertical := objStr r "vertical".data
  let blockType := jsLower (objStr r "block_type".data)
  let blockId := objStr r "block_id".data
  if chapter = [] then
    (st.1, st.2 ++ ["Structure row ".data ++ rn ++ ": \"chapter\" is required.".data])
  else if sequential = [] then
    (st.1, st.2 ++ ["Structure row ".data ++ rn ++ ": \"sequential\" is required.".data])
  else if vertical = [] then
    (st.1, st.2 ++ ["Structure row ".data ++ rn ++ ": \"vertical\" is required.".data])
  else if blockType = [] then
    (st.1, st.2 ++ ["Structure row ".data ++ rn ++ ": \"block_type\" is required.".data])
  else if blockId = [] then
    (st.1, st.2 ++ ["Structure row ".data ++ rn ++ ": \"block_id\" is required.".data])
  else if blockType ∉ validTypes then
    (st.1, st.2 ++ ["Structure row ".data ++ rn ++ ": Invalid block_type \"".data
      ++ blockType
      ++ "\". Must be one of: text, video, problem, openresponse".data])
  else
    ({ st.1 with structureRows := st.1.structureRows
        ++ [{ chapter := chapter, sequential := sequential, vertical := vertical
              blockType := blockType, blockId := blockId }] }, st.2)

/-- Iterate a sheet's data rows (`eachRow`, skipping `rowNumber === 1`). -/
def eachDataRow (sheet : Worksheet)
    (step : Nat → List (Str × Str) → ParseState → ParseState)
    (st : ParseState) : ParseState :=
  let headers := getHeaders sheet
  (sheet.rows.enum).foldl
    (fun st ir =>
      if ir.1 + 1 = 1 then st
      else step (ir.1 + 1) (rowToObject ir.2 headers) st)
    st

/-- One Text Blocks data row. -/
def processTextRow (rowNumber : Nat) (r : List (Str × Str)) (st : ParseState) :
    ParseState :=
  let blockId := objStr r "block_id".data
  if blockId = [] then
    (st.1, st.2 ++ ["Text Blocks row ".data ++ (Nat.repr rowNumber).data
      ++ ": \"block_id\" is required.".data])
  else
    ({ st.1 with textBlocks := mapSet st.1.textBlocks blockId <|
        { blockId := blockId
          title := (let t := objStr r "title".data
                    if t = [] then "Text".data else t)
          content := objStr r "content".data } }, st.2)

/-- One Videos data row. -/
def processVideoRow (rowNumber : Nat) (r : List (Str × Str)) (st : ParseState) :
    ParseState :=
  let blockId := objStr r "block_id".data
  if blockId = [] then
    (st.1, st.2 ++ ["Videos row ".data ++ (Nat.repr rowNumber).data
      ++ ": \"block_id\" is required.".data])
  else
    ({ st.1 with videoBlocks := mapSet st.1.videoBlocks blockId <|
        { blockId := blockId
          title := (let t := objStr r "title".data
                    if t = [] then "Video".data else t)
          youtubeId := objStr r "youtube_id".data
          html5Url := objStr r "html5_url".data
          startTime := (let t := objStr r "start_time".data
                        if t = [] then "00:00:00".data else t)
          endTime := (let t := objStr r "end_time".data
                      if t = [] then "00:00:00".data else t) } }, st.2)

/-- The six choice-column letters. -/
def choiceLetters : List Char := ['a', 'b', 'c', 'd', 'e', 'f']

/-- The choices of one Problems row: one entry per non-empty
`choice_x` column, marked correct when its uppercased letter occurs in
the separator-split `correct` list. -/
def problemChoices (r : List (Str × Str)) : List Choice :=
  let correctRaw := jsUpper (objStr r "correct".data)
  let correctSet := splitTokens isCorrectSep correctRaw
  choiceLetters.filterMap fun letter =>
    let text := objStr r ("choice_".data ++ [letter])
    if text = [] then none
    else some
      { text := text
        correct := correctSet.contains (jsUpper [letter])
        hint := objStr r ("hint_".data ++ [letter]) }

/-- One Problems data row. -/
def processProblemRow (rowNumber : Nat) (r : List (Str × Str)) (st : ParseState) :
    ParseState :=
  let blockId := objStr r "block_id".data
  if blockId = [] then
    (st.1, st.2 ++ ["Problems row ".data ++ (Nat.repr rowNumber).data
      ++ ": \"block_id\" is required.".data])
  else
    let choices := problemChoices r
    if choices.length < 2 then
      (st.1, st.2 ++ ["Problems row ".data ++ (Nat.repr rowNumber).data
        ++ ": At least 2 choices are required.".data])
    else if ¬choices.any (·.correct) then
      (st.1, st.2 ++ ["Problems row ".data ++ (Nat.repr rowNumber).data
        ++ ": No correct answer specified.".data])
    else
      ({ st.1 with problemBlocks := mapSet st.1.problemBlocks blockId <|
          { blockId := blockId
            title := (let t := objStr r "title".data
                      if t = [] then blockId else t)
            questionText := objStr r "question_text".data
            choices := choices
            explanation := objStr r "explanation".data
            showAnswer := (let sa := objStr r "show_answer".data
                           if sa = [] then "attempted".data else sa) } }, st.2)

/-- The numbered criterion column pairs `criterion_N_name` /
`criterion_N_options` for `N = 1..10`, stopping at the first missing
pair; options are `label=points` pairs separated by `;`. -/
def parseCriteriaAux (r : List (Str × Str)) : Nat → Nat → List Criterion
  | 0, _ => []
  | fuel + 1, c =>
    let cn := (Nat.repr c).data
    let name := objStr r ("criterion_".data ++ cn ++ "_name".data)
    let optStr := objStr r ("criterion_".data ++ cn ++ "_options".data)
    if name = [] ∨ optStr = [] then []
    else
      { name := name
        options := (splitChar ';' optStr).map fun pair =>
          let pieces := splitChar '=' pair
          { label := jsTrim (pieces.getD 0 [])
            points := jsParseIntD0 (pieces.getD 1 []) } }
      :: parseCriteriaAux r fuel (c + 1)

/-- One Open Response data row. -/
def processOpenResponseRow (rowNumber : Nat) (r : List (Str × Str))
    (st : ParseState) : ParseState :=
  let blockId := objStr r "block_id".data
  if blockId = [] then
    (st.1, st.2 ++ ["Open Response row ".data ++ (Nat.repr rowNumber).data
      ++ ": \"block_id\" is required.".data])
  else
    ({ st.1 with openResponseBlocks := mapSet st.1.openResponseBlocks blockId <|
        { blockId := blockId
          title := (let t := objStr r "title".data
                    if t = [] then blockId else t)
          prompt := objStr r "prompt".data
          criteria := parseCriteriaAux r 10 1
          assessmentType := (let a := objStr r "assessment_type".data
                             if a = [] then "self".data else a) } }, st.2)

/-- The final cross-validation pass: one error per Structure row whose
block id is absent from the matching content map. -/
def crossValidate (data : CourseData) : List Str :=
  data.structureRows.flatMap fun row =>
    if row.blockType = "text".data ∧ (mapGet data.textBlocks row.blockId).isNone then
      ["Structure references text block \"".data ++ row.blockId
        ++ "\" but it's not defined in \"Text Blocks\" sheet.".data]
    else if row.blockType = "video".data
        ∧ (mapGet data.videoBlocks row.blockId).isNone then
      ["Structure references video block \"".data ++ row.blockId
        ++ "\" but it's not defined in \"Videos\" sheet.".data]
    else if row.blockType = "problem".data
        ∧ (mapGet data.problemBlocks row.blockId).isNone then
      ["Structure references problem block \"".data ++ row.blockId
        ++ "\" but it's not defined in \"Problems\" sheet.".data]
    else if row.blockType = "openresponse".data
        ∧ (mapGet data.openResponseBlocks row.blockId).isNone then
      ["Structure references open response block \"".data ++ row.blockId
        ++ "\" but it's not defined in \"Open Response\" sheet.".data]
    else []

/-- `parseWorkbook` (src/parser.js): the six sheets in order, then the
cross-validation pass; returns the model and the accumulated errors. -/
def parseWorkbook (wb : List Worksheet) : CourseData × List Str :=
  let st0 : ParseState := (createCourseData, [])
  let st1 := match findSheet wb "Course Info".data with
    | some s => processInfoSheet s st0
    | none => (st0.1, st0.2 ++ ["Missing sheet: \"Course Info\"".data])
  let st2 := match findSheet wb "Structure".data with
    | some s => eachDataRow s processStructureRow st1
    | none => (st1.1, st1.2 ++ ["Missing sheet: \"Structure\"".data])
  let st3 := match findSheet wb "Text Blocks".data with
    | some s => eachDataRow s processTextRow st2
    | none => st2
  let st4 := match findSheet wb "Videos".data with
    | some s => eachDataRow s processVideoRow st3
    | none => st3
  let st5 := match findSheet wb "Problems".data with
    | some s => eachDataRow s processProblemRow st4
    | none => st4
  let st6 := match findSheet wb "Open Response".data with
    | some s => eachDataRow s processOpenResponseRow st5
    | none => st5
  (st6.1, st6.2 ++ crossValidate st6.1)

/-! ### Claims about the Problems sheet -/

theorem length_filterMap_eq_filter {α β : Type} (f : α → Option β) (p : α → Bool)
    (h : ∀ x, (f x).isSome = p x) (l : List α) :
    (l.filterMap f).length = (l.filter p).length := by
  induction l with
  | nil => rfl
  | cons x xs ih =>
    have hx := h x
    rw [List.filterMap_cons, List.filter_cons]
    cases hfx : f x with
    | none => rw [hfx] at hx; rw [← hx]; simpa using ih
    | some b =>
      rw [hfx] at hx
      rw [← hx]
      simpa using ih

theorem problemChoices_length (r : List (Str × Str)) :
    (problemChoices r).length
    = (choiceLetters.filter
        (fun l => objStr r ("choice_".data ++ [l]) ≠ [])).length := by
  unfold problemChoices
  refine length_filterMap_eq_filter _ _ (fun l => ?_) _
  by_cases h : objStr r ['c', 'h', 'o', 'i', 'c', 'e', '_', l] = [] <;> simp [h]

theorem problemChoices_any_correct (r : List (Str × Str)) :
    (problemChoices r).any (·.correct) = true
    ↔ ∃ l ∈ choiceLetters, objStr r ("choice_".data ++ [l]) ≠ []
        ∧ (splitTokens isCorrectSep
            (jsUpper (objStr r "correct".data))).contains (jsUpper [l]) = true := by
  unfold problemChoices
  generalize choiceLetters = ls
  induction ls with
  | nil => simp
  | cons a as ih =>
    rw [List.filterMap_cons]
    by_cases ha : objStr r ("choice_".data ++ [a]) = []
    · rw [if_pos ha]
      rw [ih]
      constructor
      · rintro ⟨l, hl, h1, h2⟩
        exact ⟨l, List.mem_cons_of_mem a hl, h1, h2⟩
      · rintro ⟨l, hl, h1, h2⟩
        rcases List.mem_cons.mp hl with h | h
        · subst h; exact absurd ha h1
        · exact ⟨l, h, h1, h2⟩
    · rw [if_neg ha]
      rw [List.any_cons]
      constructor
      · intro h
        rcases Bool.or_eq_true_iff.mp h with h | h
        · exact ⟨a, List.mem_cons_self a as, ha, h⟩
        · obtain ⟨l, hl, h1, h2⟩ := ih.mp h
          exact ⟨l, List.mem_cons_of_mem a hl, h1, h2⟩
      · rintro ⟨l, hl, h1, h2⟩
        apply Bool.or_eq_true_iff.mpr
        rcases List.mem_cons.mp hl with h | h
        · subst h; exact Or.inl h2
        · exact Or.inr (ih.mpr ⟨l, h, h1, h2⟩)

/-- C5: a Problems-sheet row with a non-empty block id is rejected —
one error appended, the problem map untouched — exactly when fewer than
two of the six choice columns a–f are non-empty, or no non-empty choice
column's letter occurs in the comma/semicolon/whitespace-separated,
case-insensitive letter list of the `correct` column; otherwise the
block is stored in the problem map and no error is appended. -/
theorem c5_problem_row_rejection (rowNumber : Nat) (r : List (Str × Str))
    (st : ParseState) (hbid : objStr r "block_id".data ≠ []) :
    (((choiceLetters.filter
        (fun l => objStr r ("choice_".data ++ [l]) ≠ [])).length < 2
      ∨ ¬∃ l ∈ choiceLetters, objStr r ("choice_".data ++ [l]) ≠ []
          ∧ (splitTokens isCorrectSep
              (jsUpper (objStr r "correct".data))).contains (jsUpper [l]) = true) →
      ∃ msg, processProblemRow rowNumber r st = (st.1, st.2 ++ [msg]))
    ∧ (¬((choiceLetters.filter
          (fun l => objStr r ("choice_".data ++ [l]) ≠ [])).length < 2
        ∨ ¬∃ l ∈ choiceLetters, objStr r ("choice_".data ++ [l]) ≠ []
            ∧ (splitTokens isCorrectSep
                (jsUpper (objStr r "correct".data))).contains (jsUpper [l]) = true) →
      ∃ b : ProblemBlock, b.choices = problemChoices r
        ∧ processProblemRow rowNumber r st
          = ({ st.1 with problemBlocks := mapSet st.1.problemBlocks (objStr r "block_id".data) b }, st.2)) := by
  constructor
  · intro hrej
    unfold processProblemRow
    rw [if_neg hbid]
    rcases hrej with h | h
    · rw [← problemChoices_length] at h
      rw [if_pos h]
      exact ⟨_, rfl⟩
    · have hany : ¬(problemChoices r).any (·.correct) = true := by
        rw [problemChoices_any_correct]
        exact h
      by_cases hlen : (problemChoices r).length < 2
      · rw [if_pos hlen]
        exact ⟨_, rfl⟩
      · rw [if_neg hlen, if_pos (by simpa using hany)]
        exact ⟨_, rfl⟩
  · intro hacc
    push_neg at hacc
    obtain ⟨hlen, hcor⟩ := hacc
    rw [← problemChoices_length] at hlen
    have hany : (problemChoices r).any (·.correct) = true :=
      (problemChoices_any_correct r).mpr hcor
    unfold processProblemRow
    rw [if_neg hbid, if_neg (by omega), if_neg (by simp [hany])]
    exact ⟨_, rfl, rfl⟩

theorem c5_problem_row_rejection_witness :
    ∃ msg, processProblemRow 3
        [("block_id".data, "q1".data), ("choice_a".data, "4".data),
         ("correct".data, "A".data)]
        (createCourseData, [])
      = ((createCourseData, ([] : List Str)).1, [] ++ [msg]) :=
  (c5_problem_row_rejection 3
    [("block_id".data, "q1".data), ("choice_a".data, "4".data),
     ("correct".data, "A".data)]
    (createCourseData, []) (by decide)).1 (by decide)

/-- C6: a Problems-sheet row whose `correct` column is "B,D" and whose six
choice columns a–f are all non-empty decodes to six choices whose correct
flags are exactly at positions 1 and 3 (letters B and D). -/
theorem c6_correct_letters_decoded (r : List (Str × Str))
    (hcor : objStr r "correct".data = "B,D".data)
    (hfull : ∀ l ∈ choiceLetters, objStr r ("choice_".data ++ [l]) ≠ []) :
    (problemChoices r).length = 6
    ∧ (problemChoices r).map (·.correct)
      = [false, true, false, true, false, false] := by
  have ha := hfull 'a' (by decide)
  have hb := hfull 'b' (by decide)
  have hc := hfull 'c' (by decide)
  have hd := hfull 'd' (by decide)
  have he := hfull 'e' (by decide)
  have hf := hfull 'f' (by decide)
  unfold problemChoices choiceLetters
  rw [hcor]
  simp only [List.filterMap_cons, List.filterMap_nil,
    if_neg ha, if_neg hb, if_neg hc, if_neg hd, if_neg he, if_neg hf]
  refine ⟨rfl, ?_⟩
  simp only [List.map_cons, List.map_nil]
  decide

theorem c6_correct_letters_decoded_witness :
    (problemChoices
        [("block_id".data, "q1".data), ("correct".data, "B,D".data),
         ("choice_a".data, "3".data), ("choice_b".data, "4".data),
         ("choice_c".data, "5".data), ("choice_d".data, "6".data),
         ("choice_e".data, "7".data), ("choice_f".data, "8".data)]).length = 6
    ∧ (problemChoices
        [("block_id".data, "q1".data), ("correct".data, "B,D".data),
         ("choice_a".data, "3".data), ("choice_b".data, "4".data),
         ("choice_c".data, "5".data), ("choice_d".data, "6".data),
         ("choice_e".data, "7".data), ("choice_f".data, "8".data)]).map (·.correct)
      = [false, true, false, true, false, false] :=
  c6_correct_letters_decoded
    [("block_id".data, "q1".data), ("correct".data, "B,D".data),
     ("choice_a".data, "3".data), ("choice_b".data, "4".data),
     ("choice_c".data, "5".data), ("choice_d".data, "6".data),
     ("choice_e".data, "7".data), ("choice_f".data, "8".data)]
    (by decide) (by decide)

theorem crossValidate_eq_spec (data : CourseData) :
    crossValidate data
    = data.structureRows.flatMap (fun row =>
        if row.blockType = "text".data then
          (if mapGet data.textBlocks row.blockId = none then
            ["Structure references text block \"".data ++ row.blockId
              ++ "\" but it's not defined in \"Text Blocks\" sheet.".data]
          else [])
        else if row.blockType = "video".data then
          (if mapGet data.videoBlocks row.blockId = none then
            ["Structure references video block \"".data ++ row.blockId
              ++ "\" but it's not defined in \"Videos\" sheet.".data]
          else [])
        else if row.blockType = "problem".data then
          (if mapGet data.problemBlocks row.blockId = none then
            ["Structure references problem block \"".data ++ row.blockId
              ++ "\" but it's not defined in \"Problems\" sheet.".data]
          else [])
        else if row.blockType = "openresponse".data then
          (if mapGet data.openResponseBlocks row.blockId = none then
            ["Structure references open response block \"".data ++ row.blockId
              ++ "\" but it's not defined in \"Open Response\" sheet.".data]
          else [])
        else []) := by
  unfold crossValidate
  congr 1
  funext row
  by_cases h1 : row.blockType = "text".data <;>
    by_cases h2 : row.blockType = "video".data <;>
      by_cases h3 : row.blockType = "problem".data <;>
        by_cases h4 : row.blockType = "openresponse".data <;>
          simp_all [Option.isNone_iff_eq_none]

theorem parseWorkbook_errors_decomp (wb : List Worksheet) :
    ∃ pre : List Str,
      (parseWorkbook wb).2 = pre ++ crossValidate (parseWorkbook wb).1 := by
  unfold parseWorkbook
  exact ⟨_, rfl⟩

/-- C9: the decoder's error list ends with the cross-validation segment, in
which every Structure row whose (blockType, blockId) pair is absent from the
matching content map of the decoded result contributes exactly one error
string naming that block (and rows whose block is present, or whose type is
not one of the four block kinds, contribute nothing); the decoder always
returns a result. -/
theorem c9_cross_validation_one_error_per_missing (wb : List Worksheet) :
    ∃ pre : List Str,
      (parseWorkbook wb).2
      = pre ++ (parseWorkbook wb).1.structureRows.flatMap (fun row =>
          if row.blockType = "text".data then
            (if mapGet (parseWorkbook wb).1.textBlocks row.blockId = none then
              ["Structure references text block \"".data ++ row.blockId
                ++ "\" but it's not defined in \"Text Blocks\" sheet.".data]
            else [])
          else if row.blockType = "video".data then
            (if mapGet (parseWorkbook wb).1.videoBlocks row.blockId = none then
              ["Structure references video block \"".data ++ row.blockId
                ++ "\" but it's not defined in \"Videos\" sheet.".data]
            else [])
          else if row.blockType = "problem".data then
            (if mapGet (parseWorkbook wb).1.problemBlocks row.blockId = none then
              ["Structure references problem block \"".data ++ row.blockId
                ++ "\" but it's not defined in \"Problems\" sheet.".data]
            else [])
          else if row.blockType = "openresponse".data then
            (if mapGet (parseWorkbook wb).1.openResponseBlocks row.blockId
                = none then
              ["Structure references open response block \"".data ++ row.blockId
                ++ "\" but it's not defined in \"Open Response\" sheet.".data]
            else [])
          else []) := by
  obtain ⟨pre, hp⟩ := parseWorkbook_errors_decomp wb
  exact ⟨pre, by rw [hp, crossValidate_eq_spec]⟩

/-! ### Hierarchy builder (src/model.js: buildHierarchy) -/

/-- JS `a || b` on strings: the empty string is falsy. -/
def jsOrStr (a b : Str) : Str := if a = [] then b else a

/-- `idMap.get(key) || fallback`: a missing key or an empty value falls
back to the name. -/
def idLookup (idMap : List (Str × Str)) (key fallback : Str) : Str :=
  jsOrStr ((mapGet idMap key).getD []) fallback

/-- A `{ type, blockId }` reference pushed into a vertical. -/
structure BlockRef where
  type : Str
  blockId : Str
deriving Repr, DecidableEq

structure VerticalNode where
  name : Str
  id : Str
  blocks : List BlockRef
deriving Repr, DecidableEq

structure SequentialNode where
  name : Str
  id : Str
  verticals : List VerticalNode
deriving Repr, DecidableEq

structure ChapterNode where
  name : Str
  id : Str
  sequentials : List SequentialNode
deriving Repr, DecidableEq

/-- Update the first element satisfying `p` in place (the JS code mutates
the object found in the name-keyed Map, which is the first and only one
with that name). -/
def updateFirst {α : Type} (p : α → Bool) (f : α → α) : List α → List α
  | [] => []
  | x :: xs => if p x then f x :: xs else x :: updateFirst p f xs

/-- The vertical-level body of the loop: create the vertical on first
sight, then push this row's block reference. -/
def vertStep (idMap : List (Str × Str)) (row : StructureRow)
    (verts : List VerticalNode) : List VerticalNode :=
  let vertKey := row.chapter ++ "|".data ++ row.sequential
    ++ "|".data ++ row.vertical
  let newVert : VerticalNode :=
    { name := row.vertical,
      id := idLookup idMap ("vert:".data ++ vertKey) row.vertical,
      blocks := [] }
  let verts1 := if verts.any (fun vt => vt.name = row.vertical) then verts
    else verts ++ [newVert]
  updateFirst (fun vt => vt.name = row.vertical)
    (fun vt => { vt with blocks :=
      vt.blocks ++ [{ type := row.blockType, blockId := row.blockId }] }) verts1

/-- The sequential-level body of the loop. -/
def seqStep (idMap : List (Str × Str)) (row : StructureRow)
    (seqs : List SequentialNode) : List SequentialNode :=
  let seqKey := row.chapter ++ "|".data ++ row.sequential
  let newSeq : SequentialNode :=
    { name := row.sequential,
      id := idLookup idMap ("seq:".data ++ seqKey) row.sequential,
      verticals := [] }
  let seqs1 := if seqs.any (fun sq => sq.name = row.sequential) then seqs
    else seqs ++ [newSeq]
  updateFirst (fun sq => sq.name = row.sequential)
    (fun sq => { sq with verticals := vertStep idMap row sq.verticals }) seqs1

/-- The chapter-level body of the loop over structure rows. -/
def buildStep (idMap : List (Str × Str)) (chs : List ChapterNode)
    (row : StructureRow) : List ChapterNode :=
  let newCh : ChapterNode :=
    { name := row.chapter,
      id := idLookup idMap ("ch:".data ++ row.chapter) row.chapter,
      sequentials := [] }
  let chs1 := if chs.any (fun ch => ch.name = row.chapter) then chs
    else chs ++ [newCh]
  updateFirst (fun ch => ch.name = row.chapter)
    (fun ch => { ch with sequentials := seqStep idMap row ch.sequentials }) chs1

/-- `buildHierarchy(structure, idMap)` from src/model.js. -/
def buildHierarchy (rows : List StructureRow)
    (idMap : List (Str × Str)) : List ChapterNode :=
  rows.foldl (buildStep idMap) []

/-- All vertical nodes named `v` in a vertical list. -/
def vertsAtV (v : Str) (verts : List VerticalNode) : List VerticalNode :=
  verts.filter (fun vt => vt.name = v)

/-- All vertical nodes named `v` inside sequentials named `s`. -/
def vertsAtSV (s v : Str) (seqs : List SequentialNode) : List VerticalNode :=
  seqs.flatMap (fun sq => if sq.name = s then vertsAtV v sq.verticals else [])

/-- All vertical nodes reachable at the name path (c, s, v) in a tree. -/
def vertNodesAt (c s v : Str) (chs : List ChapterNode) : List VerticalNode :=
  chs.flatMap (fun ch => if ch.name = c then vertsAtSV s v ch.sequentials else [])

/-- The hierarchy invariant: names are unique at every level. -/
def HierInv (chs : List ChapterNode) : Prop :=
  (chs.map (·.name)).Nodup
  ∧ ∀ ch ∈ chs, (ch.sequentials.map (·.name)).Nodup
    ∧ ∀ sq ∈ ch.sequentials, (sq.verticals.map (·.name)).Nodup

theorem updateFirst_nil {α : Type} (p : α → Bool) (f : α → α) :
    updateFirst p f [] = [] := rfl

theorem updateFirst_cons {α : Type} (p : α → Bool) (f : α → α) (x : α)
    (xs : List α) :
    updateFirst p f (x :: xs)
    = if p x then f x :: xs else x :: updateFirst p f xs := rfl

theorem updateFirst_of_forall_not {α : Type} (p : α → Bool) (f : α → α)
    (l : List α) (h : ∀ x ∈ l, ¬ p x = true) : updateFirst p f l = l := by
  induction l with
  | nil => rfl
  | cons x xs ih =>
    rw [updateFirst_cons, if_neg (h x (List.mem_cons_self x xs))]
    rw [ih (fun y hy => h y (List.mem_cons_of_mem x hy))]

theorem updateFirst_append_left {α : Type} (p : α → Bool) (f : α → α)
    (l₁ l₂ : List α) (h : ∀ x ∈ l₁, ¬ p x = true) :
    updateFirst p f (l₁ ++ l₂) = l₁ ++ updateFirst p f l₂ := by
  induction l₁ with
  | nil => rfl
  | cons x xs ih =>
    rw [List.cons_append, updateFirst_cons,
      if_neg (h x (List.mem_cons_self x xs)), List.cons_append]
    rw [ih (fun y hy => h y (List.mem_cons_of_mem x hy))]

theorem map_updateFirst {α β : Type} (k : α → β) (p : α → Bool) (f : α → α)
    (l : List α) (hf : ∀ x, k (f x) = k x) :
    (updateFirst p f l).map k = l.map k := by
  induction l with
  | nil => rfl
  | cons x xs ih =>
    rw [updateFirst_cons]
    by_cases hp : p x
    · rw [if_pos hp, List.map_cons, List.map_cons, hf]
    · rw [if_neg hp, List.map_cons, List.map_cons, ih]

theorem mem_updateFirst {α : Type} (p : α → Bool) (f : α → α) (l : List α)
    (y : α) (hy : y ∈ updateFirst p f l) : y ∈ l ∨ ∃ x ∈ l, y = f x := by
  induction l with
  | nil => exact absurd hy (List.not_mem_nil y)
  | cons x xs ih =>
    rw [updateFirst_cons] at hy
    by_cases hp : p x
    · rw [if_pos hp] at hy
      rcases List.mem_cons.mp hy with h | h
      · exact Or.inr ⟨x, List.mem_cons_self x xs, h⟩
      · exact Or.inl (List.mem_cons_of_mem x h)
    · rw [if_neg hp] at hy
      rcases List.mem_cons.mp hy with h | h
      · exact Or.inl (h ▸ List.mem_cons_self x xs)
      · rcases ih h with h2 | ⟨z, hz, he⟩
        · exact Or.inl (List.mem_cons_of_mem x h2)
        · exact Or.inr ⟨z, List.mem_cons_of_mem x hz, he⟩

theorem flatMap_eq_nil_of_forall {α β : Type} (g : α → List β) (l : List α)
    (h : ∀ x ∈ l, g x = []) : l.flatMap g = [] := by
  induction l with
  | nil => rfl
  | cons x xs ih =>
    rw [List.flatMap_cons, h x (List.mem_cons_self x xs)]
    rw [List.nil_append]
    exact ih (fun y hy => h y (List.mem_cons_of_mem x hy))

theorem flatMap_updateFirst_closed {α β : Type} (g : α → List β)
    (p : α → Bool) (f : α → α) (l : List α)
    (hc : ∀ x ∈ l, p x = true → g x = [] ∧ g (f x) = []) :
    (updateFirst p f l).flatMap g = l.flatMap g := by
  induction l with
  | nil => rfl
  | cons x xs ih =>
    rw [updateFirst_cons]
    by_cases hp : p x
    · rw [if_pos hp]
      obtain ⟨h1, h2⟩ := hc x (List.mem_cons_self x xs) hp
      rw [List.flatMap_cons, List.flatMap_cons, h1, h2]
    · rw [if_neg hp, List.flatMap_cons, List.flatMap_cons]
      rw [ih (fun y hy => hc y (List.mem_cons_of_mem x hy))]

theorem exists_first_decomp {α : Type} (p : α → Bool) (l : List α)
    (h : l.any p = true) :
    ∃ l₁ x l₂, l = l₁ ++ x :: l₂ ∧ (∀ y ∈ l₁, ¬ p y = true) ∧ p x = true := by
  induction l with
  | nil => simp at h
  | cons x xs ih =>
    by_cases hp : p x
    · exact ⟨[], x, xs, rfl, by simp, hp⟩
    · rw [List.any_cons] at h
      rcases Bool.or_eq_true_iff.mp h with h2 | h2
      · exact absurd h2 hp
      · obtain ⟨l₁, z, l₂, he, hn, hz⟩ := ih h2
        refine ⟨x :: l₁, z, l₂, by rw [he, List.cons_append], ?_, hz⟩
        intro y hy
        rcases List.mem_cons.mp hy with h3 | h3
        · exact h3 ▸ hp
        · exact hn y h3

theorem filter_eq_cons_decomp {α : Type} (p : α → Bool) (l : List α)
    (x : α) (xs : List α) (h : l.filter p = x :: xs) :
    ∃ l₁ l₂, l = l₁ ++ x :: l₂ ∧ (∀ y ∈ l₁, ¬ p y = true) ∧ p x = true
      ∧ l₂.filter p = xs := by
  induction l with
  | nil => simp at h
  | cons z zs ih =>
    rw [List.filter_cons] at h
    by_cases hp : p z
    · rw [if_pos hp] at h
      obtain ⟨h1, h2⟩ := List.cons.inj h
      exact ⟨[], zs, by rw [List.nil_append, h1], by simp, h1 ▸ hp, h2⟩
    · rw [if_neg hp] at h
      obtain ⟨l₁, l₂, he, hn, hx, hf⟩ := ih h
      refine ⟨z :: l₁, l₂, by rw [he, List.cons_append], ?_, hx, hf⟩
      intro y hy
      rcases List.mem_cons.mp hy with h3 | h3
      · exact h3 ▸ hp
      · exact hn y h3

theorem filter_singleton_of_nodup {α : Type} (k : α → Str) (c : Str)
    (l : List α) (h : (l.map k).Nodup) :
    l.filter (fun x => k x = c) = []
    ∨ ∃ x, l.filter (fun x => k x = c) = [x] := by
  induction l with
  | nil => exact Or.inl rfl
  | cons z zs ih =>
    rw [List.map_cons, List.nodup_cons] at h
    rw [List.filter_cons]
    by_cases hp : k z = c
    · refine Or.inr ⟨z, ?_⟩
      rw [if_pos (by simpa using hp)]
      have hz : zs.filter (fun x => k x = c) = [] := by
        apply List.filter_eq_nil_iff.mpr
        intro y hy
        simp only [decide_eq_true_eq]
        intro hk
        exact h.1 (hp ▸ hk ▸ List.mem_map_of_mem k hy)
      rw [hz]
    · rw [if_neg (by simpa using hp)]
      exact ih h.2

theorem filter_updateFirst_closed {α : Type} (q p : α → Bool) (f : α → α)
    (l : List α)
    (hc : ∀ x ∈ l, p x = true → q x = false ∧ q (f x) = false) :
    (updateFirst p f l).filter q = l.filter q := by
  induction l with
  | nil => rfl
  | cons x xs ih =>
    rw [updateFirst_cons]
    by_cases hp : p x
    · rw [if_pos hp]
      obtain ⟨h1, h2⟩ := hc x (List.mem_cons_self x xs) hp
      rw [List.filter_cons, List.filter_cons, h1, h2]
      simp
    · rw [if_neg hp, List.filter_cons, List.filter_cons]
      rw [ih (fun y hy => hc y (List.mem_cons_of_mem x hy))]

theorem vertsAtV_vertStep_miss (idMap : List (Str × Str)) (row : StructureRow)
    (v : Str) (verts : List VerticalNode) (hne : row.vertical ≠ v) :
    vertsAtV v (vertStep idMap row verts) = vertsAtV v verts := by
  unfold vertsAtV
  simp only [vertStep]
  by_cases hany : verts.any (fun vt => vt.name = row.vertical) = true
  · rw [if_pos hany]
    apply filter_updateFirst_closed
    intro x _ hp
    have hx : x.name = row.vertical := by simpa using hp
    constructor
    · simp [hx, hne]
    · simp [hx, hne]
  · rw [if_neg hany]
    rw [filter_updateFirst_closed]
    · rw [List.filter_append]
      have h2 : List.filter (fun vt => decide (vt.name = v))
          [({ name := row.vertical,
              id := idLookup idMap ("vert:".data ++ (row.chapter ++ "|".data
                ++ row.sequential ++ "|".data ++ row.vertical)) row.vertical,
              blocks := [] } : VerticalNode)] = [] := by
        simp [hne]
      rw [h2, List.append_nil]
    · intro x _ hp
      have hx : x.name = row.vertical := by simpa using hp
      constructor
      · simp [hx, hne]
      · simp [hx, hne]

theorem vertsAtV_vertStep_new (idMap : List (Str × Str)) (row : StructureRow)
    (v : Str) (verts : List VerticalNode)
    (hv : row.vertical = v) (hnil : vertsAtV v verts = []) :
    vertsAtV v (vertStep idMap row verts)
    = [{ name := v,
         id := idLookup idMap ("vert:".data ++ (row.chapter ++ "|".data
           ++ row.sequential ++ "|".data ++ v)) v,
         blocks := [{ type := row.blockType, blockId := row.blockId }] }] := by
  subst hv
  unfold vertsAtV at hnil ⊢
  have hall : ∀ x ∈ verts, ¬ (fun vt : VerticalNode =>
      decide (vt.name = row.vertical)) x = true := by
    intro x hx
    have := List.filter_eq_nil_iff.mp hnil x hx
    simpa using this
  have hany : verts.any (fun vt => vt.name = row.vertical) = false := by
    rw [List.any_eq_false]
    intro x hx
    simpa using hall x hx
  simp only [vertStep]
  rw [if_neg (by simp [hany])]
  rw [updateFirst_append_left _ _ _ _ hall, updateFirst_cons,
    if_pos (by simp)]
  rw [List.filter_append, hnil, List.nil_append]
  simp

theorem vertsAtV_vertStep_old (idMap : List (Str × Str)) (row : StructureRow)
    (v : Str) (verts : List VerticalNode) (x : VerticalNode)
    (hv : row.vertical = v) (hone : vertsAtV v verts = [x]) :
    vertsAtV v (vertStep idMap row verts)
    = [{ x with blocks :=
        x.blocks ++ [{ type := row.blockType, blockId := row.blockId }] }] := by
  subst hv
  unfold vertsAtV at hone ⊢
  obtain ⟨l₁, l₂, he, hn, hx, hf⟩ := filter_eq_cons_decomp _ _ _ _ hone
  subst he
  have hany : (l₁ ++ x :: l₂).any (fun vt => vt.name = row.vertical) = true := by
    rw [List.any_eq_true]
    exact ⟨x, by simp, hx⟩
  simp only [vertStep]
  rw [if_pos hany]
  rw [updateFirst_append_left _ _ _ _ hn, updateFirst_cons, if_pos hx]
  rw [List.filter_append, List.filter_eq_nil_iff.mpr (fun y hy => by
    simpa using hn y hy), List.filter_cons]
  rw [if_pos (by simpa using hx), hf]
  rfl

theorem vertsAtSV_eq_nil_of_none (s v : Str) (seqs : List SequentialNode)
    (h : ∀ sq ∈ seqs, ¬ sq.name = s) : vertsAtSV s v seqs = [] := by
  unfold vertsAtSV
  exact flatMap_eq_nil_of_forall _ _ (fun sq hsq => if_neg (h sq hsq))

theorem vertsAtSV_decomp (s v : Str) (l₁ l₂ : List SequentialNode)
    (x : SequentialNode) (h₁ : ∀ sq ∈ l₁, ¬ sq.name = s) (hx : x.name = s)
    (h₂ : ∀ sq ∈ l₂, ¬ sq.name = s) :
    vertsAtSV s v (l₁ ++ x :: l₂) = vertsAtV v x.verticals := by
  unfold vertsAtSV
  rw [List.flatMap_append, List.flatMap_cons]
  rw [flatMap_eq_nil_of_forall _ _ (fun sq hsq => if_neg (h₁ sq hsq))]
  rw [flatMap_eq_nil_of_forall _ _ (fun sq hsq => if_neg (h₂ sq hsq))]
  rw [if_pos hx, List.nil_append, List.append_nil]

theorem vertsAtSV_seqStep_miss (idMap : List (Str × Str)) (row : StructureRow)
    (s v : Str) (seqs : List SequentialNode) (hne : row.sequential ≠ s) :
    vertsAtSV s v (seqStep idMap row seqs) = vertsAtSV s v seqs := by
  simp only [seqStep]
  by_cases hany : seqs.any (fun sq => sq.name = row.sequential) = true
  · rw [if_pos hany]
    apply flatMap_updateFirst_closed
    intro x _ hp
    have hx : x.name = row.sequential := by simpa using hp
    constructor
    · exact if_neg (by rw [hx]; exact hne)
    · exact if_neg (by show x.name = s → False; rw [hx]; exact hne)
  · rw [if_neg hany]
    unfold vertsAtSV
    rw [flatMap_updateFirst_closed]
    · rw [List.flatMap_append]
      have h2 : ∀ nd : SequentialNode, nd.name = row.sequential →
          ([nd]).flatMap
            (fun sq => if sq.name = s then vertsAtV v sq.verticals else [])
          = [] := by
        intro nd hnd
        simp [hnd, hne]
      rw [h2 _ rfl, List.append_nil]
    · intro x _ hp
      have hx : x.name = row.sequential := by simpa using hp
      constructor
      · exact if_neg (by rw [hx]; exact hne)
      · exact if_neg (by show x.name = s → False; rw [hx]; exact hne)

theorem nodup_tail_keys {α : Type} (k : α → Str) (l₁ l₂ : List α) (x : α)
    (hnd : ((l₁ ++ x :: l₂).map k).Nodup) :
    ∀ y ∈ l₂, ¬ k y = k x := by
  rw [List.map_append, List.map_cons] at hnd
  have h2 := List.Nodup.of_append_right hnd
  rw [List.nodup_cons] at h2
  intro y hy hc
  exact h2.1 (hc ▸ List.mem_map_of_mem k hy)

theorem vertsAtSV_seqStep_vmiss (idMap : List (Str × Str))
    (row : StructureRow) (s v : Str) (seqs : List SequentialNode)
    (hs : row.sequential = s) (hnv : row.vertical ≠ v)
    (hnd : (seqs.map (·.name)).Nodup) :
    vertsAtSV s v (seqStep idMap row seqs) = vertsAtSV s v seqs := by
  subst hs
  simp only [seqStep]
  by_cases hany : seqs.any (fun sq => sq.name = row.sequential) = true
  · obtain ⟨l₁, x, l₂, he, hn, hx⟩ := exists_first_decomp _ _ hany
    subst he
    have hx2 : x.name = row.sequential := by simpa using hx
    have hn2 : ∀ y ∈ l₁, ¬ y.name = row.sequential := by
      intro y hy
      simpa using hn y hy
    have hl₂ : ∀ y ∈ l₂, ¬ y.name = row.sequential := by
      intro y hy
      have h3 : ¬ y.name = x.name := by
        simpa using nodup_tail_keys (fun z : SequentialNode => z.name) l₁ l₂ x hnd y hy
      rw [hx2] at h3
      exact h3
    rw [if_pos hany]
    rw [updateFirst_append_left _ _ _ _ (fun y hy => by simpa using hn2 y hy),
      updateFirst_cons, if_pos hx]
    rw [vertsAtSV_decomp _ _ _ _ _ hn2 hx2 hl₂]
    rw [vertsAtSV_decomp _ _ _ _ _ hn2 (by simpa using hx2) hl₂]
    exact vertsAtV_vertStep_miss idMap row v x.verticals hnv
  · rw [if_neg hany]
    have hall : ∀ y ∈ seqs, ¬ y.name = row.sequential := by
      intro y hy
      have hany2 : seqs.any (fun sq => sq.name = row.sequential) = false :=
        Bool.eq_false_iff.mpr hany
      simpa using List.any_eq_false.mp hany2 y hy
    rw [updateFirst_append_left _ _ _ _ (fun y hy => by simpa using hall y hy),
      updateFirst_cons, if_pos (by simp)]
    rw [vertsAtSV_decomp _ _ _ _ _ hall (by simp) (by simp)]
    rw [vertsAtSV_eq_nil_of_none _ _ _ hall]
    rw [vertsAtV_vertStep_miss idMap row v _ hnv]
    rfl

theorem vertsAtSV_seqStep_new (idMap : List (Str × Str))
    (row : StructureRow) (s v : Str) (seqs : List SequentialNode)
    (hs : row.sequential = s) (hv : row.vertical = v)
    (hnil : vertsAtSV s v seqs = []) (hnd : (seqs.map (·.name)).Nodup) :
    vertsAtSV s v (seqStep idMap row seqs)
    = [{ name := v,
         id := idLookup idMap ("vert:".data ++ (row.chapter ++ "|".data
           ++ s ++ "|".data ++ v)) v,
         blocks := [{ type := row.blockType, blockId := row.blockId }] }] := by
  subst hs
  simp only [seqStep]
  by_cases hany : seqs.any (fun sq => sq.name = row.sequential) = true
  · obtain ⟨l₁, x, l₂, he, hn, hx⟩ := exists_first_decomp _ _ hany
    subst he
    have hx2 : x.name = row.sequential := by simpa using hx
    have hn2 : ∀ y ∈ l₁, ¬ y.name = row.sequential := by
      intro y hy
      simpa using hn y hy
    have hl₂ : ∀ y ∈ l₂, ¬ y.name = row.sequential := by
      intro y hy
      have h3 : ¬ y.name = x.name := by
        simpa using nodup_tail_keys (fun z : SequentialNode => z.name) l₁ l₂ x
          hnd y hy
      rw [hx2] at h3
      exact h3
    have hxv : vertsAtV v x.verticals = [] := by
      rw [vertsAtSV_decomp _ _ _ _ _ hn2 hx2 hl₂] at hnil
      exact hnil
    rw [if_pos hany]
    rw [updateFirst_append_left _ _ _ _ (fun y hy => by simpa using hn2 y hy),
      updateFirst_cons, if_pos hx]
    rw [vertsAtSV_decomp _ _ _ _ _ hn2 (by simpa using hx2) hl₂]
    rw [vertsAtV_vertStep_new idMap row v x.verticals hv hxv]
  · rw [if_neg hany]
    have hall : ∀ y ∈ seqs, ¬ y.name = row.sequential := by
      intro y hy
      have hany2 : seqs.any (fun sq => sq.name = row.sequential) = false :=
        Bool.eq_false_iff.mpr hany
      simpa using List.any_eq_false.mp hany2 y hy
    rw [updateFirst_append_left _ _ _ _ (fun y hy => by simpa using hall y hy),
      updateFirst_cons, if_pos (by simp)]
    rw [vertsAtSV_decomp _ _ _ _ _ hall (by simp) (by simp)]
    rw [vertsAtV_vertStep_new idMap row v ([] : List VerticalNode) hv rfl]

theorem vertsAtSV_seqStep_old (idMap : List (Str × Str))
    (row : StructureRow) (s v : Str) (seqs : List SequentialNode)
    (x : VerticalNode)
    (hs : row.sequential = s) (hv : row.vertical = v)
    (hone : vertsAtSV s v seqs = [x]) (hnd : (seqs.map (·.name)).Nodup) :
    vertsAtSV s v (seqStep idMap row seqs)
    = [{ x with blocks :=
        x.blocks ++ [{ type := row.blockType, blockId := row.blockId }] }] := by
  subst hs
  simp only [seqStep]
  by_cases hany : seqs.any (fun sq => sq.name = row.sequential) = true
  · obtain ⟨l₁, z, l₂, he, hn, hz⟩ := exists_first_decomp _ _ hany
    subst he
    have hz2 : z.name = row.sequential := by simpa using hz
    have hn2 : ∀ y ∈ l₁, ¬ y.name = row.sequential := by
      intro y hy
      simpa using hn y hy
    have hl₂ : ∀ y ∈ l₂, ¬ y.name = row.sequential := by
      intro y hy
      have h3 : ¬ y.name = z.name := by
        simpa using nodup_tail_keys (fun w : SequentialNode => w.name) l₁ l₂ z
          hnd y hy
      rw [hz2] at h3
      exact h3
    have hxv : vertsAtV v z.verticals = [x] := by
      rw [vertsAtSV_decomp _ _ _ _ _ hn2 hz2 hl₂] at hone
      exact hone
    rw [if_pos hany]
    rw [updateFirst_append_left _ _ _ _ (fun y hy => by simpa using hn2 y hy),
      updateFirst_cons, if_pos hz]
    rw [vertsAtSV_decomp _ _ _ _ _ hn2 (by simpa using hz2) hl₂]
    exact vertsAtV_vertStep_old idMap row v z.verticals x hv hxv
  · exfalso
    have hall : ∀ y ∈ seqs, ¬ y.name = row.sequential := by
      intro y hy
      have hany2 : seqs.any (fun sq => sq.name = row.sequential) = false :=
        Bool.eq_false_iff.mpr hany
      simpa using List.any_eq_false.mp hany2 y hy
    rw [vertsAtSV_eq_nil_of_none _ _ _ hall] at hone
    exact List.cons_ne_nil x [] hone.symm

theorem vertNodesAt_eq_nil_of_none (c s v : Str) (chs : List ChapterNode)
    (h : ∀ ch ∈ chs, ¬ ch.name = c) : vertNodesAt c s v chs = [] := by
  unfold vertNodesAt
  exact flatMap_eq_nil_of_forall _ _ (fun ch hch => if_neg (h ch hch))

theorem vertNodesAt_decomp (c s v : Str) (l₁ l₂ : List ChapterNode)
    (x : ChapterNode) (h₁ : ∀ ch ∈ l₁, ¬ ch.name = c) (hx : x.name = c)
    (h₂ : ∀ ch ∈ l₂, ¬ ch.name = c) :
    vertNodesAt c s v (l₁ ++ x :: l₂) = vertsAtSV s v x.sequentials := by
  unfold vertNodesAt
  rw [List.flatMap_append, List.flatMap_cons]
  rw [flatMap_eq_nil_of_forall _ _ (fun ch hch => if_neg (h₁ ch hch))]
  rw [flatMap_eq_nil_of_forall _ _ (fun ch hch => if_neg (h₂ ch hch))]
  rw [if_pos hx, List.nil_append, List.append_nil]

theorem vertNodesAt_buildStep_cmiss (idMap : List (Str × Str))
    (row : StructureRow) (c s v : Str) (chs : List ChapterNode)
    (hne : row.chapter ≠ c) :
    vertNodesAt c s v (buildStep idMap chs row) = vertNodesAt c s v chs := by
  simp only [buildStep]
  by_cases hany : chs.any (fun ch => ch.name = row.chapter) = true
  · rw [if_pos hany]
    apply flatMap_updateFirst_closed
    intro x _ hp
    have hx : x.name = row.chapter := by simpa using hp
    constructor
    · exact if_neg (by rw [hx]; exact hne)
    · exact if_neg (by show x.name = c → False; rw [hx]; exact hne)
  · rw [if_neg hany]
    unfold vertNodesAt
    rw [flatMap_updateFirst_closed]
    · rw [List.flatMap_append]
      have h2 : ∀ nd : ChapterNode, nd.name = row.chapter →
          ([nd]).flatMap
            (fun ch => if ch.name = c then vertsAtSV s v ch.sequentials else [])
          = [] := by
        intro nd hnd
        simp [hnd, hne]
      rw [h2 _ rfl, List.append_nil]
    · intro x _ hp
      have hx : x.name = row.chapter := by simpa using hp
      constructor
      · exact if_neg (by rw [hx]; exact hne)
      · exact if_neg (by show x.name = c → False; rw [hx]; exact hne)

theorem vertNodesAt_buildStep_imiss (idMap : List (Str × Str))
    (row : StructureRow) (c s v : Str) (chs : List ChapterNode)
    (hc : row.chapter = c) (hmiss : row.sequential ≠ s ∨ row.vertical ≠ v)
    (hinv : HierInv chs) :
    vertNodesAt c s v (buildStep idMap chs row) = vertNodesAt c s v chs := by
  subst hc
  have hseqs : ∀ seqs : List SequentialNode, (seqs.map (·.name)).Nodup →
      vertsAtSV s v (seqStep idMap row seqs) = vertsAtSV s v seqs := by
    intro seqs hnd
    rcases hmiss with h | h
    · exact vertsAtSV_seqStep_miss idMap row s v seqs h
    · by_cases hss : row.sequential = s
      · exact vertsAtSV_seqStep_vmiss idMap row s v seqs hss h hnd
      · exact vertsAtSV_seqStep_miss idMap row s v seqs hss
  simp only [buildStep]
  by_cases hany : chs.any (fun ch => ch.name = row.chapter) = true
  · obtain ⟨l₁, x, l₂, he, hn, hx⟩ := exists_first_decomp _ _ hany
    subst he
    have hx2 : x.name = row.chapter := by simpa using hx
    have hn2 : ∀ y ∈ l₁, ¬ y.name = row.chapter := by
      intro y hy
      simpa using hn y hy
    have hl₂ : ∀ y ∈ l₂, ¬ y.name = row.chapter := by
      intro y hy
      have h3 : ¬ y.name = x.name := by
        simpa using nodup_tail_keys (fun z : ChapterNode => z.name) l₁ l₂ x
          hinv.1 y hy
      rw [hx2] at h3
      exact h3
    rw [if_pos hany]
    rw [updateFirst_append_left _ _ _ _ (fun y hy => by simpa using hn2 y hy),
      updateFirst_cons, if_pos hx]
    rw [vertNodesAt_decomp _ _ _ _ _ _ hn2 (by simpa using hx2) hl₂]
    rw [vertNodesAt_decomp _ _ _ _ _ _ hn2 hx2 hl₂]
    exact hseqs x.sequentials
      (hinv.2 x (by exact List.mem_append_right l₁ (List.mem_cons_self x l₂))).1
  · rw [if_neg hany]
    have hall : ∀ y ∈ chs, ¬ y.name = row.chapter := by
      intro y hy
      have hany2 : chs.any (fun ch => ch.name = row.chapter) = false :=
        Bool.eq_false_iff.mpr hany
      simpa using List.any_eq_false.mp hany2 y hy
    rw [updateFirst_append_left _ _ _ _ (fun y hy => by simpa using hall y hy),
      updateFirst_cons, if_pos (by simp)]
    rw [vertNodesAt_decomp _ _ _ _ _ _ hall (by simp) (by simp)]
    rw [vertNodesAt_eq_nil_of_none _ _ _ _ hall]
    rw [hseqs [] (by simp)]
    rfl

theorem vertNodesAt_buildStep_new (idMap : List (Str × Str))
    (row : StructureRow) (c s v : Str) (chs : List ChapterNode)
    (hc : row.chapter = c) (hs : row.sequential = s) (hv : row.vertical = v)
    (hnil : vertNodesAt c s v chs = []) (hinv : HierInv chs) :
    vertNodesAt c s v (buildStep idMap chs row)
    = [{ name := v,
         id := idLookup idMap ("vert:".data ++ (c ++ "|".data
           ++ s ++ "|".data ++ v)) v,
         blocks := [{ type := row.blockType, blockId := row.blockId }] }] := by
  subst hc
  simp only [buildStep]
  by_cases hany : chs.any (fun ch => ch.name = row.chapter) = true
  · obtain ⟨l₁, x, l₂, he, hn, hx⟩ := exists_first_decomp _ _ hany
    subst he
    have hx2 : x.name = row.chapter := by simpa using hx
    have hn2 : ∀ y ∈ l₁, ¬ y.name = row.chapter := by
      intro y hy
      simpa using hn y hy
    have hl₂ : ∀ y ∈ l₂, ¬ y.name = row.chapter := by
      intro y hy
      have h3 : ¬ y.name = x.name := by
        simpa using nodup_tail_keys (fun z : ChapterNode => z.name) l₁ l₂ x
          hinv.1 y hy
      rw [hx2] at h3
      exact h3
    have hxs : vertsAtSV s v x.sequentials = [] := by
      rw [vertNodesAt_decomp _ _ _ _ _ _ hn2 hx2 hl₂] at hnil
      exact hnil
    rw [if_pos hany]
    rw [updateFirst_append_left _ _ _ _ (fun y hy => by simpa using hn2 y hy),
      updateFirst_cons, if_pos hx]
    rw [vertNodesAt_decomp _ _ _ _ _ _ hn2 (by simpa using hx2) hl₂]
    exact vertsAtSV_seqStep_new idMap row s v x.sequentials hs hv hxs
      (hinv.2 x (List.mem_append_right l₁ (List.mem_cons_self x l₂))).1
  · rw [if_neg hany]
    have hall : ∀ y ∈ chs, ¬ y.name = row.chapter := by
      intro y hy
      have hany2 : chs.any (fun ch => ch.name = row.chapter) = false :=
        Bool.eq_false_iff.mpr hany
      simpa using List.any_eq_false.mp hany2 y hy
    rw [updateFirst_append_left _ _ _ _ (fun y hy => by simpa using hall y hy),
      updateFirst_cons, if_pos (by simp)]
    rw [vertNodesAt_decomp _ _ _ _ _ _ hall (by simp) (by simp)]
    exact vertsAtSV_seqStep_new idMap row s v [] hs hv rfl (by simp)

theorem vertNodesAt_buildStep_old (idMap : List (Str × Str))
    (row : StructureRow) (c s v : Str) (chs : List ChapterNode)
    (x : VerticalNode)
    (hc : row.chapter = c) (hs : row.sequential = s) (hv : row.vertical = v)
    (hone : vertNodesAt c s v chs = [x]) (hinv : HierInv chs) :
    vertNodesAt c s v (buildStep idMap chs row)
    = [{ x with blocks :=
        x.blocks ++ [{ type := row.blockType, blockId := row.blockId }] }] := by
  subst hc
  simp only [buildStep]
  by_cases hany : chs.any (fun ch => ch.name = row.chapter) = true
  · obtain ⟨l₁, z, l₂, he, hn, hz⟩ := exists_first_decomp _ _ hany
    subst he
    have hz2 : z.name = row.chapter := by simpa using hz
    have hn2 : ∀ y ∈ l₁, ¬ y.name = row.chapter := by
      intro y hy
      simpa using hn y hy
    have hl₂ : ∀ y ∈ l₂, ¬ y.name = row.chapter := by
      intro y hy
      have h3 : ¬ y.name = z.name := by
        simpa using nodup_tail_keys (fun w : ChapterNode => w.name) l₁ l₂ z
          hinv.1 y hy
      rw [hz2] at h3
      exact h3
    have hxs : vertsAtSV s v z.sequentials = [x] := by
      rw [vertNodesAt_decomp _ _ _ _ _ _ hn2 hz2 hl₂] at hone
      exact hone
    rw [if_pos hany]
    rw [updateFirst_append_left _ _ _ _ (fun y hy => by simpa using hn2 y hy),
      updateFirst_cons, if_pos hz]
    rw [vertNodesAt_decomp _ _ _ _ _ _ hn2 (by simpa using hz2) hl₂]
    exact vertsAtSV_seqStep_old idMap row s v z.sequentials x hs hv hxs
      (hinv.2 z (List.mem_append_right l₁ (List.mem_cons_self z l₂))).1
  · exfalso
    have hall : ∀ y ∈ chs, ¬ y.name = row.chapter := by
      intro y hy
      have hany2 : chs.any (fun ch => ch.name = row.chapter) = false :=
        Bool.eq_false_iff.mpr hany
      simpa using List.any_eq_false.mp hany2 y hy
    rw [vertNodesAt_eq_nil_of_none _ _ _ _ hall] at hone
    exact List.cons_ne_nil x [] hone.symm

theorem vertStep_names (idMap : List (Str × Str)) (row : StructureRow)
    (verts : List VerticalNode) (hnd : (verts.map (·.name)).Nodup) :
    ((vertStep idMap row verts).map (·.name)).Nodup := by
  simp only [vertStep]
  by_cases hany : verts.any (fun vt => vt.name = row.vertical) = true
  · rw [if_pos hany]
    rw [map_updateFirst (fun z : VerticalNode => z.name) _
      (fun vt => { vt with blocks :=
        vt.blocks ++ [{ type := row.blockType, blockId := row.blockId }] }) _
      (fun x => rfl)]
    exact hnd
  · rw [if_neg hany]
    rw [map_updateFirst (fun z : VerticalNode => z.name) _
      (fun vt => { vt with blocks :=
        vt.blocks ++ [{ type := row.blockType, blockId := row.blockId }] }) _
      (fun x => rfl)]
    rw [List.map_append]
    rw [List.nodup_append]
    refine ⟨hnd, by simp, ?_⟩
    intro a ha hb
    have hav : a = row.vertical := by simpa using hb
    have hany2 : verts.any (fun vt => vt.name = row.vertical) = false :=
      Bool.eq_false_iff.mpr hany
    obtain ⟨x, hx, hxa⟩ := List.mem_map.mp ha
    have := List.any_eq_false.mp hany2 x hx
    simp only [decide_eq_true_eq] at this
    exact this (hxa.symm ▸ hav ▸ rfl)

theorem seqStep_inv (idMap : List (Str × Str)) (row : StructureRow)
    (seqs : List SequentialNode)
    (hnd : (seqs.map (·.name)).Nodup)
    (hin : ∀ sq ∈ seqs, (sq.verticals.map (·.name)).Nodup) :
    ((seqStep idMap row seqs).map (·.name)).Nodup
    ∧ ∀ sq ∈ seqStep idMap row seqs, (sq.verticals.map (·.name)).Nodup := by
  constructor
  · simp only [seqStep]
    by_cases hany : seqs.any (fun sq => sq.name = row.sequential) = true
    · rw [if_pos hany]
      rw [map_updateFirst (fun z : SequentialNode => z.name) _
        (fun sq : SequentialNode =>
          { sq with verticals := vertStep idMap row sq.verticals }) _
        (fun x => rfl)]
      exact hnd
    · rw [if_neg hany]
      rw [map_updateFirst (fun z : SequentialNode => z.name) _
        (fun sq : SequentialNode =>
          { sq with verticals := vertStep idMap row sq.verticals }) _
        (fun x => rfl)]
      rw [List.map_append]
      rw [List.nodup_append]
      refine ⟨hnd, by simp, ?_⟩
      intro a ha hb
      have hav : a = row.sequential := by simpa using hb
      have hany2 : seqs.any (fun sq => sq.name = row.sequential) = false :=
        Bool.eq_false_iff.mpr hany
      obtain ⟨x, hx, hxa⟩ := List.mem_map.mp ha
      have := List.any_eq_false.mp hany2 x hx
      simp only [decide_eq_true_eq] at this
      exact this (hxa.symm ▸ hav ▸ rfl)
  · intro sq hsq
    simp only [seqStep] at hsq
    rcases mem_updateFirst _ _ _ _ hsq with hm | ⟨x, hx, he⟩
    · by_cases hany : seqs.any (fun sq => sq.name = row.sequential) = true
      · rw [if_pos hany] at hm
        exact hin sq hm
      · rw [if_neg hany] at hm
        rcases List.mem_append.mp hm with h | h
        · exact hin sq h
        · have : sq.verticals = [] := by
            rcases List.mem_singleton.mp h with he2
            rw [he2]
          rw [this]
          simp
    · subst he
      have hx2 : (x.verticals.map (·.name)).Nodup := by
        by_cases hany : seqs.any (fun sq => sq.name = row.sequential) = true
        · rw [if_pos hany] at hx
          exact hin x hx
        · rw [if_neg hany] at hx
          rcases List.mem_append.mp hx with h | h
          · exact hin x h
          · rcases List.mem_singleton.mp h with he2
            rw [he2]
            simp
      exact vertStep_names idMap row x.verticals hx2

theorem buildStep_inv (idMap : List (Str × Str)) (chs : List ChapterNode)
    (row : StructureRow) (hinv : HierInv chs) :
    HierInv (buildStep idMap chs row) := by
  obtain ⟨hnd, hin⟩ := hinv
  constructor
  · simp only [buildStep]
    by_cases hany : chs.any (fun ch => ch.name = row.chapter) = true
    · rw [if_pos hany]
      rw [map_updateFirst (fun z : ChapterNode => z.name) _
        (fun ch : ChapterNode =>
          { ch with sequentials := seqStep idMap row ch.sequentials }) _
        (fun x => rfl)]
      exact hnd
    · rw [if_neg hany]
      rw [map_updateFirst (fun z : ChapterNode => z.name) _
        (fun ch : ChapterNode =>
          { ch with sequentials := seqStep idMap row ch.sequentials }) _
        (fun x => rfl)]
      rw [List.map_append]
      rw [List.nodup_append]
      refine ⟨hnd, by simp, ?_⟩
      intro a ha hb
      have hav : a = row.chapter := by simpa using hb
      have hany2 : chs.any (fun ch => ch.name = row.chapter) = false :=
        Bool.eq_false_iff.mpr hany
      obtain ⟨x, hx, hxa⟩ := List.mem_map.mp ha
      have := List.any_eq_false.mp hany2 x hx
      simp only [decide_eq_true_eq] at this
      exact this (hxa.symm ▸ hav ▸ rfl)
  · intro ch hch
    simp only [buildStep] at hch
    rcases mem_updateFirst _ _ _ _ hch with hm | ⟨x, hx, he⟩
    · by_cases hany : chs.any (fun ch => ch.name = row.chapter) = true
      · rw [if_pos hany] at hm
        exact hin ch hm
      · rw [if_neg hany] at hm
        rcases List.mem_append.mp hm with h | h
        · exact hin ch h
        · rcases List.mem_singleton.mp h with he2
          rw [he2]
          exact ⟨by simp, by simp⟩
    · subst he
      have hx2 : (x.sequentials.map (·.name)).Nodup
          ∧ ∀ sq ∈ x.sequentials, (sq.verticals.map (·.name)).Nodup := by
        by_cases hany : chs.any (fun ch => ch.name = row.chapter) = true
        · rw [if_pos hany] at hx
          exact hin x hx
        · rw [if_neg hany] at hx
          rcases List.mem_append.mp hx with h | h
          · exact hin x h
          · rcases List.mem_singleton.mp h with he2
            rw [he2]
            exact ⟨by simp, by simp⟩
      exact seqStep_inv idMap row x.sequentials hx2.1 hx2.2

/-- The block reference a structure row contributes to its vertical. -/
def rowBlockRef (r : StructureRow) : BlockRef :=
  { type := r.blockType, blockId := r.blockId }

/-- The rows sharing a given (chapter, sequential, vertical) name tuple,
in input order. -/
def rowsMatching (c s v : Str) (rows : List StructureRow) :
    List StructureRow :=
  rows.filter (fun r => r.chapter = c ∧ r.sequential = s ∧ r.vertical = v)

/-- The id the builder assigns to the vertical at tuple (c, s, v). -/
def vertIdFor (idMap : List (Str × Str)) (c s v : Str) : Str :=
  idLookup idMap ("vert:".data ++ (c ++ "|".data ++ s ++ "|".data ++ v)) v

theorem buildHierarchy_fold (idMap : List (Str × Str)) (c s v : Str) :
    ∀ (rows : List StructureRow) (chs : List ChapterNode), HierInv chs →
      HierInv (rows.foldl (buildStep idMap) chs)
      ∧ (vertNodesAt c s v chs = [] →
          (rowsMatching c s v rows = [] →
            vertNodesAt c s v (rows.foldl (buildStep idMap) chs) = [])
          ∧ (rowsMatching c s v rows ≠ [] →
            vertNodesAt c s v (rows.foldl (buildStep idMap) chs)
            = [{ name := v, id := vertIdFor idMap c s v,
                 blocks := (rowsMatching c s v rows).map rowBlockRef }]))
      ∧ (∀ x, vertNodesAt c s v chs = [x] →
          vertNodesAt c s v (rows.foldl (buildStep idMap) chs)
          = [{ x with blocks :=
              x.blocks ++ (rowsMatching c s v rows).map rowBlockRef }]) := by
  intro rows
  induction rows with
  | nil =>
    intro chs hinv
    refine ⟨hinv, fun hnil => ⟨fun _ => hnil, fun hne => absurd rfl hne⟩,
      fun x hx => ?_⟩
    rw [show rowsMatching c s v [] = [] from rfl, List.map_nil,
      List.append_nil]
    exact hx
  | cons row rest ih =>
    intro chs hinv
    have hinv1 := buildStep_inv idMap chs row hinv
    have ihr := ih (buildStep idMap chs row) hinv1
    by_cases hm : row.chapter = c ∧ row.sequential = s ∧ row.vertical = v
    · obtain ⟨hc, hs, hv⟩ := hm
      have hfilt : rowsMatching c s v (row :: rest)
          = row :: rowsMatching c s v rest := by
        unfold rowsMatching
        rw [List.filter_cons, if_pos (by simp [hc, hs, hv])]
      refine ⟨ihr.1, fun hnil => ?_, fun x hx => ?_⟩
      · have hstep := vertNodesAt_buildStep_new idMap row c s v chs hc hs hv
          hnil hinv
        constructor
        · intro habs
          rw [hfilt] at habs
          exact absurd habs (List.cons_ne_nil _ _)
        · intro _
          have h3 := ihr.2.2 _ hstep
          rw [List.foldl_cons]
          rw [h3, hfilt, List.map_cons]
          rfl
      · have hstep := vertNodesAt_buildStep_old idMap row c s v chs x hc hs hv
          hx hinv
        have h3 := ihr.2.2 _ hstep
        rw [List.foldl_cons]
        rw [h3, hfilt, List.map_cons]
        show [({ name := x.name, id := x.id, blocks :=
            (x.blocks ++ [rowBlockRef row])
            ++ (rowsMatching c s v rest).map rowBlockRef } : VerticalNode)]
          = [({ name := x.name, id := x.id, blocks :=
            x.blocks ++ rowBlockRef row ::
              (rowsMatching c s v rest).map rowBlockRef } : VerticalNode)]
        rw [List.append_assoc]
        rfl
    · have hsame : vertNodesAt c s v (buildStep idMap chs row)
          = vertNodesAt c s v chs := by
        by_cases hcc : row.chapter = c
        · refine vertNodesAt_buildStep_imiss idMap row c s v chs hcc ?_ hinv
          by_cases hss : row.sequential = s
          · refine Or.inr (fun hvv => hm ⟨hcc, hss, hvv⟩)
          · exact Or.inl hss
        · exact vertNodesAt_buildStep_cmiss idMap row c s v chs hcc
      have hfilt : rowsMatching c s v (row :: rest)
          = rowsMatching c s v rest := by
        unfold rowsMatching
        rw [List.filter_cons, if_neg (by simpa using hm)]
      refine ⟨ihr.1, fun hnil => ?_, fun x hx => ?_⟩
      · have h2 := ihr.2.1 (by rw [hsame]; exact hnil)
        rw [List.foldl_cons, hfilt]
        exact h2
      · have h3 := ihr.2.2 x (by rw [hsame]; exact hx)
        rw [List.foldl_cons, hfilt]
        exact h3

/-- C8: for every row sequence and id lookup, all rows sharing a
(chapter, sequential, vertical) name tuple map to exactly one vertical
node at that name path in the built tree — created on first occurrence,
with the deterministic id lookup — and that node's blocks are exactly
those rows' (type, blockId) references in input order. -/
theorem c8_hierarchy_unique_vertical (rows : List StructureRow)
    (idMap : List (Str × Str)) (c s v : Str)
    (hex : rowsMatching c s v rows ≠ []) :
    vertNodesAt c s v (buildHierarchy rows idMap)
    = [{ name := v, id := vertIdFor idMap c s v,
         blocks := (rowsMatching c s v rows).map rowBlockRef }] := by
  have h := buildHierarchy_fold idMap c s v rows [] ⟨by simp, by simp⟩
  exact (h.2.1 rfl).2 hex

theorem c8_hierarchy_unique_vertical_witness :
    vertNodesAt "C1".data "S1".data "V1".data
      (buildHierarchy
        [{ chapter := "C1".data, sequential := "S1".data,
           vertical := "V1".data, blockType := "text".data,
           blockId := "t1".data },
         { chapter := "C2".data, sequential := "S1".data,
           vertical := "V1".data, blockType := "text".data,
           blockId := "t2".data },
         { chapter := "C1".data, sequential := "S1".data,
           vertical := "V1".data, blockType := "video".data,
           blockId := "v1".data }]
        [("ch:C1".data, "chap-one".data)])
    = [{ name := "V1".data,
         id := vertIdFor [("ch:C1".data, "chap-one".data)]
           "C1".data "S1".data "V1".data,
         blocks := (rowsMatching "C1".data "S1".data "V1".data
            [{ chapter := "C1".data, sequential := "S1".data,
               vertical := "V1".data, blockType := "text".data,
               blockId := "t1".data },
             { chapter := "C2".data, sequential := "S1".data,
               vertical := "V1".data, blockType := "text".data,
               blockId := "t2".data },
             { chapter := "C1".data, sequential := "S1".data,
               vertical := "V1".data, blockType := "video".data,
               blockId := "v1".data }]).map rowBlockRef }] :=
  c8_hierarchy_unique_vertical
    [{ chapter := "C1".data, sequential := "S1".data,
       vertical := "V1".data, blockType := "text".data,
       blockId := "t1".data },
     { chapter := "C2".data, sequential := "S1".data,
       vertical := "V1".data, blockType := "text".data,
       blockId := "t2".data },
     { chapter := "C1".data, sequential := "S1".data,
       vertical := "V1".data, blockType := "video".data,
       blockId := "v1".data }]
    [("ch:C1".data, "chap-one".data)]
    "C1".data "S1".data "V1".data (by decide)

/-! ### Course-level generator (src/src/generators/course.js) and the
date formatter `formatEdxDate` (utils).  JS `Date` parsing and
`toISOString` are platform facilities, taken as parameters: `parseDate`
returns the parsed time value or `none` when `isNaN(d.getTime())`, and
`isoZ` is `t => new Date(t).toISOString().replace('.000Z', 'Z')`. -/

/-- `formatEdxDate(dateStr)`: empty or unparseable input gives the empty
string, otherwise the ISO rendering of the parsed time. -/
def formatEdxDate (parseDate : Str → Option Int) (isoZ : Int → Str)
    (dateStr : Str) : Str :=
  if dateStr = [] then []
  else match parseDate dateStr with
    | none => []
    | some t => isoZ t

/-- A lowercase hex digit. -/
def hexDigit (n : Nat) : Char :=
  if n < 10 then Char.ofNat (48 + n) else Char.ofNat (87 + n)

/-- One character of `JSON.stringify` string escaping. -/
def jsonEscChar (c : Char) : Str :=
  if c = '"' then "\\\"".data
  else if c = '\\' then "\\\\".data
  else if c = Char.ofNat 8 then "\\b".data
  else if c = Char.ofNat 9 then "\\t".data
  else if c = Char.ofNat 10 then "\\n".data
  else if c = Char.ofNat 12 then "\\f".data
  else if c = Char.ofNat 13 then "\\r".data
  else if c.toNat < 32 then
    "\\u00".data ++ [hexDigit (c.toNat / 16), hexDigit (c.toNat % 16)]
  else [c]

/-- `JSON.stringify` escaping of a string body. -/
def jsonEscape (s : Str) : Str := s.flatMap jsonEscChar

/-- The constant `tabs` array as laid out by `JSON.stringify(_, null, 4)`
at nesting depth 2. -/
def tabsJson : Str :=
  ("\"tabs\": [\n            \x7b\n                \"course_staff_only\": false,\n                \"name\": \"Course\",\n                \"type\": \"courseware\"\n            \x7d,\n            \x7b\n                \"course_staff_only\": false,\n                \"name\": \"Progress\",\n                \"type\": \"progress\"\n            \x7d,\n            \x7b\n                \"course_staff_only\": false,\n                \"name\": \"Dates\",\n                \"type\": \"dates\"\n            \x7d,\n            \x7b\n                \"course_staff_only\": false,\n                \"name\": \"Discussion\",\n                \"type\": \"discussion\"\n            \x7d\n        ]").data

/-- `JSON.stringify(policy, null, 4)` for the policy object: keys in
insertion order, `start`/`end` present exactly when the raw date strings
are non-empty (the JS `...(info.startDate && \x7b...\x7d)` spread). -/
def policyJson (parseDate : Str → Option Int) (isoZ : Int → Str)
    (run : Str) (info : CourseInfo) : Str :=
  "\x7b\n    \"course/".data ++ jsonEscape run
  ++ "\": \x7b\n        \"display_name\": \"".data
  ++ jsonEscape info.courseName
  ++ "\",\n        \"language\": \"".data ++ jsonEscape info.language
  ++ "\",\n        \"self_paced\": ".data
  ++ (if info.selfPaced then "true".data else "false".data) ++ ",\n".data
  ++ (if info.startDate ≠ [] then
      "        \"start\": \"".data
      ++ jsonEscape (formatEdxDate parseDate isoZ info.startDate)
      ++ "\",\n".data
    else [])
  ++ (if info.endDate ≠ [] then
      "        \"end\": \"".data
      ++ jsonEscape (formatEdxDate parseDate isoZ info.endDate)
      ++ "\",\n".data
    else [])
  ++ "        ".data ++ tabsJson ++ "\n    \x7d\n\x7d".data

/-- `JSON.stringify(gradingPolicy, null, 4)`: a constant. -/
def gradingPolicyJson : Str :=
  ("\x7b\n    \"GRADER\": [\n        \x7b\n            \"drop_count\": 0,\n            \"min_count\": 1,\n            \"short_label\": \"HW\",\n            \"type\": \"Homework\",\n            \"weight\": 0.5\n        \x7d,\n        \x7b\n            \"drop_count\": 0,\n            \"min_count\": 1,\n            \"short_label\": \"Final\",\n            \"type\": \"Final Exam\",\n            \"weight\": 0.5\n        \x7d\n    ],\n    \"GRADE_CUTOFFS\": \x7b\n        \"Pass\": 0.5\n    \x7d\n\x7d").data

/-- `generateCourse(info, chapters)` from src/src/generators/course.js. -/
def generateCourse (parseDate : Str → Option Int) (isoZ : Int → Str)
    (info : CourseInfo) (chapters : List ChapterNode) : List (Str × Str) :=
  let run := jsOrStr info.run "course_run".data
  let files1 := mapSet ([] : List (Str × Str)) "course.xml".data
    ("<course url_name=\"".data ++ escapeXml (some run) ++ "\" org=\"".data
      ++ escapeXml (some info.org) ++ "\" course=\"".data
      ++ escapeXml (some info.courseId) ++ "\"/>\n".data)
  let selfPaced := if info.selfPaced then " self_paced=\"true\"".data else []
  let startAttr := if info.startDate ≠ [] then
      " start=\"".data
      ++ escapeXml (some (formatEdxDate parseDate isoZ info.startDate))
      ++ "\"".data
    else []
  let endAttr := if info.endDate ≠ [] then
      " end=\"".data
      ++ escapeXml (some (formatEdxDate parseDate isoZ info.endDate))
      ++ "\"".data
    else []
  let courseXml := "<course display_name=\"".data
    ++ escapeXml (some info.courseName)
    ++ "\" language=\"".data ++ escapeXml (some info.language) ++ "\"".data
    ++ selfPaced ++ startAttr ++ endAttr ++ ">\n".data
    ++ chapters.flatMap (fun ch => "  <chapter url_name=\"".data
        ++ escapeXml (some ch.id) ++ "\"/>\n".data)
    ++ "</course>\n".data
  let files2 := mapSet files1 ("course/".data ++ run ++ ".xml".data) courseXml
  let files3 := mapSet files2 ("policies/".data ++ run ++ "/policy.json".data)
    (policyJson parseDate isoZ run info ++ "\n".data)
  let files4 := mapSet files3
    ("policies/".data ++ run ++ "/grading_policy.json".data)
    (gradingPolicyJson ++ "\n".data)
  files4

theorem mapSet_nil {α : Type} (k : Str) (v : α) :
    mapSet [] k v = [(k, v)] := rfl

theorem mapSet_append_fresh {α : Type} (m : List (Str × α)) (k : Str)
    (v : α) (h : ∀ p ∈ m, ¬ p.1 = k) : mapSet m k v = m ++ [(k, v)] := by
  unfold mapSet
  rw [if_neg]
  intro hc
  obtain ⟨p, hp, hpk⟩ := List.any_eq_true.mp hc
  exact h p hp (by simpa using hpk)

theorem mapGet_cons_of_ne {α : Type} (k' k : Str) (v' : α)
    (m : List (Str × α)) (h : ¬ k' = k) :
    mapGet ((k', v') :: m) k = mapGet m k := by
  unfold mapGet
  rw [List.find?_cons_of_neg _ (by simpa using h)]

theorem mapGet_cons_self {α : Type} (k : Str) (v : α)
    (m : List (Str × α)) : mapGet ((k, v) :: m) k = some v := by
  unfold mapGet
  rw [List.find?_cons_of_pos _ (by simp)]
  rfl

theorem ne_of_mid_char (p : Str) (c d : Char) (x y : Str) (h : c ≠ d) :
    p ++ c :: x ≠ p ++ d :: y := by
  intro he
  have h2 := List.append_cancel_left he
  exact h (List.cons.inj h2).1

theorem mapSet_four {α : Type} (k1 k2 k3 k4 : Str) (v1 v2 v3 v4 : α)
    (h12 : k1 ≠ k2) (h13 : k1 ≠ k3) (h14 : k1 ≠ k4)
    (h23 : k2 ≠ k3) (h24 : k2 ≠ k4) (h34 : k3 ≠ k4) :
    mapSet (mapSet (mapSet (mapSet [] k1 v1) k2 v2) k3 v3) k4 v4
    = [(k1, v1), (k2, v2), (k3, v3), (k4, v4)] := by
  rw [mapSet_nil]
  rw [mapSet_append_fresh [(k1, v1)] k2 v2 (fun p hp => by
    rcases List.mem_singleton.mp hp with he
    rw [he]
    exact h12)]
  rw [List.singleton_append]
  rw [mapSet_append_fresh [(k1, v1), (k2, v2)] k3 v3 (fun p hp => by
    rcases List.mem_cons.mp hp with he | h2
    · rw [he]
      exact h13
    · rcases List.mem_singleton.mp h2 with he
      rw [he]
      exact h23)]
  rw [show ([(k1, v1), (k2, v2)] : List (Str × α)) ++ [(k3, v3)]
    = [(k1, v1), (k2, v2), (k3, v3)] from rfl]
  rw [mapSet_append_fresh [(k1, v1), (k2, v2), (k3, v3)] k4 v4
    (fun p hp => by
      rcases List.mem_cons.mp hp with he | h2
      · rw [he]
        exact h14
      · rcases List.mem_cons.mp h2 with he | h3
        · rw [he]
          exact h24
        · rcases List.mem_singleton.mp h3 with he
          rw [he]
          exact h34)]
  rfl

/-- The four file keys written by `generateCourse`, pairwise distinct
for every run string. -/
theorem generateCourse_keys_distinct (r : Str) :
    ("course.xml".data ≠ "course/".data ++ r ++ ".xml".data
      ∧ "course.xml".data ≠ "policies/".data ++ r ++ "/policy.json".data
      ∧ "course.xml".data
        ≠ "policies/".data ++ r ++ "/grading_policy.json".data)
    ∧ ("course/".data ++ r ++ ".xml".data
        ≠ "policies/".data ++ r ++ "/policy.json".data
      ∧ "course/".data ++ r ++ ".xml".data
        ≠ "policies/".data ++ r ++ "/grading_policy.json".data)
    ∧ "policies/".data ++ r ++ "/policy.json".data
      ≠ "policies/".data ++ r ++ "/grading_policy.json".data := by
  refine ⟨⟨?_, ?_, ?_⟩, ⟨?_, ?_⟩, ?_⟩
  · exact ne_of_mid_char "course".data '.' '/' "xml".data
      (r ++ ".xml".data) (by decide)
  · exact ne_of_mid_char [] 'c' 'p' "ourse.xml".data
      ("olicies/".data ++ r ++ "/policy.json".data) (by decide)
  · exact ne_of_mid_char [] 'c' 'p' "ourse.xml".data
      ("olicies/".data ++ r ++ "/grading_policy.json".data) (by decide)
  · exact ne_of_mid_char [] 'c' 'p' ("ourse/".data ++ r ++ ".xml".data)
      ("olicies/".data ++ r ++ "/policy.json".data) (by decide)
  · exact ne_of_mid_char [] 'c' 'p' ("ourse/".data ++ r ++ ".xml".data)
      ("olicies/".data ++ r ++ "/grading_policy.json".data) (by decide)
  · intro he
    have h3 : "/policy.json".data = "/grading_policy.json".data :=
      List.append_cancel_left he
    exact absurd h3 (by decide)

/-- `generateCourse` in explicit association-list form. -/
theorem generateCourse_entries (parseDate : Str → Option Int)
    (isoZ : Int → Str) (info : CourseInfo) (chapters : List ChapterNode) :
    generateCourse parseDate isoZ info chapters
    = [("course.xml".data,
        "<course url_name=\"".data
          ++ escapeXml (some (jsOrStr info.run "course_run".data))
          ++ "\" org=\"".data ++ escapeXml (some info.org)
          ++ "\" course=\"".data ++ escapeXml (some info.courseId)
          ++ "\"/>\n".data),
       ("course/".data ++ jsOrStr info.run "course_run".data ++ ".xml".data,
        "<course display_name=\"".data ++ escapeXml (some info.courseName)
          ++ "\" language=\"".data ++ escapeXml (some info.language)
          ++ "\"".data
          ++ (if info.selfPaced then " self_paced=\"true\"".data else [])
          ++ (if info.startDate ≠ [] then
              " start=\"".data
              ++ escapeXml (some (formatEdxDate parseDate isoZ info.startDate))
              ++ "\"".data
            else [])
          ++ (if info.endDate ≠ [] then
              " end=\"".data
              ++ escapeXml (some (formatEdxDate parseDate isoZ info.endDate))
              ++ "\"".data
            else [])
          ++ ">\n".data
          ++ chapters.flatMap (fun ch => "  <chapter url_name=\"".data
              ++ escapeXml (some ch.id) ++ "\"/>\n".data)
          ++ "</course>\n".data),
       ("policies/".data ++ jsOrStr info.run "course_run".data
          ++ "/policy.json".data,
        policyJson parseDate isoZ (jsOrStr info.run "course_run".data) info
          ++ "\n".data),
       ("policies/".data ++ jsOrStr info.run "course_run".data
          ++ "/grading_policy.json".data,
        gradingPolicyJson ++ "\n".data)] := by
  obtain ⟨⟨h12, h13, h14⟩, ⟨h23, h24⟩, h34⟩ :=
    generateCourse_keys_distinct (jsOrStr info.run "course_run".data)
  simp only [generateCourse]
  exact mapSet_four _ _ _ _ _ _ _ _ h12 h13 h14 h23 h24 h34

/-- C4 counterexample: with a non-empty start date that the date parser
rejects, the generated course/{run}.xml still carries a ` start=""`
attribute — it is not omitted. -/
theorem c4_unparseable_date_counterexample :
    mapGet (generateCourse (fun _ => none) (fun _ => [])
        { courseName := [], org := [], courseId := [], run := [],
          language := "en".data, startDate := "notadate".data,
          endDate := [], selfPaced := true } [])
      "course/course_run.xml".data
    = some (("<course display_name=\"\" language=\"en\""
        ++ " self_paced=\"true\" start=\"\">\n</course>\n").data)
    ∧ (" start=\"\"".data).IsInfix
      (("<course display_name=\"\" language=\"en\""
        ++ " self_paced=\"true\" start=\"\">\n</course>\n").data) := by
  constructor
  · rfl
  · exact ⟨"<course display_name=\"\" language=\"en\" self_paced=\"true\"".data,
      ">\n</course>\n".data, by decide⟩

/-- C4 (amended): for every CourseInfo whose startDate is a non-empty
string the date parser rejects, the generated course/{run}.xml still
carries an explicit ` start=""` attribute — it is not omitted — and
symmetrically a non-empty unparseable endDate yields an explicit
` end=""` attribute; generation is total and the file is always
present. -/
theorem c4_unparseable_date_amended (parseDate : Str → Option Int)
    (isoZ : Int → Str) (info : CourseInfo) (chapters : List ChapterNode) :
    (info.startDate ≠ [] → parseDate info.startDate = none →
      mapGet (generateCourse parseDate isoZ info chapters)
        ("course/".data ++ jsOrStr info.run "course_run".data ++ ".xml".data)
      = some ("<course display_name=\"".data
          ++ escapeXml (some info.courseName)
          ++ "\" language=\"".data ++ escapeXml (some info.language)
          ++ "\"".data
          ++ (if info.selfPaced then " self_paced=\"true\"".data else [])
          ++ " start=\"\"".data
          ++ (if info.endDate ≠ [] then
              " end=\"".data
              ++ escapeXml (some (formatEdxDate parseDate isoZ info.endDate))
              ++ "\"".data
            else [])
          ++ ">\n".data
          ++ chapters.flatMap (fun ch => "  <chapter url_name=\"".data
              ++ escapeXml (some ch.id) ++ "\"/>\n".data)
          ++ "</course>\n".data))
    ∧ (info.endDate ≠ [] → parseDate info.endDate = none →
      mapGet (generateCourse parseDate isoZ info chapters)
        ("course/".data ++ jsOrStr info.run "course_run".data ++ ".xml".data)
      = some ("<course display_name=\"".data
          ++ escapeXml (some info.courseName)
          ++ "\" language=\"".data ++ escapeXml (some info.language)
          ++ "\"".data
          ++ (if info.selfPaced then " self_paced=\"true\"".data else [])
          ++ (if info.startDate ≠ [] then
              " start=\"".data
              ++ escapeXml (some (formatEdxDate parseDate isoZ info.startDate))
              ++ "\"".data
            else [])
          ++ " end=\"\"".data
          ++ ">\n".data
          ++ chapters.flatMap (fun ch => "  <chapter url_name=\"".data
              ++ escapeXml (some ch.id) ++ "\"/>\n".data)
          ++ "</course>\n".data)) := by
  obtain ⟨⟨h12, _, _⟩, _, _⟩ :=
    generateCourse_keys_distinct (jsOrStr info.run "course_run".data)
  constructor
  · intro hne hbad
    rw [generateCourse_entries]
    rw [mapGet_cons_of_ne _ _ _ _ h12]
    rw [mapGet_cons_self]
    have hs : (if info.startDate ≠ [] then
        " start=\"".data
        ++ escapeXml (some (formatEdxDate parseDate isoZ info.startDate))
        ++ "\"".data
      else []) = " start=\"\"".data := by
      rw [if_pos hne]
      unfold formatEdxDate
      rw [if_neg hne, hbad]
      rfl
    rw [hs]
  · intro hne hbad
    rw [generateCourse_entries]
    rw [mapGet_cons_of_ne _ _ _ _ h12]
    rw [mapGet_cons_self]
    have he : (if info.endDate ≠ [] then
        " end=\"".data
        ++ escapeXml (some (formatEdxDate parseDate isoZ info.endDate))
        ++ "\"".data
      else []) = " end=\"\"".data := by
      rw [if_pos hne]
      unfold formatEdxDate
      rw [if_neg hne, hbad]
      rfl
    rw [he]

theorem c4_unparseable_date_amended_witness :
    (mapGet (generateCourse (fun _ => none) (fun _ => [])
        { courseName := "C".data, org := [], courseId := [], run := [],
          language := "en".data, startDate := "02/31/broken".data,
          endDate := "13/45/bad".data, selfPaced := false } [])
      ("course/".data ++ jsOrStr ([] : Str) "course_run".data ++ ".xml".data)
    = some ("<course display_name=\"".data
        ++ escapeXml (some "C".data)
        ++ "\" language=\"".data ++ escapeXml (some "en".data)
        ++ "\"".data
        ++ (if (false : Bool) then " self_paced=\"true\"".data else [])
        ++ " start=\"\"".data
        ++ (if ("13/45/bad".data : Str) ≠ [] then
            " end=\"".data
            ++ escapeXml (some (formatEdxDate (fun _ => none) (fun _ => [])
                "13/45/bad".data))
            ++ "\"".data
          else [])
        ++ ">\n".data
        ++ ([] : List ChapterNode).flatMap
            (fun ch => "  <chapter url_name=\"".data
              ++ escapeXml (some ch.id) ++ "\"/>\n".data)
        ++ "</course>\n".data))
    ∧ (mapGet (generateCourse (fun _ => none) (fun _ => [])
        { courseName := "C".data, org := [], courseId := [], run := [],
          language := "en".data, startDate := "02/31/broken".data,
          endDate := "13/45/bad".data, selfPaced := false } [])
      ("course/".data ++ jsOrStr ([] : Str) "course_run".data ++ ".xml".data)
    = some ("<course display_name=\"".data
        ++ escapeXml (some "C".data)
        ++ "\" language=\"".data ++ escapeXml (some "en".data)
        ++ "\"".data
        ++ (if (false : Bool) then " self_paced=\"true\"".data else [])
        ++ (if ("02/31/broken".data : Str) ≠ [] then
            " start=\"".data
            ++ escapeXml (some (formatEdxDate (fun _ => none) (fun _ => [])
                "02/31/broken".data))
            ++ "\"".data
          else [])
        ++ " end=\"\"".data
        ++ ">\n".data
        ++ ([] : List ChapterNode).flatMap
            (fun ch => "  <chapter url_name=\"".data
              ++ escapeXml (some ch.id) ++ "\"/>\n".data)
        ++ "</course>\n".data)) :=
  ⟨(c4_unparseable_date_amended (fun _ => none) (fun _ => [])
    { courseName := "C".data, org := [], courseId := [], run := [],
      language := "en".data, startDate := "02/31/broken".data,
      endDate := "13/45/bad".data, selfPaced := false } []).1
    (by decide) rfl,
   (c4_unparseable_date_amended (fun _ => none) (fun _ => [])
    { courseName := "C".data, org := [], courseId := [], run := [],
      language := "en".data, startDate := "02/31/broken".data,
      endDate := "13/45/bad".data, selfPaced := false } []).2
    (by decide) rfl⟩

/-! ### OLX decoder (src/src/main.js: parseOlx and helpers).  The
regex-based scanners are embedded as character-level functions following
the JavaScript regular expressions; global scans use a fuel argument
bounded by the input length so that every definition is structural. -/

/-- `\w`. -/
def isWordChar (c : Char) : Bool :=
  (97 ≤ c.toNat ∧ c.toNat ≤ 122) ∨ (65 ≤ c.toNat ∧ c.toNat ≤ 90)
  ∨ (48 ≤ c.toNat ∧ c.toNat ≤ 57) ∨ c = '_'

/-- `\s` (ASCII fragment). -/
def isRegexSpace (c : Char) : Bool :=
  c = ' ' ∨ c = Char.ofNat 9 ∨ c = Char.ofNat 10 ∨ c = Char.ofNat 13
  ∨ c = Char.ofNat 11 ∨ c = Char.ofNat 12

/-- `[\w_:-]` of the attribute-name pattern. -/
def isAttrNameChar (c : Char) : Bool := isWordChar c ∨ c = ':' ∨ c = '-'

/-- `String.prototype.replace(/pat/g, rep)` for a literal non-empty
pattern: non-overlapping left-to-right replacement. -/
def replaceAllAux (pat rep : Str) : Nat → Str → Str
  | _, [] => []
  | 0, s => s
  | fuel + 1, c :: rest =>
    if pat.isPrefixOf (c :: rest) then
      rep ++ replaceAllAux pat rep fuel (rest.drop (pat.length - 1))
    else c :: replaceAllAux pat rep fuel rest

def replaceAll (pat rep s : Str) : Str := replaceAllAux pat rep s.length s

/-- `decodeXmlEntities` (src/src/main.js): `&amp;` first, then the other
four entities. -/
def decodeXmlEntities (s : Str) : Str :=
  replaceAll "&apos;".data "'".data
    (replaceAll "&quot;".data "\"".data
      (replaceAll "&gt;".data ">".data
        (replaceAll "&lt;".data "<".data
          (replaceAll "&amp;".data "&".data s))))

/-- Reading a JS object property that holds a string (`attrs.x || ''`):
assignments are last-wins. -/
def attrsGet (attrs : List (Str × Str)) (k : Str) : Str :=
  (lookupLast attrs k).getD []

/-- One attempt of `/([\w_:-]+)\s*=\s*"([^"]*?)"/` anchored at the start
of `s`: returns name, raw value and the rest after the closing quote. -/
def tryAttrAt (s : Str) : Option (Str × Str × Str) :=
  let name := s.takeWhile isAttrNameChar
  if name = [] then none
  else
    match (s.drop name.length).dropWhile isRegexSpace with
    | '=' :: s3 =>
      match s3.dropWhile isRegexSpace with
      | '"' :: s5 =>
        if s5.any (· = '"') then
          let v := s5.takeWhile (· ≠ '"')
          some (name, v, s5.drop (v.length + 1))
        else none
      | _ => none
    | _ => none

def scanAttrsAux : Nat → Str → List (Str × Str)
  | _, [] => []
  | 0, _ => []
  | fuel + 1, c :: rest =>
    match tryAttrAt (c :: rest) with
    | some (n, v, restAfter) =>
      (n, decodeXmlEntities v) :: scanAttrsAux fuel restAfter
    | none => scanAttrsAux fuel rest

/-- The global attribute scan of `parseXmlAttributes`/`extractBlocks`. -/
def scanAttrs (s : Str) : List (Str × Str) := scanAttrsAux s.length s

/-- `/<\w+\s([^>]*?)\/?>/` anchored at the start of `s`: the captured
attribute text of an opening tag. -/
def matchTagAt (s : Str) : Option Str :=
  match s with
  | '<' :: rest =>
    let w := rest.takeWhile isWordChar
    if w = [] then none
    else
      match rest.drop w.length with
      | c :: rest2 =>
        if isRegexSpace c then
          if rest2.any (· = '>') then
            let raw := rest2.takeWhile (· ≠ '>')
            some (if raw.getLast? = some '/' then raw.dropLast else raw)
          else none
        else none
      | [] => none
  | _ => none

def firstTagAttrStr : Str → Option Str
  | [] => none
  | c :: rest =>
    match matchTagAt (c :: rest) with
    | some cap => some cap
    | none => firstTagAttrStr rest

/-- `parseXmlAttributes(xml)` (src/src/main.js). -/
def parseXmlAttributes (xml : Str) : List (Str × Str) :=
  match firstTagAttrStr xml with
  | none => []
  | some cap => scanAttrs cap

/-- The literal `url_name="` of the child-id pattern. -/
def urlNameLit : Str := "url_name=\"".data

/-- A start position for the greedy `[^>]*url_name="` backtrack: the
literal matches here and a closing quote follows. -/
def validUrlPos (s3 : Str) (i : Nat) : Bool :=
  urlNameLit.isPrefixOf (s3.drop i) ∧ (s3.drop (i + 10)).any (· = '"')

/-- One attempt of `` `<${tagName}\s[^>]*url_name="([^"]*)"` `` anchored
at the start of `s`; the greedy `[^>]*` selects the rightmost viable
`url_name="` inside the `>`-free run. -/
def matchChildAt (tagName : Str) (s : Str) : Option (Str × Str) :=
  match s with
  | '<' :: s1 =>
    if tagName.isPrefixOf s1 then
      match s1.drop tagName.length with
      | c :: s3 =>
        if isRegexSpace c then
          let region := s3.takeWhile (· ≠ '>')
          match ((List.range (region.length + 1)).filter
              (fun i => validUrlPos s3 i)).getLast? with
          | some p =>
            let after := s3.drop (p + 10)
            let v := after.takeWhile (· ≠ '"')
            some (v, after.drop (v.length + 1))
          | none => none
        else none
      | [] => none
    else none
  | _ => none

def extractChildIdsAux (tagName : Str) : Nat → Str → List Str
  | _, [] => []
  | 0, _ => []
  | fuel + 1, c :: rest =>
    match matchChildAt tagName (c :: rest) with
    | some (v, restAfter) => v :: extractChildIdsAux tagName fuel restAfter
    | none => extractChildIdsAux tagName fuel rest

/-- `extractChildIds(xml, tagName)` (src/src/main.js). -/
def extractChildIds (xml tagName : Str) : List Str :=
  extractChildIdsAux tagName xml.length xml

/-- `\/?\s*>` anchored at the start of `s`: the number of characters it
consumes, if it matches. -/
def tailGt (s : Str) : Option Nat :=
  match s with
  | '/' :: t =>
    let sp := t.takeWhile isRegexSpace
    match t.drop sp.length with
    | '>' :: _ => some (1 + sp.length + 1)
    | _ => none
  | _ =>
    let sp := s.takeWhile isRegexSpace
    match s.drop sp.length with
    | '>' :: _ => some (sp.length + 1)
    | _ => none

/-- The lazy `([^>]*?)\/?\s*>` of `extractBlocks`: shortest `>`-free
capture whose remainder starts with `\/?\s*>`. -/
def lazyCapture : Str → Option (Str × Str)
  | [] => none
  | c :: rest =>
    match tailGt (c :: rest) with
    | some n => some ([], (c :: rest).drop n)
    | none =>
      if c = '>' then none
      else
        match lazyCapture rest with
        | some (cap, r) => some (c :: cap, r)
        | none => none

/-- One attempt of `/<(\w+)\s([^>]*?)\/?\s*>/` anchored at `s`. -/
def matchBlockAt (s : Str) : Option (Str × List (Str × Str) × Str) :=
  match s with
  | '<' :: rest =>
    let w := rest.takeWhile isWordChar
    if w = [] then none
    else
      match rest.drop w.length with
      | c :: rest2 =>
        if isRegexSpace c then
          match lazyCapture rest2 with
          | some (cap, restAfter) => some (w, scanAttrs cap, restAfter)
          | none => none
        else none
      | [] => none
  | _ => none

def extractBlocksAux : Nat → Str → List (Str × List (Str × Str))
  | _, [] => []
  | 0, _ => []
  | fuel + 1, c :: rest =>
    match matchBlockAt (c :: rest) with
    | some (tag, attrs, restAfter) =>
      if tag = "vertical".data then extractBlocksAux fuel restAfter
      else if attrsGet attrs "url_name".data ≠ [] then
        (tag, attrs) :: extractBlocksAux fuel restAfter
      else extractBlocksAux fuel restAfter
    | none => extractBlocksAux fuel rest

/-- `extractBlocks(xml)` (src/src/main.js): every non-`vertical` opening
tag with a `url_name` attribute, as (tag, attributes). -/
def extractBlocks (xml : Str) : List (Str × List (Str × Str)) :=
  extractBlocksAux xml.length xml

def stripTagsAux : Nat → Str → Str
  | _, [] => []
  | 0, s => s
  | fuel + 1, c :: rest =>
    if c = '<' ∧ rest.any (· = '>') then
      let inner := rest.takeWhile (· ≠ '>')
      ' ' :: stripTagsAux fuel (rest.drop (inner.length + 1))
    else c :: stripTagsAux fuel rest

/-- `replace(/\s+/g, ' ')`. -/
def wsCollapse : Bool → Str → Str
  | _, [] => []
  | prevWs, c :: cs =>
    if c.isWhitespace then
      (if prevWs then [] else [' ']) ++ wsCollapse true cs
    else c :: wsCollapse false cs

/-- `stripTags(html)` (src/src/main.js): tags to spaces, whitespace
collapsed, trimmed. -/
def stripTags (html : Str) : Str :=
  jsTrim (wsCollapse false (stripTagsAux html.length html))

/-- Index of the first occurrence of `pat` in `s`. -/
def findSub (pat : Str) : Str → Option Nat
  | [] => if pat = [] then some 0 else none
  | c :: rest =>
    if pat.isPrefixOf (c :: rest) then some 0
    else (findSub pat rest).map (· + 1)

/-- `s.match(/open([\s\S]*?)close/)`: the first lazily captured body. -/
def betweenTags (openT closeT s : Str) : Option Str :=
  match findSub openT s with
  | none => none
  | some i =>
    let after := s.drop (i + openT.length)
    match findSub closeT after with
    | none => none
    | some j => some (after.take j)

/-- `/<choice\s+correct="(true|false)">([\s\S]*?)<\/choice>/` anchored at
`s`: flag, lazy body, rest. -/
def matchChoiceAt (s : Str) : Option (Bool × Str × Str) :=
  if "<choice".data.isPrefixOf s then
    let t := s.drop 7
    let sp := t.takeWhile isRegexSpace
    if sp = [] then none
    else
      let t2 := t.drop sp.length
      if "correct=\"true\">".data.isPrefixOf t2 then
        let body := t2.drop 15
        match findSub "</choice>".data body with
        | some j => some (true, body.take j, body.drop (j + 9))
        | none => none
      else if "correct=\"false\">".data.isPrefixOf t2 then
        let body := t2.drop 16
        match findSub "</choice>".data body with
        | some j => some (false, body.take j, body.drop (j + 9))
        | none => none
      else none
  else none

def scanChoicesAux : Nat → Str → List (Bool × Str)
  | _, [] => []
  | 0, _ => []
  | fuel + 1, c :: rest =>
    match matchChoiceAt (c :: rest) with
    | some (b, body, restAfter) => (b, body) :: scanChoicesAux fuel restAfter
    | none => scanChoicesAux fuel rest

def scanChoices (s : Str) : List (Bool × Str) := scanChoicesAux s.length s

/-- The per-choice body processing of `parseProblemBlock`. -/
def parseChoiceBody (b : Bool) (body : Str) : Choice :=
  match betweenTags "<choicehint>".data "</choicehint>".data body with
  | some hintBody =>
    let cut := (findSub "<choicehint".data body).getD 0
    { text := jsTrim (stripTags (body.take cut)), correct := b,
      hint := jsTrim (stripTags hintBody) }
  | none => { text := jsTrim (stripTags body), correct := b, hint := [] }

/-- `.replace(/Explanation\s*/i, '')`: remove the first case-insensitive
occurrence and its trailing whitespace. -/
def removeExplanation (s : Str) : Str :=
  match findSub "explanation".data (jsLower s) with
  | none => s
  | some i => s.take i ++ (s.drop (i + 11)).dropWhile Char.isWhitespace

/-- `attrs.youtube.match(/1\.00:(\S+)/)`: first `1.00:` followed by a
non-empty run of non-space characters. -/
def ytMatchAux : Nat → Str → Option Str
  | _, [] => none
  | 0, _ => none
  | fuel + 1, c :: rest =>
    if "1.00:".data.isPrefixOf (c :: rest) then
      let cap := ((c :: rest).drop 5).takeWhile (fun ch => ¬ ch.isWhitespace)
      if cap ≠ [] then some cap else ytMatchAux fuel rest
    else ytMatchAux fuel rest

def ytMatch (s : Str) : Option Str := ytMatchAux s.length s

/-- A global `open…close` body scan (`<criterion>`, `<option …>`). -/
def scanBodiesAux (openT closeT : Str) : Nat → Str → List Str
  | _, [] => []
  | 0, _ => []
  | fuel + 1, c :: rest =>
    if openT.isPrefixOf (c :: rest) then
      let after := (c :: rest).drop openT.length
      match findSub closeT after with
      | some j =>
        (after.take j) :: scanBodiesAux openT closeT fuel
          (after.drop (j + closeT.length))
      | none => []
    else scanBodiesAux openT closeT fuel rest

def scanBodies (openT closeT s : Str) : List Str :=
  scanBodiesAux openT closeT s.length s

/-- `/<option\s+points="(\d+)">([\s\S]*?)<\/option>/` anchored at `s`. -/
def matchOptionAt (s : Str) : Option (Nat × Str × Str) :=
  if "<option".data.isPrefixOf s then
    let t := s.drop 7
    let sp := t.takeWhile isRegexSpace
    if sp = [] then none
    else
      let t2 := t.drop sp.length
      if "points=\"".data.isPrefixOf t2 then
        let t3 := t2.drop 8
        let ds := t3.takeWhile (fun c => 48 ≤ c.toNat ∧ c.toNat ≤ 57)
        if ds = [] then none
        else if "\">".data.isPrefixOf (t3.drop ds.length) then
          let body := t3.drop (ds.length + 2)
          match findSub "</option>".data body with
          | some j =>
            some (ds.foldl (fun a c => a * 10 + (c.toNat - 48)) 0,
              body.take j, body.drop (j + 9))
          | none => none
        else none
      else none
  else none

def scanOptionsAux : Nat → Str → List (Nat × Str)
  | _, [] => []
  | 0, _ => []
  | fuel + 1, c :: rest =>
    match matchOptionAt (c :: rest) with
    | some (pts, body, restAfter) => (pts, body) :: scanOptionsAux fuel restAfter
    | none => scanOptionsAux fuel rest

def scanOptions (s : Str) : List (Nat × Str) := scanOptionsAux s.length s

/-- `parseHtmlBlock` (src/src/main.js). -/
def parseHtmlBlock (files : List (Str × Str)) (blockId : Str)
    (d : CourseData) : CourseData :=
  if (mapGet d.textBlocks blockId).isSome then d
  else
    let xmlFile := (mapGet files ("html/".data ++ blockId ++ ".xml".data)).getD []
    let xmlAttrs := if xmlFile = [] then [] else parseXmlAttributes xmlFile
    let title := jsOrStr (attrsGet xmlAttrs "display_name".data) blockId
    let htmlFilename := jsOrStr (attrsGet xmlAttrs "filename".data) blockId
    let htmlContent :=
      (mapGet files ("html/".data ++ htmlFilename ++ ".html".data)).getD []
    let tb : TextBlock :=
      { blockId := blockId, title := title, content := jsTrim htmlContent }
    { d with textBlocks := mapSet d.textBlocks blockId tb }

/-- `parseVideoBlock` (src/src/main.js).  `JSON.parse` of the
`html5_sources` array is the platform parameter `jsonArr`. -/
def parseVideoBlock (jsonArr : Str → Option (List Str))
    (files : List (Str × Str)) (blockId : Str)
    (inlineAttrs : List (Str × Str)) (d : CourseData) : CourseData :=
  if (mapGet d.videoBlocks blockId).isSome then d
  else
    let xmlFile := (mapGet files ("video/".data ++ blockId ++ ".xml".data)).getD []
    let attrs := if xmlFile = [] then inlineAttrs else parseXmlAttributes xmlFile
    let title := jsOrStr (attrsGet attrs "display_name".data) blockId
    let y0 := attrsGet attrs "youtube_id_1_0".data
    let youtubeId :=
      if y0 ≠ [] then y0
      else if attrsGet attrs "youtube".data ≠ [] then
        ((ytMatch (attrsGet attrs "youtube".data)).getD [])
      else []
    let h5 := attrsGet attrs "html5_sources".data
    let html5Url :=
      if h5 = [] then []
      else
        match jsonArr (replaceAll "&quot;".data "\"".data h5) with
        | some arr => (arr.head?).getD []
        | none => h5
    let vb : VideoBlock :=
      { blockId := blockId, title := title, youtubeId := youtubeId,
        html5Url := html5Url,
        startTime := jsOrStr (attrsGet attrs "start_time".data) "00:00:00".data,
        endTime := jsOrStr (attrsGet attrs "end_time".data) "00:00:00".data }
    { d with videoBlocks := mapSet d.videoBlocks blockId vb }

/-- `parseProblemBlock` (src/src/main.js). -/
def parseProblemBlock (files : List (Str × Str)) (blockId : Str)
    (st : CourseData × List Str) : CourseData × List Str :=
  if (mapGet st.1.problemBlocks blockId).isSome then st
  else
    let xmlFile :=
      (mapGet files ("problem/".data ++ blockId ++ ".xml".data)).getD []
    if xmlFile = [] then
      (st.1, st.2 ++ ["Problem file not found: problem/".data ++ blockId
        ++ ".xml".data])
    else
      let attrs := parseXmlAttributes xmlFile
      let title := jsOrStr (attrsGet attrs "display_name".data) blockId
      let questionText :=
        match betweenTags "<label>".data "</label>".data xmlFile with
        | some b => stripTags b
        | none => []
      let choices := (scanChoices xmlFile).map
        (fun p => parseChoiceBody p.1 p.2)
      let explanation :=
        match betweenTags "<solution>".data "</solution>".data xmlFile with
        | some b => jsTrim (removeExplanation (stripTags b))
        | none => []
      let pb : ProblemBlock :=
        { blockId := blockId, title := title, questionText := questionText,
          choices := choices, explanation := explanation,
          showAnswer := jsOrStr (attrsGet attrs "showanswer".data)
            "attempted".data }
      ({ st.1 with problemBlocks := mapSet st.1.problemBlocks blockId pb }, st.2)

/-- The criterion bodies of `parseOpenResponseBlock`. -/
def parseCriterionBody (critContent : Str) : Option Criterion :=
  let nm := match betweenTags "<name>".data "</name>".data critContent with
    | some b => stripTags b
    | none => []
  if nm = [] then none
  else
    let opts : List CriterionOption := (scanOptions critContent).map (fun p =>
      { label := match betweenTags "<label>".data "</label>".data p.2 with
          | some b => stripTags b
          | none => [],
        points := Int.ofNat p.1 })
    some { name := nm, options := opts }

/-- `parseOpenResponseBlock` (src/src/main.js). -/
def parseOpenResponseBlock (files : List (Str × Str)) (blockId : Str)
    (st : CourseData × List Str) : CourseData × List Str :=
  if (mapGet st.1.openResponseBlocks blockId).isSome then st
  else
    let xmlFile :=
      (mapGet files ("openassessment/".data ++ blockId ++ ".xml".data)).getD []
    if xmlFile = [] then
      (st.1, st.2 ++ ["Open response file not found: openassessment/".data
        ++ blockId ++ ".xml".data])
    else
      let attrs := parseXmlAttributes xmlFile
      let title := jsOrStr (attrsGet attrs "display_name".data) blockId
      let prompt :=
        match betweenTags "<description>".data "</description>".data xmlFile with
        | some b => stripTags b
        | none => []
      let criteria :=
        (scanBodies "<criterion>".data "</criterion>".data xmlFile).filterMap
          parseCriterionBody
      let assessmentType :=
        if (findSub "name=\"staff-assessment\"".data xmlFile).isSome then
          "staff".data
        else if (findSub "name=\"peer-assessment\"".data xmlFile).isSome then
          "peer".data
        else "self".data
      let ob : OpenResponseBlock :=
        { blockId := blockId, title := title, prompt := prompt,
          criteria := criteria, assessmentType := assessmentType }
      ({ st.1 with openResponseBlocks := mapSet st.1.openResponseBlocks blockId ob }, st.2)

/-- The switch over one extracted block of a vertical, then the
structure-row push. -/
def processOlxBlock (jsonArr : Str → Option (List Str))
    (files : List (Str × Str)) (chapterName seqName vertName vertId : Str)
    (st : CourseData × List Str)
    (block : Str × List (Str × Str)) : CourseData × List Str :=
  let blockId := attrsGet block.2 "url_name".data
  let pushRow := fun (bt : Str) (st1 : CourseData × List Str) =>
    if bt ≠ [] ∧ blockId ≠ [] then
      ({ st1.1 with structureRows := st1.1.structureRows
          ++ [{ chapter := chapterName, sequential := seqName,
                vertical := vertName, blockType := bt,
                blockId := blockId }] }, st1.2)
    else st1
  if block.1 = "html".data then
    pushRow "text".data (parseHtmlBlock files blockId st.1, st.2)
  else if block.1 = "video".data then
    pushRow "video".data
      (parseVideoBlock jsonArr files blockId block.2 st.1, st.2)
  else if block.1 = "problem".data then
    pushRow "problem".data (parseProblemBlock files blockId st)
  else if block.1 = "openassessment".data then
    pushRow "openresponse".data (parseOpenResponseBlock files blockId st)
  else if block.1 = "library_content".data ∨ block.1 = "discussion".data
      ∨ block.1 = "lti".data ∨ block.1 = "lti_consumer".data then
    st
  else
    (st.1, st.2 ++ ["Unknown block type \"".data ++ block.1
      ++ "\" in vertical ".data ++ vertId ++ ", skipping.".data])

def processOlxVertical (jsonArr : Str → Option (List Str))
    (files : List (Str × Str)) (chapterName seqName : Str)
    (st : CourseData × List Str) (vertId : Str) : CourseData × List Str :=
  let vertXml :=
    (mapGet files ("vertical/".data ++ vertId ++ ".xml".data)).getD []
  if vertXml = [] then
    (st.1, st.2 ++ ["Vertical file not found: vertical/".data ++ vertId
      ++ ".xml".data])
  else
    let vertAttrs := parseXmlAttributes vertXml
    let vertName := jsOrStr (attrsGet vertAttrs "display_name".data) vertId
    (extractBlocks vertXml).foldl
      (processOlxBlock jsonArr files chapterName seqName vertName vertId) st

def processOlxSequential (jsonArr : Str → Option (List Str))
    (files : List (Str × Str)) (chapterName : Str)
    (st : CourseData × List Str) (seqId : Str) : CourseData × List Str :=
  let seqXml :=
    (mapGet files ("sequential/".data ++ seqId ++ ".xml".data)).getD []
  if seqXml = [] then
    (st.1, st.2 ++ ["Sequential file not found: sequential/".data ++ seqId
      ++ ".xml".data])
  else
    let seqAttrs := parseXmlAttributes seqXml
    let seqName := jsOrStr (attrsGet seqAttrs "display_name".data) seqId
    (extractChildIds seqXml "vertical".data).foldl
      (processOlxVertical jsonArr files chapterName seqName) st

def processOlxChapter (jsonArr : Str → Option (List Str))
    (files : List (Str × Str)) (st : CourseData × List Str)
    (chId : Str) : CourseData × List Str :=
  let chXml :=
    (mapGet files ("chapter/".data ++ chId ++ ".xml".data)).getD []
  if chXml = [] then
    (st.1, st.2 ++ ["Chapter file not found: chapter/".data ++ chId
      ++ ".xml".data])
  else
    let chAttrs := parseXmlAttributes chXml
    let chapterName := jsOrStr (attrsGet chAttrs "display_name".data) chId
    (extractChildIds chXml "sequential".data).foldl
      (processOlxSequential jsonArr files chapterName) st

/-- `parseOlx(files)` (src/src/main.js).  The platform facilities are
parameters: `jsonArr` is `JSON.parse` restricted to the
`html5_sources` string-array use (`none` models a thrown parse error),
and `policyStep` is the `try { JSON.parse(policyFile) … }` block of
Step 3, which only updates info fields and may append one warning. -/
def parseOlx (jsonArr : Str → Option (List Str))
    (policyStep : Str → Str → CourseInfo → CourseInfo × List Str)
    (files : List (Str × Str)) : CourseData × List Str :=
  let courseXml := (mapGet files "course.xml".data).getD []
  if courseXml = [] then
    (createCourseData,
      ["Missing course.xml — cannot determine course structure.".data])
  else
    let courseAttrs := parseXmlAttributes courseXml
    let run := attrsGet courseAttrs "url_name".data
    let info0 := { createCourseData.info with
      org := attrsGet courseAttrs "org".data,
      courseId := attrsGet courseAttrs "course".data,
      run := run }
    let courseRunXml :=
      (mapGet files ("course/".data ++ run ++ ".xml".data)).getD []
    let info1 := if courseRunXml = [] then info0 else
      let runAttrs := parseXmlAttributes courseRunXml
      { info0 with
        courseName := attrsGet runAttrs "display_name".data,
        language := jsOrStr (attrsGet runAttrs "language".data) "en".data,
        selfPaced := attrsGet runAttrs "self_paced".data = "true".data,
        startDate := if attrsGet runAttrs "start".data ≠ [] then
            attrsGet runAttrs "start".data
          else info0.startDate,
        endDate := if attrsGet runAttrs "end".data ≠ [] then
            attrsGet runAttrs "end".data
          else info0.endDate }
    let pf :=
      (mapGet files ("policies/".data ++ run ++ "/policy.json".data)).getD []
    let p := if pf = [] then (info1, ([] : List Str)) else policyStep run pf info1
    let data1 := { createCourseData with info := p.1 }
    let chapterIds := extractChildIds courseRunXml "chapter".data
    chapterIds.foldl (processOlxChapter jsonArr files) (data1, p.2)

/-- C7: for every extracted entry map with no entry at path course.xml,
the OLX decoder returns the empty CourseData (all defaults, no structure
rows, all four block maps empty) together with exactly one warning; the
result is returned, never thrown. -/
theorem c7_missing_course_xml (jsonArr : Str → Option (List Str))
    (policyStep : Str → Str → CourseInfo → CourseInfo × List Str)
    (files : List (Str × Str))
    (h : mapGet files "course.xml".data = none) :
    parseOlx jsonArr policyStep files
    = (createCourseData,
       ["Missing course.xml — cannot determine course structure.".data]) := by
  unfold parseOlx
  rw [h]
  rfl

theorem c7_missing_course_xml_witness :
    parseOlx (fun _ => none) (fun _ _ i => (i, [])) []
    = (createCourseData,
       ["Missing course.xml — cannot determine course structure.".data]) :=
  c7_missing_course_xml (fun _ => none) (fun _ _ i => (i, [])) [] rfl

/-! ### The remaining OLX generators, translated from
src/src/generators: sequential.js, vertical.js, html.js, problem.js,
chapter.js, video.js and openresponse.js. -/

end CourseEngine
